import Mathlib

/-!
# Human-behaviour simulation and rate governance (Go package `stealth`)

Shallow embedding of `internal/stealth/{mouse,browser,typing,timing}.go`.

Modelling conventions

* A `*rand.Rand` is a stream of raw draws with a cursor (`Rand`); every call of
  `Float64`, `Intn` or `Int63n` consumes one draw, so quantifying over all
  streams covers every outcome of the random draws.
* `time.Now()` is an explicit argument of every operation that reads the clock.
  A `Time` carries the wall-clock reading (civil date and hour, used by `Day()`
  and `Hour()`) and the monotonic reading in nanoseconds (used by `Sub`).
* `time.Duration` is an `Int` number of nanoseconds.
* Sleeps and page primitives are recorded as values (the slept duration, the
  list of offsets or events issued) instead of being performed.
* `float64` in `generateBezierPath` is exact rational arithmetic: the library
  functions `math.Pow` and `math.Sqrt` are taken as the exact power and square
  root, so rounding in the last bits of a coordinate or of the distance is not
  represented.
* `float64` in `smoothScrollTo`, which uses only conversions and the basic
  operations, is IEEE-754 binary64: every operation is the exact operation
  followed by `roundF64` (round to nearest, ties to even).
* Go strings are valid UTF-8 (`String`); `range` yields their characters with
  the byte offset of each, `len` their byte length. A slice taken by byte index
  need not be valid UTF-8; it is given as the characters `range` reads, each
  with its width in bytes (`byteSuffix`).
* Values read from the page (`window.pageYOffset`, the heights) and the results
  of `element.Focus()` are arguments: an arbitrary sequence of readings.
-/

namespace Stealth

/-! ## Random source (`math/rand`) -/

/-- A `*rand.Rand`: the stream `src` of raw draws and the position of the next one. -/
structure Rand where
  src : ℕ → ℕ
  pos : ℕ

/-- The generator after one draw has been consumed. -/
def Rand.next (r : Rand) : Rand := { r with pos := r.pos + 1 }

/-- `r.Float64()`: a number in `[0,1)`, a multiple of `2^-63`. -/
def Rand.Float64 (r : Rand) : ℚ × Rand :=
  (((r.src r.pos % 2 ^ 63 : ℕ) : ℚ) / 2 ^ 63, r.next)

/-- `r.Intn(n)` for `n > 0` (Go panics otherwise): a number in `[0,n)`. -/
def Rand.Intn (r : Rand) (n : ℤ) : ℤ × Rand :=
  ((r.src r.pos : ℤ) % n, r.next)

/-- `r.Int63n(n)` for `n > 0` (Go panics otherwise): a number in `[0,n)`. -/
def Rand.Int63n (r : Rand) (n : ℤ) : ℤ × Rand :=
  ((r.src r.pos : ℤ) % n, r.next)

/-! ## mouse.go -/

/-- Point represents a 2D point. -/
structure Point where
  X : ℚ
  Y : ℚ
deriving DecidableEq, Repr

/-- The conversion `int(math.Sqrt(s) / 10)` of mouse.go line 76 for `s ≥ 0`:
the integer part of `√s / 10`, computed as the integer square root of
`⌊s / 100⌋` (see `truncSqrtDiv10_eq_floor`). -/
def truncSqrtDiv10 (s : ℚ) : ℤ :=
  (Nat.sqrt (⌊s / 100⌋).toNat : ℤ)

/-- Number of points in the path (mouse.go lines 76-82). -/
def bezierSteps (x1 y1 x4 y4 : ℚ) : ℤ :=
  let steps := truncSqrtDiv10 ((x4 - x1) ^ 2 + (y4 - y1) ^ 2)
  let steps := if steps < 10 then 10 else steps
  if steps > 100 then 100 else steps

/-- Cubic Bézier formula `B(t) = (1-t)³P₀ + 3(1-t)²tP₁ + 3(1-t)t²P₂ + t³P₃`
(mouse.go lines 89-99). -/
def bezierPoint (x1 y1 x2 y2 x3 y3 x4 y4 t : ℚ) : Point :=
  { X := (1 - t) ^ 3 * x1 + 3 * (1 - t) ^ 2 * t * x2 + 3 * (1 - t) * t ^ 2 * x3 + t ^ 3 * x4
    Y := (1 - t) ^ 3 * y1 + 3 * (1 - t) ^ 2 * t * y2 + 3 * (1 - t) * t ^ 2 * y3 + t ^ 3 * y4 }

/-- `generateBezierPath` creates a smooth path using cubic Bézier curves.
Returns the path and the generator after the four control-point draws. -/
def generateBezierPath (m : Rand) (x1 y1 x4 y4 : ℚ) : List Point × Rand :=
  let x2 := x1 + (x4 - x1) * m.Float64.1
  let m := m.Float64.2
  let y2 := y1 + (y4 - y1) * m.Float64.1
  let m := m.Float64.2
  let x3 := x1 + (x4 - x1) * m.Float64.1
  let m := m.Float64.2
  let y3 := y1 + (y4 - y1) * m.Float64.1
  let m := m.Float64.2
  let steps := bezierSteps x1 y1 x4 y4
  ((List.range steps.toNat).map fun (i : ℕ) =>
      bezierPoint x1 y1 x2 y2 x3 y3 x4 y4 ((i : ℚ) / ((steps - 1 : ℤ) : ℚ)), m)

/-! ## float64 (IEEE-754 binary64) -/

/-- Nearest integer to `m`, a tie going to the even neighbour. -/
def roundHalfEven (m : ℚ) : ℤ :=
  let f := ⌊m⌋
  let r := m - f
  if r < 1 / 2 then f else if 1 / 2 < r then f + 1 else if f % 2 = 0 then f else f + 1

/-- The float64 nearest to the rational `q` (round to nearest, ties to even):
a 53-bit significand scaled by the power of two of `q`, the exponent never
below that of the subnormal numbers. Overflow to an infinity (magnitudes from
`2^1024` on) is outside the model. -/
def roundF64 (q : ℚ) : ℚ :=
  if q = 0 then 0
  else
    let e := max (Int.log 2 |q|) (-1022)
    let ulp : ℚ := 2 ^ (e - 52)
    (if q < 0 then -1 else 1) * (roundHalfEven (|q| / ulp) : ℚ) * ulp

/-- The conversion `float64(n)` of an integer. -/
def f64ofInt (n : ℤ) : ℚ := roundF64 n

/-- The float64 difference `a - b`. -/
def f64sub (a b : ℚ) : ℚ := roundF64 (a - b)

/-- The float64 product `a * b`. -/
def f64mul (a b : ℚ) : ℚ := roundF64 (a * b)

/-- The float64 quotient `a / b` (for `b ≠ 0`). -/
def f64div (a b : ℚ) : ℚ := roundF64 (a / b)

/-- The conversion `int(f)` of a float64: the fraction is discarded
(truncation towards zero). -/
def f64toInt (f : ℚ) : ℤ := if 0 ≤ f then ⌊f⌋ else ⌈f⌉

/-! ## Page primitives -/

/-- Keys pressed through `page.Keyboard.MustPress`. -/
inductive Key where
  | Backspace
deriving DecidableEq, Repr

/-- One primitive issued by a controller, in the order of the calls. -/
inductive Action where
  /-- The call `element.Focus()`. -/
  | focus
  /-- The call `element.MustInput(s)`. -/
  | input (s : String)
  /-- The call `page.Keyboard.MustPress(key)`. -/
  | press (key : Key)
  /-- The call `page.MustEval("window.scrollTo(0, y)")`. -/
  | scrollTo (y : ℤ)
  /-- The call `time.Sleep(d)`, `d` in nanoseconds. -/
  | sleep (d : ℤ)
deriving DecidableEq, Repr

/-- One millisecond, `time.Millisecond`, in nanoseconds. -/
def Millisecond : ℤ := 1000000

/-- The offsets passed to `window.scrollTo`, in order. -/
def scrollOffsets : List Action → List ℤ
  | [] => []
  | Action.scrollTo y :: as => y :: scrollOffsets as
  | _ :: as => scrollOffsets as

/-! ## browser.go -/

/-- The offset `scrollPos` set in iteration `i` of `smoothScrollTo`
(browser.go lines 170-173). Go's `int` is an unbounded integer here: for page
offsets the subtraction and the addition stay far inside 64 bits. -/
def scrollPos (current target steps i : ℤ) : ℤ :=
  let distance := target - current
  let progress := f64div (f64ofInt i) (f64ofInt steps)
  let easeProgress := f64sub 1 (f64mul (f64sub 1 progress) (f64sub 1 progress))
  current + f64toInt (f64mul (f64ofInt distance) easeProgress)

/-- The loop of `smoothScrollTo` from iteration `i` on, `n` iterations left
(browser.go lines 168-179). -/
def smoothScrollLoop (current target steps : ℤ) : ℕ → ℤ → Rand → List Action × Rand
  | 0, _, s => ([], s)
  | n + 1, i, s =>
    let delay := (10 + (s.Intn 20).1) * Millisecond
    let rest := smoothScrollLoop current target steps n (i + 1) (s.Intn 20).2
    (Action.scrollTo (scrollPos current target steps i) :: Action.sleep delay :: rest.1, rest.2)

/-- `smoothScrollTo` performs smooth scrolling to target position; `current`
is the value read from `window.pageYOffset`. -/
def smoothScrollTo (s : Rand) (current target : ℤ) : List Action × Rand :=
  let steps := 20 + (s.Intn 10).1
  smoothScrollLoop current target steps (steps + 1).toNat 0 (s.Intn 10).2

/-- Number of calls of the input primitive `MustInput` in a trace. -/
def inputCount : List Action → ℕ
  | [] => 0
  | Action.input _ :: as => inputCount as + 1
  | _ :: as => inputCount as

/-- Number of Backspace presses in a trace. -/
def backspaceCount : List Action → ℕ
  | [] => 0
  | Action.press Key.Backspace :: as => backspaceCount as + 1
  | _ :: as => backspaceCount as

/-- Content of the field after a trace, starting from `buf`: an input appends
its characters, a Backspace removes the last character. The inputs that remain
are those not undone, that is, the inputs without the corrected mistakes. -/
def typedBuffer : List Char → List Action → List Char
  | buf, [] => buf
  | buf, Action.input s :: as => typedBuffer (buf ++ s.data) as
  | buf, Action.press Key.Backspace :: as => typedBuffer buf.dropLast as
  | buf, _ :: as => typedBuffer buf as

/-! ## typing.go -/

/-- The float64 constant `0.05` (typo probability, typing.go line 38). -/
def typoChance : ℚ := 3602879701896397 / 72057594037927936

/-- The float64 constant `0.1` (long-pause probability, typing.go line 86). -/
def pauseChance : ℚ := 3602879701896397 / 36028797018963968

/-- `getRandomChar` returns a random character for typo simulation. -/
def getRandomChar (t : Rand) : Char × Rand :=
  let chars := "abcdefghijklmnopqrstuvwxyz"
  (chars.data.getD (t.Intn chars.utf8ByteSize).1.toNat 'a', (t.Intn chars.utf8ByteSize).2)

/-- `getKeystrokeDelay` calculates realistic delay between keystrokes.
`position` is the byte offset of the character and `textLength` the byte
length of the text. -/
def getKeystrokeDelay (t : Rand) (char : Char) (position textLength : ℤ) : ℤ × Rand :=
  let base : ℤ × Rand := (80 + (t.Intn 70).1, (t.Intn 70).2)
  let sw : ℤ × Rand :=
    if char = ' ' then (base.1 + (base.2.Intn 30).1, (base.2.Intn 30).2)
    else if char = '.' ∨ char = ',' ∨ char = '!' ∨ char = '?' then
      (base.1 + (base.2.Intn 100).1, (base.2.Intn 100).2)
    else if char = '\n' then (base.1 + (200 + (base.2.Intn 300).1), (base.2.Intn 300).2)
    else base
  let slow : ℤ × Rand :=
    if position < 5 then (sw.1 + (sw.2.Intn 50).1, (sw.2.Intn 50).2) else sw
  let f := slow.2.Float64
  let long : ℤ × Rand :=
    if f.1 < pauseChance then (slow.1 + (200 + (f.2.Intn 500).1), (f.2.Intn 500).2)
    else (slow.1, f.2)
  (long.1 * Millisecond, long.2)

/-- The typo injected in front of a character (typing.go lines 38-49): the
draw `Float64()` is always made; the wrong character, the pause, the Backspace
and the second pause follow when it is below 0.05 and `i < len(text)-1`. -/
def typoActions (t : Rand) (i textLength : ℤ) : List Action × Rand :=
  let f := t.Float64
  if f.1 < typoChance ∧ i < textLength - 1 then
    let wrongChar := getRandomChar f.2
    let p1 := wrongChar.2.Intn 400
    let p2 := p1.2.Intn 200
    ([Action.input (String.singleton wrongChar.1), Action.sleep ((200 + p1.1) * Millisecond),
      Action.press Key.Backspace, Action.sleep ((100 + p2.1) * Millisecond)], p2.2)
  else ([], f.2)

/-- The loop `for i, char := range text` of `TypeText` over the remaining
characters, `i` the byte offset of the first of them (typing.go lines 36-57). -/
def typeLoop (textLength : ℤ) : List Char → ℤ → Rand → List Action × Rand
  | [], _, t => ([], t)
  | char :: rest, i, t =>
    let typo := typoActions t i textLength
    let delay := getKeystrokeDelay typo.2 char i textLength
    let tail := typeLoop textLength rest (i + char.utf8Size) delay.2
    (typo.1 ++ Action.input (String.singleton char) :: Action.sleep delay.1 :: tail.1, tail.2)

/-- `TypeText` types text with human-like characteristics. `focusErr` is the
result of `element.Focus()`; the result is the returned error, the primitives
issued and the generator afterwards. The `Must` primitives are taken to
succeed (they panic otherwise). -/
def TypeText (t : Rand) (focusErr : Option String) (text : String) :
    Option String × List Action × Rand :=
  match focusErr with
  | some err => (some err, [Action.focus], t)
  | none =>
    let d := t.Intn 700
    let body := typeLoop text.utf8ByteSize text.data 0 d.2
    (none, Action.focus :: Action.sleep ((300 + d.1) * Millisecond) :: body.1, body.2)

/-! ## Time (`time.Time`, `time.Duration`) -/

/-- A reading of `time.Now()`: the civil date and hour of the wall clock in the
local zone (what `Year()`, `Month()`, `Day()` and `Hour()` return) and the
monotonic clock reading in nanoseconds (what `Sub` subtracts). -/
structure Time where
  Year : ℤ
  Month : ℤ
  Day : ℤ
  Hour : ℤ
  mono : ℤ
deriving DecidableEq, Repr

/-- `t.Sub(u)`: the duration `t - u` in nanoseconds. -/
def Time.Sub (t u : Time) : ℤ := t.mono - u.mono

/-- One hour, `time.Hour`, in nanoseconds. -/
def Hour : ℤ := 3600000000000

/-- One second, `time.Second`, in nanoseconds. -/
def Second : ℤ := 1000000000

/-- `d.Milliseconds()`: the duration as an integer millisecond count, the
quotient of Go's integer division by 10^6, which truncates towards zero. -/
def Milliseconds (d : ℤ) : ℤ :=
  if 0 ≤ d then d / 1000000 else -((-d) / 1000000)

/-- Leap years of the Gregorian calendar. -/
def isLeapYear (y : ℤ) : Bool :=
  y % 4 = 0 ∧ (y % 100 ≠ 0 ∨ y % 400 = 0)

/-- Number of days of month `m` of year `y`. -/
def daysIn (y m : ℤ) : ℤ :=
  if m = 2 then (if isLeapYear y then 29 else 28)
  else if m = 4 ∨ m = 6 ∨ m = 9 ∨ m = 11 then 30
  else 31

/-- The calendar date (year, month, day) that follows a date. -/
def nextDate (d : ℤ × ℤ × ℤ) : ℤ × ℤ × ℤ :=
  if d.2.2 < daysIn d.1 d.2.1 then (d.1, d.2.1, d.2.2 + 1)
  else if d.2.1 < 12 then (d.1, d.2.1 + 1, 1)
  else (d.1 + 1, 1, 1)

/-- The calendar date of a clock reading. -/
def Time.date (t : Time) : ℤ × ℤ × ℤ := (t.Year, t.Month, t.Day)

/-! ## models/config.go -/

/-- `StealthConfig` contains anti-detection settings. -/
structure StealthConfig where
  EnableMouseMovement : Bool
  EnableTypingSimulation : Bool
  EnableRandomScrolling : Bool
  EnableHovering : Bool
  MinActionDelay : ℤ
  MaxActionDelay : ℤ
  BusinessHoursOnly : Bool
  BusinessHoursStart : ℤ
  BusinessHoursEnd : ℤ

/-- `RateLimitsConfig` defines rate limiting settings. -/
structure RateLimitsConfig where
  MaxConnectionsPerDay : ℤ
  MaxMessagesPerDay : ℤ
  MaxSearchesPerHour : ℤ
  CooldownPeriod : ℤ

/-! ## timing.go -/

/-- `TimingController` manages delays and timing patterns. -/
structure TimingController where
  config : StealthConfig
  rand : Rand

/-- `RandomDelay` adds a random delay between min and max configured delays.
Returns the duration passed to `time.Sleep` and the controller afterwards. -/
def TimingController.RandomDelay (t : TimingController) : ℤ × TimingController :=
  let minMs := Milliseconds t.config.MinActionDelay
  let maxMs := Milliseconds t.config.MaxActionDelay
  if maxMs ≤ minMs then (t.config.MinActionDelay, t)
  else
    let delayMs := minMs + (t.rand.Int63n (maxMs - minMs)).1
    (delayMs * Millisecond, { t with rand := (t.rand.Int63n (maxMs - minMs)).2 })

/-- `IsBusinessHours` checks if current time is within business hours. -/
def TimingController.IsBusinessHours (t : TimingController) (now : Time) : Bool :=
  if !t.config.BusinessHoursOnly then true
  else
    let currentHour := now.Hour
    decide (currentHour ≥ t.config.BusinessHoursStart) &&
      decide (currentHour < t.config.BusinessHoursEnd)

/-- `RateLimiter` manages action rate limits. -/
structure RateLimiter where
  config : RateLimitsConfig
  dailyConnections : ℤ
  dailyMessages : ℤ
  hourlySearches : ℤ
  lastReset : Time
  lastHourReset : Time
  lastAction : Time

/-- `NewRateLimiter` creates a new rate limiter. -/
def NewRateLimiter (config : RateLimitsConfig) (now : Time) : RateLimiter :=
  { config := config
    dailyConnections := 0
    dailyMessages := 0
    hourlySearches := 0
    lastReset := now
    lastHourReset := now
    lastAction := now }

/-- The daily part of `resetIfNeeded` (timing.go lines 178-182). -/
def RateLimiter.resetDaily (r : RateLimiter) (now : Time) : RateLimiter :=
  if now.Day ≠ r.lastReset.Day then
    { r with dailyConnections := 0, dailyMessages := 0, lastReset := now }
  else r

/-- The hourly part of `resetIfNeeded` (timing.go lines 185-188). -/
def RateLimiter.resetHourly (r : RateLimiter) (now : Time) : RateLimiter :=
  if now.Sub r.lastHourReset ≥ Hour then
    { r with hourlySearches := 0, lastHourReset := now }
  else r

/-- `resetIfNeeded` resets counters if time period has elapsed. -/
def RateLimiter.resetIfNeeded (r : RateLimiter) (now : Time) : RateLimiter :=
  (r.resetDaily now).resetHourly now

/-- `CanSendConnection` checks if we can send a connection request. -/
def RateLimiter.CanSendConnection (r : RateLimiter) (now : Time) : Bool × RateLimiter :=
  (decide ((r.resetIfNeeded now).dailyConnections <
      (r.resetIfNeeded now).config.MaxConnectionsPerDay), r.resetIfNeeded now)

/-- `CanSendMessage` checks if we can send a message. -/
def RateLimiter.CanSendMessage (r : RateLimiter) (now : Time) : Bool × RateLimiter :=
  (decide ((r.resetIfNeeded now).dailyMessages <
      (r.resetIfNeeded now).config.MaxMessagesPerDay), r.resetIfNeeded now)

/-- `CanSearch` checks if we can perform a search. -/
def RateLimiter.CanSearch (r : RateLimiter) (now : Time) : Bool × RateLimiter :=
  (decide ((r.resetIfNeeded now).hourlySearches <
      (r.resetIfNeeded now).config.MaxSearchesPerHour), r.resetIfNeeded now)

/-- `RecordConnection` records a connection request; `now` is the clock read
by the reset check and `now2` the one stored in `lastAction`. -/
def RateLimiter.RecordConnection (r : RateLimiter) (now now2 : Time) : RateLimiter :=
  { r.resetIfNeeded now with
    dailyConnections := (r.resetIfNeeded now).dailyConnections + 1
    lastAction := now2 }

/-- `RecordMessage` records a message sent. -/
def RateLimiter.RecordMessage (r : RateLimiter) (now now2 : Time) : RateLimiter :=
  { r.resetIfNeeded now with
    dailyMessages := (r.resetIfNeeded now).dailyMessages + 1
    lastAction := now2 }

/-- `RecordSearch` records a search performed. -/
def RateLimiter.RecordSearch (r : RateLimiter) (now now2 : Time) : RateLimiter :=
  { r.resetIfNeeded now with
    hourlySearches := (r.resetIfNeeded now).hourlySearches + 1
    lastAction := now2 }

/-- `GetStats` returns current rate limit statistics: the map, as its list of
entries, and the limiter after the reset check. -/
def RateLimiter.GetStats (r : RateLimiter) (now : Time) : List (String × ℤ) × RateLimiter :=
  ([("daily_connections", (r.resetIfNeeded now).dailyConnections),
    ("daily_messages", (r.resetIfNeeded now).dailyMessages),
    ("hourly_searches", (r.resetIfNeeded now).hourlySearches)], r.resetIfNeeded now)

/-- A run of record calls of one kind, one pair of clock readings per call. -/
def recordMany (record : RateLimiter → Time → Time → RateLimiter) (r : RateLimiter) :
    List (Time × Time) → RateLimiter
  | [] => r
  | p :: ps => recordMany record (record r p.1 p.2) ps

/-! ## Machine integers and further float64 operations -/

/-- The value of an integer expression in Go's 64-bit `int` / `int64`: the
result wraps around modulo `2^64` into `[-2^63, 2^63)`. -/
def wrapInt64 (x : ℤ) : ℤ := (x + 2 ^ 63) % 2 ^ 64 - 2 ^ 63

/-- Go's integer quotient `a / b` for `b > 0`: it truncates towards zero. -/
def goDiv (a b : ℤ) : ℤ := if 0 ≤ a then a / b else -((-a) / b)

/-- The float64 sum `a + b`. -/
def f64add (a b : ℚ) : ℚ := roundF64 (a + b)

/-- The conversion `int64(f)` / `time.Duration(f)` of a float64: truncation
towards zero. For a value outside `int64` the Go specification leaves the
result to the implementation; the value taken here, `-2^63`, is the one the
amd64 conversion instruction produces. -/
def f64toInt64 (f : ℚ) : ℤ :=
  if -(2 ^ 63) ≤ f64toInt f ∧ f64toInt f < 2 ^ 63 then f64toInt f else -(2 ^ 63)

/-- The float64 constant `0.7` (timing.go line 57). -/
def f64c0_7 : ℚ := 3152519739159347 / 4503599627370496

/-- The float64 constant `0.6` (timing.go line 57). -/
def f64c0_6 : ℚ := 5404319552844595 / 9007199254740992

/-! ## timing.go, continued -/

/-- `ReadingDelay` simulates reading time based on content length. Returns
the duration passed to `time.Sleep` and the controller afterwards. -/
def TimingController.ReadingDelay (t : TimingController) (contentLength : ℤ) :
    ℤ × TimingController :=
  let words := goDiv contentLength 5
  let baseTime := 240 + (t.rand.Intn 60).1
  let readingTime := wrapInt64 (wrapInt64 (words * baseTime) * Millisecond)
  let u := (t.rand.Intn 60).2.Float64
  let variance := f64add f64c0_7 (f64mul u.1 f64c0_6)
  let finalTime := f64toInt64 (f64mul (f64ofInt readingTime) variance)
  let maxReadingTime := 10 * Second
  (if finalTime > maxReadingTime then maxReadingTime else finalTime, { t with rand := u.2 })

/-- `WaitForCooldown` waits for the cooldown period after last action; `now`
is the clock read by `time.Since`. Returns the sleep issued, if any, and the
limiter afterwards. -/
def RateLimiter.WaitForCooldown (r : RateLimiter) (now : Time) : List Action × RateLimiter :=
  let elapsed := now.Sub r.lastAction
  if elapsed < r.config.CooldownPeriod then
    ([Action.sleep (r.config.CooldownPeriod - elapsed)], r)
  else ([], r)

/-- The number of hours `WaitForBusinessHours` sleeps when the hour read is
`currentHour` (timing.go lines 91-97). -/
def hoursToWait (config : StealthConfig) (currentHour : ℤ) : ℤ :=
  if currentHour < config.BusinessHoursStart then config.BusinessHoursStart - currentHour
  else 24 - currentHour + config.BusinessHoursStart

/-- The loop `for !t.IsBusinessHours() { ... }` of `WaitForBusinessHours`
(timing.go lines 87-101). Reading `k` of the clock is taken by the check,
reading `k + 1` by the body. The result is the sleeps issued, or `none` when
the loop is still running after `fuel` iterations. -/
def waitLoop (t : TimingController) (clock : ℕ → Time) : ℕ → ℕ → Option (List Action)
  | 0, _ => none
  | fuel + 1, k =>
    if t.IsBusinessHours (clock k) then some []
    else
      (waitLoop t clock fuel (k + 2)).map fun rest =>
        Action.sleep (hoursToWait t.config (clock (k + 1)).Hour * Hour) :: rest

/-- `WaitForBusinessHours` waits until business hours if required. -/
def TimingController.WaitForBusinessHours (t : TimingController) (clock : ℕ → Time)
    (fuel : ℕ) : Option (List Action) :=
  if !t.config.BusinessHoursOnly then some []
  else waitLoop t clock fuel 0

/-! ## mouse.go, continued -/

/-- One primitive issued by the mouse mover, in the order of the calls. -/
inductive MouseEvent where
  /-- The call `page.Mouse.Move(x, y, 1)`. -/
  | move (x y : ℚ)
  /-- The call `time.Sleep(d)`, `d` in nanoseconds. -/
  | sleep (d : ℤ)
deriving DecidableEq, Repr

/-- The float64 constant `0.3` (overshoot probability, mouse.go line 55). -/
def overshootChance : ℚ := 5404319552844595 / 18014398509481984

/-- The loop of `MoveTo` over the path (mouse.go lines 41-52). `moveErr k` is
the result of the `k`-th call of `page.Mouse.Move` (`none` for success). On
the first failing move the loop returns its error. -/
def movePath (moveErr : ℕ → Option String) :
    List Point → ℕ → Rand → Option String × List MouseEvent × Rand
  | [], _, m => (none, [], m)
  | p :: ps, k, m =>
    match moveErr k with
    | some err => (some err, [MouseEvent.move p.X p.Y], m)
    | none =>
      let rest := movePath moveErr ps (k + 1) (m.Intn 10).2
      (rest.1,
        MouseEvent.move p.X p.Y :: MouseEvent.sleep ((5 + (m.Intn 10).1) * Millisecond) ::
          rest.2.1,
        rest.2.2)

/-- `MoveTo` moves the mouse to target coordinates using Bézier curve with
human-like behavior. Returns the error, the primitives issued and the
generator afterwards. The results of the overshoot move and of the correcting
move are not inspected by the code. -/
def MoveTo (m : Rand) (moveErr : ℕ → Option String) (targetX targetY : ℚ) :
    Option String × List MouseEvent × Rand :=
  let currentX : ℚ := ((m.Intn 100).1 : ℚ)
  let currentY : ℚ := (((m.Intn 100).2.Intn 100).1 : ℚ)
  let points := generateBezierPath ((m.Intn 100).2.Intn 100).2 currentX currentY targetX targetY
  let walk := movePath moveErr points.1 0 points.2
  match walk.1 with
  | some err => (some err, walk.2.1, walk.2.2)
  | none =>
    let f := walk.2.2.Float64
    if f.1 < overshootChance then
      let dx := f.2.Intn 20
      let dy := dx.2.Intn 20
      let pause := dy.2.Intn 100
      (none,
        walk.2.1 ++
          [MouseEvent.move (targetX + ((dx.1 - 10 : ℤ) : ℚ)) (targetY + ((dy.1 - 10 : ℤ) : ℚ)),
            MouseEvent.sleep ((50 + pause.1) * Millisecond),
            MouseEvent.move targetX targetY],
        pause.2)
    else (none, walk.2.1, f.2)

/-! ## config.go and models/config.go -/

/-- `LinkedInConfig` contains LinkedIn authentication settings. -/
structure LinkedInConfig where
  Email : String
  Password : String
  SessionPath : String
  BaseURL : String

/-- `StorageConfig` defines database settings. -/
structure StorageConfig where
  DatabasePath : String
  BackupPath : String

/-- `LoggingConfig` defines logging settings. -/
structure LoggingConfig where
  Level : String
  Format : String
  OutputPath : String

/-- `Config` represents the application configuration. -/
structure Config where
  LinkedIn : LinkedInConfig
  Stealth : StealthConfig
  RateLimits : RateLimitsConfig
  Storage : StorageConfig
  Logging : LoggingConfig

/-- `validate` ensures all required configuration values are present. Returns
the error (`none` for `nil`). -/
def validate (cfg : Config) : Option String :=
  if cfg.LinkedIn.Email = "" then some "linkedin email is required"
  else if cfg.LinkedIn.Password = "" then some "linkedin password is required"
  else if cfg.RateLimits.MaxConnectionsPerDay ≤ 0 then
    some "max connections per day must be positive"
  else if cfg.Stealth.MinActionDelay > cfg.Stealth.MaxActionDelay then
    some "min action delay cannot be greater than max action delay"
  else none

/-! ## Guarded use of the rate limiter -/

/-- One attempt of a caller that records a search only immediately after
`CanSearch()` returned true. The three clock readings are those of the reset
check of `CanSearch`, of the reset check of `RecordSearch` and of the
assignment to `lastAction`. The result is the limiter afterwards and the
times (monotonic clock, nanoseconds) of the searches recorded: the reading of
the record call, or nothing when the query was refused. -/
def guardedSearch (r : RateLimiter) (a : Time × Time × Time) : RateLimiter × List ℤ :=
  if (r.CanSearch a.1).1 = true then
    ((r.CanSearch a.1).2.RecordSearch a.2.1 a.2.2, [a.2.1.mono])
  else ((r.CanSearch a.1).2, [])

/-- A sequence of guarded attempts and the times of all searches recorded. -/
def guardedSearches : RateLimiter → List (Time × Time × Time) → RateLimiter × List ℤ
  | r, [] => (r, [])
  | r, a :: as =>
    ((guardedSearches (guardedSearch r a).1 as).1,
      (guardedSearch r a).2 ++ (guardedSearches (guardedSearch r a).1 as).2)

/-- The clock readings of a sequence of attempts never go back, starting from
the reading `t`. -/
def clockMonotone : ℤ → List (Time × Time × Time) → Prop
  | _, [] => True
  | t, a :: as =>
    t ≤ a.1.mono ∧ a.1.mono ≤ a.2.1.mono ∧ a.2.1.mono ≤ a.2.2.mono ∧ clockMonotone a.2.2.mono as

/-- Number of the times `ts` that fall in the interval `[s, s + 1 hour)`. -/
def countInHour (s : ℤ) (ts : List ℤ) : ℕ :=
  ts.countP fun x => decide (s ≤ x ∧ x < s + Hour)

/-- The invariant of a guarded sequence of searches, for the limit `M`, the
limiter `r`, the times `hist` of the searches recorded so far and the last
clock reading `tl`: the counter is between 0 and `M` and bounds the searches
recorded since the last hourly reset; every search was recorded less than an
hour after that reset; fewer than `M + 1` searches were recorded in the hour
before it; and no interval of one hour holds more than `2 * M` searches. -/
def SearchInv (M : ℤ) (r : RateLimiter) (hist : List ℤ) (tl : ℤ) : Prop :=
  r.config.MaxSearchesPerHour = M ∧
    0 ≤ r.hourlySearches ∧ r.hourlySearches ≤ M ∧
    ((hist.countP fun x => decide (r.lastHourReset.mono ≤ x) : ℕ) : ℤ) ≤ r.hourlySearches ∧
    (∀ x ∈ hist, x < r.lastHourReset.mono + Hour) ∧
    r.lastHourReset.mono ≤ tl ∧
    (∀ s : ℤ, r.lastHourReset.mono - Hour < s →
      ((hist.countP fun x => decide (s ≤ x ∧ x < r.lastHourReset.mono) : ℕ) : ℤ) ≤ M) ∧
    ∀ s : ℤ, ((countInHour s hist : ℕ) : ℤ) ≤ 2 * M

/-! ## Guarded use of the limiter -/

/-- One step of a caller that records an action only immediately after the
corresponding query returned true. Every clock reading is explicit: the one of
the query, and for a guarded action the ones of the reset check inside the
record call and of its assignment to `lastAction`. -/
inductive LimiterOp where
  /-- The query `CanSendConnection()` alone. -/
  | canConnection (now : Time)
  /-- The query `CanSendMessage()` alone. -/
  | canMessage (now : Time)
  /-- The query `CanSearch()` alone. -/
  | canSearch (now : Time)
  /-- The query `CanSendConnection()`, followed by `RecordConnection()` when it returned true. -/
  | connection (now now1 now2 : Time)
  /-- The query `CanSendMessage()`, followed by `RecordMessage()` when it returned true. -/
  | message (now now1 now2 : Time)
  /-- The query `CanSearch()`, followed by `RecordSearch()` when it returned true. -/
  | search (now now1 now2 : Time)
  /-- The call `GetStats()`. -/
  | stats (now : Time)

/-- The limiter after one step of a guarded caller. -/
def LimiterOp.apply (r : RateLimiter) : LimiterOp → RateLimiter
  | LimiterOp.canConnection now => (r.CanSendConnection now).2
  | LimiterOp.canMessage now => (r.CanSendMessage now).2
  | LimiterOp.canSearch now => (r.CanSearch now).2
  | LimiterOp.connection now now1 now2 =>
    if (r.CanSendConnection now).1 = true then
      (r.CanSendConnection now).2.RecordConnection now1 now2
    else (r.CanSendConnection now).2
  | LimiterOp.message now now1 now2 =>
    if (r.CanSendMessage now).1 = true then (r.CanSendMessage now).2.RecordMessage now1 now2
    else (r.CanSendMessage now).2
  | LimiterOp.search now now1 now2 => (guardedSearch r (now, now1, now2)).1
  | LimiterOp.stats now => (r.GetStats now).2

/-- The limiter after a sequence of steps of a guarded caller. -/
def guardedRun : RateLimiter → List LimiterOp → RateLimiter
  | r, [] => r
  | r, op :: ops => guardedRun (LimiterOp.apply r op) ops

/-- Every counter is between 0 and its configured limit. -/
def CountersInRange (r : RateLimiter) : Prop :=
  (0 ≤ r.dailyConnections ∧ r.dailyConnections ≤ r.config.MaxConnectionsPerDay) ∧
    (0 ≤ r.dailyMessages ∧ r.dailyMessages ≤ r.config.MaxMessagesPerDay) ∧
    (0 ≤ r.hourlySearches ∧ r.hourlySearches ≤ r.config.MaxSearchesPerHour)

/-! ## browser.go, continued -/

/-- The float64 constant `0.2` (back-scroll probability, browser.go line 146). -/
def backScrollChance : ℚ := 3602879701896397 / 18014398509481984

/-- One iteration of the loop of `ScrollRandomly` (browser.go lines 127-158):
its local variables and the primitives it issues. `forward` are the primitives
of `smoothScrollTo(targetScroll)`; `backScroll` is the target of the scroll
back up when that one takes place, and `backward` its primitives followed by
the pause after it. -/
structure ScrollStep where
  scrollDistance : ℤ
  currentScroll : ℤ
  targetScroll : ℤ
  forward : List Action
  readTime : ℤ
  backScroll : Option ℤ
  backward : List Action

/-- The primitives of one iteration, in the order of the calls. -/
def ScrollStep.trace (a : ScrollStep) : List Action :=
  a.forward ++ Action.sleep a.readTime :: a.backward

/-- The target of the forward scroll (browser.go lines 134-137): the current
offset plus the distance, lowered to `pageHeight - viewportHeight` when it is
above it. -/
def forwardTarget (pageHeight viewportHeight currentScroll scrollDistance : ℤ) : ℤ :=
  if currentScroll + scrollDistance > pageHeight - viewportHeight then
    pageHeight - viewportHeight
  else currentScroll + scrollDistance

/-- The target of the scroll back up (browser.go lines 147-150), `r` the draw
`Intn(200)`. -/
def backTarget (currentScroll r : ℤ) : ℤ :=
  if currentScroll - r < 0 then 0 else currentScroll - r

/-- One iteration of the loop of `ScrollRandomly`. `pageYOffset k` is the
result of the `k`-th evaluation of `window.pageYOffset` and `k` the number of
evaluations made so far: the first one here is `currentScroll`, the next ones
are made inside the calls of `smoothScrollTo`. Go's `int` is an unbounded
integer, as in `scrollPos`. -/
def scrollStep (s : Rand) (pageHeight viewportHeight : ℤ) (pageYOffset : ℕ → ℤ) (k : ℕ) :
    ScrollStep × Rand × ℕ :=
  let d := s.Intn (goDiv viewportHeight 2)
  let scrollDistance := goDiv viewportHeight 2 + d.1
  let currentScroll := pageYOffset k
  let targetScroll := forwardTarget pageHeight viewportHeight currentScroll scrollDistance
  let fwd := smoothScrollTo d.2 (pageYOffset (k + 1)) targetScroll
  let rt := fwd.2.Intn 3000
  let f := rt.2.Float64
  if f.1 < backScrollChance then
    let r := f.2.Intn 200
    let backScroll := backTarget currentScroll r.1
    let bwd := smoothScrollTo r.2 (pageYOffset (k + 2)) backScroll
    let p := bwd.2.Intn 1000
    ({ scrollDistance := scrollDistance
       currentScroll := currentScroll
       targetScroll := targetScroll
       forward := fwd.1
       readTime := (1000 + rt.1) * Millisecond
       backScroll := some backScroll
       backward := bwd.1 ++ [Action.sleep ((500 + p.1) * Millisecond)] }, p.2, k + 3)
  else
    ({ scrollDistance := scrollDistance
       currentScroll := currentScroll
       targetScroll := targetScroll
       forward := fwd.1
       readTime := (1000 + rt.1) * Millisecond
       backScroll := none
       backward := [] }, f.2, k + 2)

/-- The loop of `ScrollRandomly`, `n` iterations left. -/
def scrollLoop (pageHeight viewportHeight : ℤ) (pageYOffset : ℕ → ℤ) :
    ℕ → Rand → ℕ → List ScrollStep × Rand
  | 0, s, _ => ([], s)
  | n + 1, s, k =>
    let a := scrollStep s pageHeight viewportHeight pageYOffset k
    let rest := scrollLoop pageHeight viewportHeight pageYOffset n a.2.1 a.2.2
    (a.1 :: rest.1, rest.2)

/-- `ScrollRandomly` performs random scrolling to simulate reading.
`pageHeight` and `viewportHeight` are the values read from
`document.body.scrollHeight` and `window.innerHeight`. The result is `none`
when the call panics: `Intn(viewportHeight/2)` does so in the first iteration
when `viewportHeight/2` is not positive. Otherwise it is the iterations made and
the generator afterwards; the error returned is always nil. -/
def ScrollRandomly (s : Rand) (pageHeight viewportHeight : ℤ) (pageYOffset : ℕ → ℤ) :
    Option (List ScrollStep × Rand) :=
  let scrollCount := 3 + (s.Intn 7).1
  if goDiv viewportHeight 2 ≤ 0 then none
  else some (scrollLoop pageHeight viewportHeight pageYOffset scrollCount.toNat (s.Intn 7).2 0)

/-- The primitives issued by a run of `ScrollRandomly`. -/
def scrollTrace (run : List ScrollStep) : List Action :=
  (run.map ScrollStep.trace).flatten

/-! ## typing.go, continued -/

/-- The characters of a Go string as `range` reads them, each with the number
of bytes it occupies. The string need not be valid UTF-8: a byte that starts no
valid encoding is read as U+FFFD and occupies one byte. -/
def runesOf (text : String) : List (Char × ℕ) :=
  text.data.map fun c => (c, c.utf8Size)

/-- The last `k` bytes of the encoding of the characters `rev` (given last
character first), as `range` reads them: the characters that lie entirely in
these bytes and, in front of them, one U+FFFD for every trailing byte of a
character that is cut. -/
def byteSuffixRev : List Char → ℕ → List (Char × ℕ)
  | [], _ => []
  | c :: rest, k =>
    if k = 0 then []
    else if c.utf8Size ≤ k then byteSuffixRev rest (k - c.utf8Size) ++ [(c, c.utf8Size)]
    else List.replicate k ('�', 1)

/-- The slice `word[len(word)-k:]` (a slice of bytes) as `range` reads it. -/
def byteSuffix (word : String) (k : ℕ) : List (Char × ℕ) :=
  byteSuffixRev word.data.reverse k

/-- The loop of `TypeText` over a string given as `range` reads it; it is
`typeLoop` with the byte offset advanced by the width of each character. -/
def typeLoopRunes (textLength : ℤ) : List (Char × ℕ) → ℤ → Rand → List Action × Rand
  | [], _, t => ([], t)
  | cw :: rest, i, t =>
    let typo := typoActions t i textLength
    let delay := getKeystrokeDelay typo.2 cw.1 i textLength
    let tail := typeLoopRunes textLength rest (i + cw.2) delay.2
    (typo.1 ++ Action.input (String.singleton cw.1) :: Action.sleep delay.1 :: tail.1, tail.2)

/-- `TypeText` on a string given as `range` reads it (for a slice of bytes
that need not be valid UTF-8); `len(text)` is the sum of the widths. -/
def TypeTextRunes (t : Rand) (focusErr : Option String) (text : List (Char × ℕ)) :
    Option String × List Action × Rand :=
  match focusErr with
  | some err => (some err, [Action.focus], t)
  | none =>
    let d := t.Intn 700
    let body := typeLoopRunes ((text.map Prod.snd).sum : ℕ) text 0 d.2
    (none, Action.focus :: Action.sleep ((300 + d.1) * Millisecond) :: body.1, body.2)

/-- `unicode.IsSpace`: the white space characters of Unicode. -/
def isSpace (c : Char) : Bool :=
  c = '\t' ∨ c = '\n' ∨ c.toNat = 0x0B ∨ c.toNat = 0x0C ∨ c = '\r' ∨ c = ' ' ∨
    c.toNat = 0x85 ∨ c.toNat = 0xA0 ∨ c.toNat = 0x1680 ∨
    (0x2000 ≤ c.toNat ∧ c.toNat ≤ 0x200A) ∨ c.toNat = 0x2028 ∨ c.toNat = 0x2029 ∨
    c.toNat = 0x202F ∨ c.toNat = 0x205F ∨ c.toNat = 0x3000

/-- The words of the remaining characters, `cur` the word being read. -/
def fieldsAux : List Char → List Char → List (List Char)
  | [], cur => if cur = [] then [] else [cur]
  | c :: cs, cur =>
    if isSpace c then
      if cur = [] then fieldsAux cs [] else cur :: fieldsAux cs []
    else fieldsAux cs (cur ++ [c])

/-- `strings.Fields`: the string split around each run of one or more white
space characters; no word is empty. -/
def Fields (text : String) : List String :=
  (fieldsAux text.data []).map String.mk

/-- The float64 constant `0.15` (erase probability, typing.go line 110). -/
def eraseChance : ℚ := 5404319552844595 / 36028797018963968

/-- The loop pressing Backspace `n` times (typing.go lines 113-116). -/
def eraseLoop : ℕ → Rand → List Action × Rand
  | 0, t => ([], t)
  | n + 1, t =>
    let rest := eraseLoop n (t.Intn 120).2
    (Action.press Key.Backspace :: Action.sleep ((80 + (t.Intn 120).1) * Millisecond) :: rest.1,
      rest.2)

/-- The erase burst after a word (typing.go lines 110-121): the draw
`Float64()` is always made; when it is below 0.15 and `len(word) > 3`, between
1 and 3 Backspaces and `TypeText` of the last bytes of the word, whose error is
not inspected. `focusErr` is the result of `element.Focus()` in that call. The
result is the primitives, the generator afterwards and the number of calls of
`Focus` made. -/
def eraseBurst (t : Rand) (focusErr : Option String) (word : String) : List Action × Rand × ℕ :=
  let f := t.Float64
  if f.1 < eraseChance ∧ (word.utf8ByteSize : ℤ) > 3 then
    let backspaceCount := 1 + (f.2.Intn 3).1
    let erase := eraseLoop backspaceCount.toNat (f.2.Intn 3).2
    let retype := TypeTextRunes erase.2 focusErr (byteSuffix word backspaceCount.toNat)
    (erase.1 ++ retype.2.1, retype.2.2, 1)
  else ([], f.2, 0)

/-- The space typed after a word that is not the last one (typing.go lines
124-127). -/
def spaceAfter (t : Rand) (last : Bool) : List Action × Rand :=
  if last then ([], t)
  else ([Action.input " ", Action.sleep ((100 + (t.Intn 150).1) * Millisecond)], (t.Intn 150).2)

/-- The loop of `TypeWithBackspace` over the remaining words (typing.go lines
103-128). `focus n` is the result of the `n`-th call of `element.Focus()` and
`n` the number of calls made so far. -/
def typeWords (focus : ℕ → Option String) :
    List String → Rand → ℕ → Option String × List Action × Rand
  | [], t, _ => (none, [], t)
  | word :: rest, t, n =>
    let typed := TypeText t (focus n) word
    match typed.1 with
    | some err => (some err, typed.2.1, typed.2.2)
    | none =>
      let burst := eraseBurst typed.2.2 (focus (n + 1)) word
      let space := spaceAfter burst.2.1 rest.isEmpty
      let tail := typeWords focus rest space.2 (n + 1 + burst.2.2)
      (tail.1, typed.2.1 ++ burst.1 ++ space.1 ++ tail.2.1, tail.2.2)

/-- `TypeWithBackspace` simulates typing with occasional backspacing. Returns
the error, the primitives issued and the generator afterwards. -/
def TypeWithBackspace (t : Rand) (focus : ℕ → Option String) (text : String) :
    Option String × List Action × Rand :=
  typeWords focus (Fields text) t 0

/-! # Properties -/

/-! ## Path generator -/

theorem bezierSteps_ge (x1 y1 x4 y4 : ℚ) : 10 ≤ bezierSteps x1 y1 x4 y4 := by
  unfold bezierSteps
  simp only
  split_ifs <;> omega

theorem bezierSteps_le (x1 y1 x4 y4 : ℚ) : bezierSteps x1 y1 x4 y4 ≤ 100 := by
  unfold bezierSteps
  simp only
  split_ifs <;> omega

theorem generateBezierPath_length (m : Rand) (x1 y1 x4 y4 : ℚ) :
    (generateBezierPath m x1 y1 x4 y4).1.length = (bezierSteps x1 y1 x4 y4).toNat := by
  simp [generateBezierPath]

/-- C1: for every start point, end point and every outcome of the control-point
draws, the path returned by `generateBezierPath` has between 10 and 100 points. -/
theorem C1_generateBezierPath_length_bounds (m : Rand) (x1 y1 x4 y4 : ℚ) :
    10 ≤ (generateBezierPath m x1 y1 x4 y4).1.length ∧
      (generateBezierPath m x1 y1 x4 y4).1.length ≤ 100 := by
  have h := generateBezierPath_length m x1 y1 x4 y4
  have h1 := bezierSteps_ge x1 y1 x4 y4
  have h2 := bezierSteps_le x1 y1 x4 y4
  omega

theorem bezierPoint_one (x1 y1 x2 y2 x3 y3 x4 y4 : ℚ) :
    bezierPoint x1 y1 x2 y2 x3 y3 x4 y4 1 = { X := x4, Y := y4 } := by
  simp [bezierPoint]

theorem getLast?_map_range_succ {α : Type} (f : ℕ → α) (k : ℕ) :
    ((List.range (k + 1)).map f).getLast? = some (f k) := by
  rw [List.range_succ, List.map_append]
  simp

/-- C2: for every start point, end point and every outcome of the control-point
draws, the last point of the path returned by `generateBezierPath` is the end
point itself (`X = x4` and `Y = y4`). -/
theorem C2_generateBezierPath_last_is_end (m : Rand) (x1 y1 x4 y4 : ℚ) :
    (generateBezierPath m x1 y1 x4 y4).1.getLast? = some { X := x4, Y := y4 } := by
  have h := bezierSteps_ge x1 y1 x4 y4
  obtain ⟨k, hk⟩ : ∃ k : ℕ, bezierSteps x1 y1 x4 y4 = (k : ℤ) + 1 :=
    ⟨(bezierSteps x1 y1 x4 y4 - 1).toNat, by omega⟩
  have hk0 : (k : ℚ) ≠ 0 := by
    have : 9 ≤ k := by omega
    have : 0 < k := by omega
    exact_mod_cast this.ne'
  simp only [generateBezierPath, hk]
  have e : ((k : ℤ) + 1).toNat = k + 1 := by omega
  rw [e, getLast?_map_range_succ]
  have t1 : ((k : ℕ) : ℚ) / (((k : ℤ) + 1 - 1 : ℤ) : ℚ) = 1 := by
    have : ((k : ℤ) + 1 - 1 : ℤ) = (k : ℤ) := by ring
    rw [this]
    simp [hk0]
  rw [t1, bezierPoint_one]

theorem floor_sqrt_eq_nat_sqrt_floor (y : ℝ) (hy : 0 ≤ y) :
    ⌊Real.sqrt y⌋ = (Nat.sqrt ⌊y⌋.toNat : ℤ) := by
  have hf : 0 ≤ ⌊y⌋ := Int.floor_nonneg.mpr hy
  set n : ℕ := ⌊y⌋.toNat with hn
  have hn1 : ((n : ℤ) : ℝ) ≤ y := by
    have : (n : ℤ) = ⌊y⌋ := by omega
    rw [this]
    exact Int.floor_le y
  have hn2 : y < ((n : ℤ) : ℝ) + 1 := by
    have : (n : ℤ) = ⌊y⌋ := by omega
    rw [this]
    exact Int.lt_floor_add_one y
  rw [Int.floor_eq_iff]
  constructor
  · apply Real.le_sqrt_of_sq_le
    have h1 : Nat.sqrt n * Nat.sqrt n ≤ n := Nat.sqrt_le n
    have h2 : ((Nat.sqrt n * Nat.sqrt n : ℕ) : ℝ) ≤ (n : ℝ) := by exact_mod_cast h1
    push_cast at h2 hn1 ⊢
    nlinarith
  · have h1 : n < (Nat.sqrt n + 1) * (Nat.sqrt n + 1) := Nat.lt_succ_sqrt n
    have h1' : n + 1 ≤ (Nat.sqrt n + 1) * (Nat.sqrt n + 1) := h1
    have h2 : ((n + 1 : ℕ) : ℝ) ≤ (((Nat.sqrt n + 1) * (Nat.sqrt n + 1) : ℕ) : ℝ) := by
      exact_mod_cast h1'
    push_cast at h2 hn2 ⊢
    have h3 : y < ((Nat.sqrt n : ℝ) + 1) ^ 2 := by nlinarith
    have h4 : (0 : ℝ) ≤ (Nat.sqrt n : ℝ) + 1 := by positivity
    calc Real.sqrt y < Real.sqrt (((Nat.sqrt n : ℝ) + 1) ^ 2) :=
          Real.sqrt_lt_sqrt hy h3
      _ = (Nat.sqrt n : ℝ) + 1 := Real.sqrt_sq h4

/-- The computable `truncSqrtDiv10` is the integer part of the real number
`√s / 10`, the value `int(math.Sqrt(s) / 10)` denotes over exact arithmetic. -/
theorem truncSqrtDiv10_eq_floor (s : ℚ) (hs : 0 ≤ s) :
    truncSqrtDiv10 s = ⌊Real.sqrt (s : ℝ) / 10⌋ := by
  have h100 : Real.sqrt (s : ℝ) / 10 = Real.sqrt ((s : ℝ) / 100) := by
    rw [Real.sqrt_div' _ (by norm_num : (0 : ℝ) ≤ 100)]
    have : Real.sqrt 100 = 10 := by
      rw [show (100 : ℝ) = 10 ^ 2 by norm_num]
      exact Real.sqrt_sq (by norm_num)
    rw [this]
  have hs' : (0 : ℝ) ≤ (s : ℝ) / 100 := by
    have : (0 : ℝ) ≤ (s : ℝ) := by exact_mod_cast hs
    positivity
  rw [h100, floor_sqrt_eq_nat_sqrt_floor _ hs', truncSqrtDiv10]
  have : ⌊(s : ℝ) / 100⌋ = ⌊s / 100⌋ := by
    rw [← Rat.floor_cast (α := ℝ)]
    push_cast
    rfl
  rw [this]

theorem truncSqrtDiv10_mono {s s' : ℚ} (h : s ≤ s') :
    truncSqrtDiv10 s ≤ truncSqrtDiv10 s' := by
  unfold truncSqrtDiv10
  have h1 : ⌊s / 100⌋ ≤ ⌊s' / 100⌋ := Int.floor_mono (by linarith)
  have h2 : ⌊s / 100⌋.toNat ≤ ⌊s' / 100⌋.toNat := Int.toNat_le_toNat h1
  exact_mod_cast Nat.sqrt_le_sqrt h2

theorem bezierSteps_mono (x1 y1 x4 y4 a1 b1 a4 b4 : ℚ)
    (h : (x4 - x1) ^ 2 + (y4 - y1) ^ 2 ≤ (a4 - a1) ^ 2 + (b4 - b1) ^ 2) :
    bezierSteps x1 y1 x4 y4 ≤ bezierSteps a1 b1 a4 b4 := by
  have hm := truncSqrtDiv10_mono h
  unfold bezierSteps
  simp only
  split_ifs <;> omega

/-- C3: the length of the path returned by `generateBezierPath` is monotonically
non-decreasing in the Euclidean distance between start and end: whenever the
distance of one pair of points is at most that of another, the first path is
at most as long as the second, whatever the random draws of either call. -/
theorem C3_generateBezierPath_length_mono (m m' : Rand) (x1 y1 x4 y4 a1 b1 a4 b4 : ℚ)
    (h : Real.sqrt ((((x4 - x1) ^ 2 + (y4 - y1) ^ 2 : ℚ)) : ℝ) ≤
      Real.sqrt ((((a4 - a1) ^ 2 + (b4 - b1) ^ 2 : ℚ)) : ℝ)) :
    (generateBezierPath m x1 y1 x4 y4).1.length ≤
      (generateBezierPath m' a1 b1 a4 b4).1.length := by
  have hnn : (0 : ℝ) ≤ (((a4 - a1) ^ 2 + (b4 - b1) ^ 2 : ℚ) : ℝ) := by
    have : (0 : ℚ) ≤ (a4 - a1) ^ 2 + (b4 - b1) ^ 2 := by positivity
    exact_mod_cast this
  have h' : (x4 - x1) ^ 2 + (y4 - y1) ^ 2 ≤ (a4 - a1) ^ 2 + (b4 - b1) ^ 2 := by
    have := (Real.sqrt_le_sqrt_iff hnn).mp h
    exact_mod_cast this
  have hs := bezierSteps_mono x1 y1 x4 y4 a1 b1 a4 b4 h'
  rw [generateBezierPath_length, generateBezierPath_length]
  exact Int.toNat_le_toNat hs

/-- Witness of C3: a move of distance 50 and a move of distance 500. -/
theorem C3_generateBezierPath_length_mono_witness :
    Real.sqrt ((((30 - 0) ^ 2 + (40 - 0) ^ 2 : ℚ)) : ℝ) ≤
        Real.sqrt ((((300 - 0) ^ 2 + (400 - 0) ^ 2 : ℚ)) : ℝ) ∧
      (generateBezierPath ⟨fun _ => 0, 0⟩ 0 0 30 40).1.length ≤
        (generateBezierPath ⟨fun n => n, 0⟩ 0 0 300 400).1.length :=
  have h : Real.sqrt ((((30 - 0) ^ 2 + (40 - 0) ^ 2 : ℚ)) : ℝ) ≤
      Real.sqrt ((((300 - 0) ^ 2 + (400 - 0) ^ 2 : ℚ)) : ℝ) :=
    Real.sqrt_le_sqrt (by norm_num)
  ⟨h, C3_generateBezierPath_length_mono _ _ 0 0 30 40 0 0 300 400 h⟩

/-! ## float64 rounding -/

theorem roundHalfEven_intCast (N : ℤ) : roundHalfEven (N : ℚ) = N := by
  simp [roundHalfEven]

theorem roundF64_eq_self_of_int (q : ℚ) (N : ℤ)
    (h : |q| / 2 ^ (max (Int.log 2 |q|) (-1022) - 52) = (N : ℚ)) : roundF64 q = q := by
  unfold roundF64
  split_ifs with h0 hneg
  · exact h0.symm
  · simp only
    rw [h, roundHalfEven_intCast, ← h]
    have hp : (2 : ℚ) ^ (max (Int.log 2 |q|) (-1022) - 52) ≠ 0 := by positivity
    rw [mul_assoc, div_mul_cancel₀ _ hp, abs_of_neg hneg]
    ring
  · simp only
    rw [h, roundHalfEven_intCast, ← h]
    have hp : (2 : ℚ) ^ (max (Int.log 2 |q|) (-1022) - 52) ≠ 0 := by positivity
    rw [mul_assoc, div_mul_cancel₀ _ hp, abs_of_nonneg (not_lt.mp hneg)]
    ring

/-- Every integer of magnitude at most `2^53` is a float64. -/
theorem roundF64_intCast (d : ℤ) (hd : |d| ≤ 2 ^ 53) : roundF64 (d : ℚ) = d := by
  by_cases h0 : d = 0
  · subst h0
    simp [roundF64]
  set n : ℕ := d.natAbs with hn
  have hn0 : n ≠ 0 := by simpa [hn] using h0
  have hn53 : n ≤ 2 ^ 53 := by
    have : (n : ℤ) = |d| := by simp [hn]
    omega
  have habs : |(d : ℚ)| = (n : ℚ) := by
    have : |d| = (n : ℤ) := by simp [hn]
    rw [← Int.cast_abs, this]
    simp
  set k : ℕ := Nat.log 2 n with hk
  have hlog : Int.log 2 |(d : ℚ)| = (k : ℤ) := by
    rw [habs, Int.log_natCast]
  have hk53 : k ≤ 53 := by
    have : k < 54 := Nat.log_lt_of_lt_pow hn0 (by omega)
    omega
  have hpow : 2 ^ k ≤ n := Nat.pow_log_le_self 2 hn0
  have hdvd : 2 ^ k ∣ n * 2 ^ 52 := by
    rcases Nat.lt_or_ge k 53 with hlt | hge
    · exact Dvd.dvd.mul_left (pow_dvd_pow 2 (by omega)) n
    · have hk' : k = 53 := by omega
      have hn' : n = 2 ^ 53 := by
        rw [hk'] at hpow
        omega
      rw [hk', hn']
      exact Dvd.intro _ rfl
  apply roundF64_eq_self_of_int _ ((n * 2 ^ 52 / 2 ^ k : ℕ) : ℤ)
  have hmax : max ((k : ℤ)) (-1022) = (k : ℤ) := by omega
  rw [hlog, hmax, habs]
  have hz : (2 : ℚ) ^ ((k : ℤ) - 52) = 2 ^ k / 2 ^ 52 := by
    rw [zpow_sub₀ (by norm_num : (2 : ℚ) ≠ 0)]
    norm_cast
  rw [hz]
  have hk0 : ((2 ^ k : ℕ) : ℚ) ≠ 0 := by positivity
  rw [Int.cast_natCast, Nat.cast_div hdvd hk0]
  push_cast
  field_simp
  left
  norm_num

theorem roundF64_zero : roundF64 0 = 0 := by
  simp [roundF64]

theorem roundF64_one : roundF64 1 = 1 := by
  have := roundF64_intCast 1 (by norm_num)
  simpa using this

theorem f64toInt_intCast (d : ℤ) : f64toInt (d : ℚ) = d := by
  unfold f64toInt
  split_ifs <;> simp

/-- In the last iteration (`i = steps`) the eased progress is exactly 1, and
the offset set is `current` plus the float64 nearest to the distance. -/
theorem scrollPos_last (current target steps : ℤ) (h1 : 1 ≤ steps) (h2 : steps ≤ 2 ^ 53) :
    scrollPos current target steps steps =
      current + f64toInt (roundF64 (roundF64 ((target - current : ℤ) : ℚ))) := by
  have hs : roundF64 (steps : ℚ) = steps :=
    roundF64_intCast steps (by rw [abs_of_nonneg (by omega)]; exact h2)
  have hne : (steps : ℚ) ≠ 0 := by
    have : steps ≠ 0 := by omega
    exact_mod_cast this
  simp only [scrollPos, f64div, f64ofInt, f64sub, f64mul, hs, div_self hne, roundF64_one,
    sub_self, roundF64_zero, mul_zero, sub_zero, mul_one]

theorem scrollOffsets_scrollTo (y : ℤ) (as : List Action) :
    scrollOffsets (Action.scrollTo y :: as) = y :: scrollOffsets as := rfl

theorem scrollOffsets_sleep (d : ℤ) (as : List Action) :
    scrollOffsets (Action.sleep d :: as) = scrollOffsets as := rfl

theorem smoothScrollLoop_succ (current target steps : ℤ) (n : ℕ) (i : ℤ) (s : Rand) :
    (smoothScrollLoop current target steps (n + 1) i s).1 =
      Action.scrollTo (scrollPos current target steps i) ::
        Action.sleep ((10 + (s.Intn 20).1) * Millisecond) ::
          (smoothScrollLoop current target steps n (i + 1) (s.Intn 20).2).1 := rfl

theorem smoothScrollLoop_last (current target steps : ℤ) (n : ℕ) (i : ℤ) (s : Rand) :
    (scrollOffsets (smoothScrollLoop current target steps (n + 1) i s).1).getLast? =
      some (scrollPos current target steps (i + n)) := by
  induction n generalizing i s with
  | zero => simp [smoothScrollLoop, scrollOffsets]
  | succ n ih =>
    rw [smoothScrollLoop_succ, scrollOffsets_scrollTo, scrollOffsets_sleep,
      List.getLast?_cons, ih (i + 1) (s.Intn 20).2]
    simp only [Option.getD_some]
    congr 2
    push_cast
    ring

theorem smoothScrollTo_last (s : Rand) (current target : ℤ) :
    (scrollOffsets (smoothScrollTo s current target).1).getLast? =
      some (current + f64toInt (roundF64 (roundF64 ((target - current : ℤ) : ℚ)))) := by
  have hr : 0 ≤ (s.Intn 10).1 ∧ (s.Intn 10).1 < 10 := by
    simp only [Rand.Intn]
    omega
  obtain ⟨k, hk⟩ : ∃ k : ℕ, 20 + (s.Intn 10).1 = (k : ℤ) := ⟨(20 + (s.Intn 10).1).toNat, by omega⟩
  unfold smoothScrollTo
  simp only [hk]
  have e : ((k : ℤ) + 1).toNat = k + 1 := by omega
  rw [e, smoothScrollLoop_last, zero_add, scrollPos_last _ _ _ (by omega) (by omega)]

/-- The float64 nearest to `2^53 + 1` is `2^53` (a tie, resolved to the even
significand). -/
theorem roundF64_two_pow_53_add_one :
    roundF64 (9007199254740993 : ℚ) = 9007199254740992 := by
  have hlog : Int.log 2 |(9007199254740993 : ℚ)| = 53 := by
    rw [abs_of_nonneg (by norm_num)]
    have : (9007199254740993 : ℚ) = ((9007199254740993 : ℕ) : ℚ) := by norm_num
    rw [this, Int.log_natCast,
      Nat.log_eq_of_pow_le_of_lt_pow (by norm_num : 2 ^ 53 ≤ 9007199254740993) (by norm_num)]
    rfl
  have hfl : ⌊(9007199254740993 : ℚ) / 2⌋ = 4503599627370496 := by
    rw [Int.floor_eq_iff]
    constructor <;> norm_num
  unfold roundF64
  rw [if_neg (by norm_num), hlog]
  simp only [roundHalfEven]
  rw [abs_of_nonneg (by norm_num : (0 : ℚ) ≤ 9007199254740993)]
  norm_num [hfl]

/-- C4 (as stated) fails: from offset 0 towards target `2^53 + 1` the last
offset set by `smoothScrollTo` is `2^53`, not the target. -/
theorem C4_smoothScrollTo_last_offset_counterexample :
    (scrollOffsets (smoothScrollTo ⟨fun _ => 0, 0⟩ 0 9007199254740993).1).getLast? =
        some 9007199254740992 ∧
      (9007199254740992 : ℤ) ≠ 9007199254740993 := by
  refine ⟨?_, by decide⟩
  rw [smoothScrollTo_last]
  have h1 : (((9007199254740993 - 0 : ℤ)) : ℚ) = (9007199254740993 : ℚ) := by norm_num
  have h2 : roundF64 (9007199254740992 : ℚ) = 9007199254740992 := by
    have := roundF64_intCast 9007199254740992 (by norm_num)
    simpa using this
  have h3 : f64toInt (9007199254740992 : ℚ) = 9007199254740992 := by
    have := f64toInt_intCast 9007199254740992
    simpa using this
  rw [h1, roundF64_two_pow_53_add_one, h2, h3]
  rfl

/-- C4 (amended): for every current offset, every target whose distance from it
is at most `2^53` in magnitude (so that `float64(distance)` is exact) and every
step count drawn in [20,30), the last offset set by `smoothScrollTo`
(iteration `i = steps`) is exactly the target. -/
theorem C4_smoothScrollTo_last_offset (s : Rand) (current target : ℤ)
    (h : |target - current| ≤ 2 ^ 53) :
    (scrollOffsets (smoothScrollTo s current target).1).getLast? = some target := by
  rw [smoothScrollTo_last, roundF64_intCast _ h, roundF64_intCast _ h, f64toInt_intCast]
  congr 1
  ring

/-- Witness of C4 (amended): scrolling from offset 120 to offset 1500. -/
theorem C4_smoothScrollTo_last_offset_witness :
    |(1500 : ℤ) - 120| ≤ 2 ^ 53 ∧
      (scrollOffsets (smoothScrollTo ⟨fun n => n, 0⟩ 120 1500).1).getLast? = some 1500 :=
  ⟨by norm_num, C4_smoothScrollTo_last_offset ⟨fun n => n, 0⟩ 120 1500 (by norm_num)⟩

/-! ## Typing controller -/

theorem typedBuffer_append (buf : List Char) (as bs : List Action) :
    typedBuffer buf (as ++ bs) = typedBuffer (typedBuffer buf as) bs := by
  induction as generalizing buf with
  | nil => rfl
  | cons a as ih =>
    cases a with
    | focus => exact ih buf
    | input s => exact ih (buf ++ s.data)
    | press key =>
      cases key
      exact ih buf.dropLast
    | scrollTo y => exact ih buf
    | sleep d => exact ih buf

theorem inputCount_append (as bs : List Action) :
    inputCount (as ++ bs) = inputCount as + inputCount bs := by
  induction as with
  | nil => simp [inputCount]
  | cons a as ih =>
    cases a <;> simp [inputCount, ih]
    omega

theorem backspaceCount_append (as bs : List Action) :
    backspaceCount (as ++ bs) = backspaceCount as + backspaceCount bs := by
  induction as with
  | nil => simp [backspaceCount]
  | cons a as ih =>
    cases a with
    | press key =>
      cases key
      simp [backspaceCount, ih]
      omega
    | focus => simp [backspaceCount, ih]
    | input s => simp [backspaceCount, ih]
    | scrollTo y => simp [backspaceCount, ih]
    | sleep d => simp [backspaceCount, ih]

/-- An injected typo leaves the field as it was: its wrong character is the
one its Backspace removes. -/
theorem typoActions_typedBuffer (t : Rand) (i textLength : ℤ) (buf : List Char) :
    typedBuffer buf (typoActions t i textLength).1 = buf := by
  unfold typoActions
  simp only
  split_ifs
  · simp [typedBuffer, String.singleton, String.push]
  · rfl

/-- An injected typo is one input and one Backspace, or nothing. -/
theorem typoActions_counts (t : Rand) (i textLength : ℤ) :
    inputCount (typoActions t i textLength).1 = backspaceCount (typoActions t i textLength).1 := by
  unfold typoActions
  simp only
  split_ifs
  · rfl
  · rfl

theorem typeLoop_cons (textLength : ℤ) (char : Char) (rest : List Char) (i : ℤ) (t : Rand) :
    (typeLoop textLength (char :: rest) i t).1 =
      (typoActions t i textLength).1 ++
        Action.input (String.singleton char) ::
          Action.sleep (getKeystrokeDelay (typoActions t i textLength).2 char i textLength).1 ::
            (typeLoop textLength rest (i + char.utf8Size)
              (getKeystrokeDelay (typoActions t i textLength).2 char i textLength).2).1 := rfl

theorem typeLoop_typedBuffer (textLength : ℤ) (cs : List Char) (i : ℤ) (t : Rand)
    (buf : List Char) :
    typedBuffer buf (typeLoop textLength cs i t).1 = buf ++ cs := by
  induction cs generalizing i t buf with
  | nil => simp [typeLoop, typedBuffer]
  | cons c cs ih =>
    rw [typeLoop_cons, typedBuffer_append, typoActions_typedBuffer]
    simp only [typedBuffer]
    rw [ih]
    simp [String.singleton, String.push]

theorem typeLoop_inputCount (textLength : ℤ) (cs : List Char) (i : ℤ) (t : Rand) :
    inputCount (typeLoop textLength cs i t).1 =
      cs.length + backspaceCount (typeLoop textLength cs i t).1 := by
  induction cs generalizing i t with
  | nil => simp [typeLoop, inputCount, backspaceCount]
  | cons c cs ih =>
    rw [typeLoop_cons, inputCount_append, backspaceCount_append, typoActions_counts]
    simp only [inputCount, backspaceCount]
    rw [ih]
    simp only [List.length_cons]
    omega

/-- C5: for every text and every outcome of the random draws, a `TypeText` call
whose element focus succeeds calls the input primitive at least as many times
as the text has characters (exactly one more per injected typo, each typo being
undone by one Backspace), and with every injected wrong character removed by
its Backspace the inputs are exactly the characters of the text in order. -/
theorem C5_TypeText_inputs (t : Rand) (text : String) :
    text.length ≤ inputCount (TypeText t none text).2.1 ∧
      inputCount (TypeText t none text).2.1 =
        text.length + backspaceCount (TypeText t none text).2.1 ∧
      typedBuffer [] (TypeText t none text).2.1 = text.data := by
  have hc : inputCount (TypeText t none text).2.1 =
      text.length + backspaceCount (TypeText t none text).2.1 := by
    simp only [TypeText, inputCount, backspaceCount]
    rw [typeLoop_inputCount]
    rfl
  refine ⟨by omega, hc, ?_⟩
  simp only [TypeText, typedBuffer]
  rw [typeLoop_typedBuffer]
  rfl

/-! ## Rate governor -/

theorem resetIfNeeded_of_no_rollover (r : RateLimiter) (now : Time)
    (hd : now.Day = r.lastReset.Day) (hh : now.Sub r.lastHourReset < Hour) :
    r.resetIfNeeded now = r := by
  have h1 : r.resetDaily now = r := by
    unfold RateLimiter.resetDaily
    rw [if_neg (by simpa using hd)]
  unfold RateLimiter.resetIfNeeded
  rw [h1]
  unfold RateLimiter.resetHourly
  rw [if_neg (by omega)]

theorem recordMany_connection (r : RateLimiter) (ts : List (Time × Time))
    (h : ∀ p ∈ ts, p.1.Day = r.lastReset.Day ∧ p.1.Sub r.lastHourReset < Hour) :
    (recordMany RateLimiter.RecordConnection r ts).config = r.config ∧
      (recordMany RateLimiter.RecordConnection r ts).lastReset = r.lastReset ∧
      (recordMany RateLimiter.RecordConnection r ts).lastHourReset = r.lastHourReset ∧
      (recordMany RateLimiter.RecordConnection r ts).dailyConnections =
        r.dailyConnections + ts.length := by
  induction ts generalizing r with
  | nil => simp [recordMany]
  | cons p ps ih =>
    have hp := h p (List.mem_cons_self p ps)
    have hr : r.RecordConnection p.1 p.2 =
        { r with dailyConnections := r.dailyConnections + 1, lastAction := p.2 } := by
      unfold RateLimiter.RecordConnection
      rw [resetIfNeeded_of_no_rollover r p.1 hp.1 hp.2]
    have ih' := ih (r.RecordConnection p.1 p.2) (by
      intro q hq
      rw [hr]
      exact h q (List.mem_cons_of_mem p hq))
    simp only [recordMany]
    rw [hr] at ih' ⊢
    obtain ⟨a, b, c, d⟩ := ih'
    refine ⟨a, b, c, ?_⟩
    rw [d]
    simp only [List.length_cons]
    push_cast
    ring

theorem recordMany_message (r : RateLimiter) (ts : List (Time × Time))
    (h : ∀ p ∈ ts, p.1.Day = r.lastReset.Day ∧ p.1.Sub r.lastHourReset < Hour) :
    (recordMany RateLimiter.RecordMessage r ts).config = r.config ∧
      (recordMany RateLimiter.RecordMessage r ts).lastReset = r.lastReset ∧
      (recordMany RateLimiter.RecordMessage r ts).lastHourReset = r.lastHourReset ∧
      (recordMany RateLimiter.RecordMessage r ts).dailyMessages =
        r.dailyMessages + ts.length := by
  induction ts generalizing r with
  | nil => simp [recordMany]
  | cons p ps ih =>
    have hp := h p (List.mem_cons_self p ps)
    have hr : r.RecordMessage p.1 p.2 =
        { r with dailyMessages := r.dailyMessages + 1, lastAction := p.2 } := by
      unfold RateLimiter.RecordMessage
      rw [resetIfNeeded_of_no_rollover r p.1 hp.1 hp.2]
    have ih' := ih (r.RecordMessage p.1 p.2) (by
      intro q hq
      rw [hr]
      exact h q (List.mem_cons_of_mem p hq))
    simp only [recordMany]
    rw [hr] at ih' ⊢
    obtain ⟨a, b, c, d⟩ := ih'
    refine ⟨a, b, c, ?_⟩
    rw [d]
    simp only [List.length_cons]
    push_cast
    ring

theorem recordMany_search (r : RateLimiter) (ts : List (Time × Time))
    (h : ∀ p ∈ ts, p.1.Day = r.lastReset.Day ∧ p.1.Sub r.lastHourReset < Hour) :
    (recordMany RateLimiter.RecordSearch r ts).config = r.config ∧
      (recordMany RateLimiter.RecordSearch r ts).lastReset = r.lastReset ∧
      (recordMany RateLimiter.RecordSearch r ts).lastHourReset = r.lastHourReset ∧
      (recordMany RateLimiter.RecordSearch r ts).hourlySearches =
        r.hourlySearches + ts.length := by
  induction ts generalizing r with
  | nil => simp [recordMany]
  | cons p ps ih =>
    have hp := h p (List.mem_cons_self p ps)
    have hr : r.RecordSearch p.1 p.2 =
        { r with hourlySearches := r.hourlySearches + 1, lastAction := p.2 } := by
      unfold RateLimiter.RecordSearch
      rw [resetIfNeeded_of_no_rollover r p.1 hp.1 hp.2]
    have ih' := ih (r.RecordSearch p.1 p.2) (by
      intro q hq
      rw [hr]
      exact h q (List.mem_cons_of_mem p hq))
    simp only [recordMany]
    rw [hr] at ih' ⊢
    obtain ⟨a, b, c, d⟩ := ih'
    refine ⟨a, b, c, ?_⟩
    rw [d]
    simp only [List.length_cons]
    push_cast
    ring

/-- After `k` records of one kind on a fresh limiter, with no rollover, the
matching query holds exactly when `k` is below the configured maximum. -/
theorem can_iff_below_limit (config : RateLimitsConfig) (t0 : Time) (ts : List (Time × Time))
    (now : Time)
    (hts : ∀ p ∈ ts, p.1.Day = t0.Day ∧ p.1.Sub t0 < Hour)
    (hnow : now.Day = t0.Day ∧ now.Sub t0 < Hour) :
    (((recordMany RateLimiter.RecordConnection (NewRateLimiter config t0) ts).CanSendConnection
          now).1 = true ↔ (ts.length : ℤ) < config.MaxConnectionsPerDay) ∧
      (((recordMany RateLimiter.RecordMessage (NewRateLimiter config t0) ts).CanSendMessage
          now).1 = true ↔ (ts.length : ℤ) < config.MaxMessagesPerDay) ∧
      (((recordMany RateLimiter.RecordSearch (NewRateLimiter config t0) ts).CanSearch
          now).1 = true ↔ (ts.length : ℤ) < config.MaxSearchesPerHour) := by
  refine ⟨?_, ?_, ?_⟩
  · obtain ⟨a, b, c, d⟩ := recordMany_connection (NewRateLimiter config t0) ts hts
    have hn := resetIfNeeded_of_no_rollover
      (recordMany RateLimiter.RecordConnection (NewRateLimiter config t0) ts) now
      (by rw [b]; exact hnow.1) (by rw [c]; exact hnow.2)
    simp only [RateLimiter.CanSendConnection, hn, a, d, decide_eq_true_eq]
    simp [NewRateLimiter]
  · obtain ⟨a, b, c, d⟩ := recordMany_message (NewRateLimiter config t0) ts hts
    have hn := resetIfNeeded_of_no_rollover
      (recordMany RateLimiter.RecordMessage (NewRateLimiter config t0) ts) now
      (by rw [b]; exact hnow.1) (by rw [c]; exact hnow.2)
    simp only [RateLimiter.CanSendMessage, hn, a, d, decide_eq_true_eq]
    simp [NewRateLimiter]
  · obtain ⟨a, b, c, d⟩ := recordMany_search (NewRateLimiter config t0) ts hts
    have hn := resetIfNeeded_of_no_rollover
      (recordMany RateLimiter.RecordSearch (NewRateLimiter config t0) ts) now
      (by rw [b]; exact hnow.1) (by rw [c]; exact hnow.2)
    simp only [RateLimiter.CanSearch, hn, a, d, decide_eq_true_eq]
    simp [NewRateLimiter]

/-- C6: for a freshly created `RateLimiter` and as long as no daily or hourly
rollover occurs (every reset check reads a clock on the creation day and less
than an hour after creation), after `k` `RecordConnection` calls
`CanSendConnection()` returns true iff `k < MaxConnectionsPerDay`; likewise
`RecordMessage`/`CanSendMessage` against `MaxMessagesPerDay` and
`RecordSearch`/`CanSearch` against `MaxSearchesPerHour`. In particular with a
limit of 20 connections the query is false after 20 records, and with a limit
of 5 searches it is false after 5 records. -/
theorem C6_can_iff_records_below_limit (config : RateLimitsConfig) (t0 : Time)
    (ts : List (Time × Time)) (now : Time)
    (hts : ∀ p ∈ ts, p.1.Day = t0.Day ∧ p.1.Sub t0 < Hour)
    (hnow : now.Day = t0.Day ∧ now.Sub t0 < Hour) :
    (((recordMany RateLimiter.RecordConnection (NewRateLimiter config t0) ts).CanSendConnection
          now).1 = true ↔ (ts.length : ℤ) < config.MaxConnectionsPerDay) ∧
      (((recordMany RateLimiter.RecordMessage (NewRateLimiter config t0) ts).CanSendMessage
          now).1 = true ↔ (ts.length : ℤ) < config.MaxMessagesPerDay) ∧
      (((recordMany RateLimiter.RecordSearch (NewRateLimiter config t0) ts).CanSearch
          now).1 = true ↔ (ts.length : ℤ) < config.MaxSearchesPerHour) ∧
      (config.MaxConnectionsPerDay = 20 → ts.length = 20 →
        ((recordMany RateLimiter.RecordConnection (NewRateLimiter config t0) ts).CanSendConnection
          now).1 = false) ∧
      (config.MaxSearchesPerHour = 5 → ts.length = 5 →
        ((recordMany RateLimiter.RecordSearch (NewRateLimiter config t0) ts).CanSearch
          now).1 = false) := by
  obtain ⟨hc, hm, hs⟩ := can_iff_below_limit config t0 ts now hts hnow
  refine ⟨hc, hm, hs, ?_, ?_⟩
  · intro h20 hk
    rw [Bool.eq_false_iff]
    intro h
    have := hc.mp h
    rw [h20, hk] at this
    norm_num at this
  · intro h5 hk
    rw [Bool.eq_false_iff]
    intro h
    have := hs.mp h
    rw [h5, hk] at this
    norm_num at this

/-- Witness of C6: limits 20 / 20 / 5 and twenty connection records within the
first minutes of the creation day; the next query is refused. -/
theorem C6_can_iff_records_below_limit_witness :
    (∀ p ∈ List.replicate 20 ((⟨2024, 3, 5, 9, 60⟩ : Time), (⟨2024, 3, 5, 9, 61⟩ : Time)),
        p.1.Day = (⟨2024, 3, 5, 9, 0⟩ : Time).Day ∧ p.1.Sub ⟨2024, 3, 5, 9, 0⟩ < Hour) ∧
      ((⟨2024, 3, 5, 9, 70⟩ : Time).Day = (⟨2024, 3, 5, 9, 0⟩ : Time).Day ∧
        (⟨2024, 3, 5, 9, 70⟩ : Time).Sub ⟨2024, 3, 5, 9, 0⟩ < Hour) ∧
      ((recordMany RateLimiter.RecordConnection (NewRateLimiter ⟨20, 20, 5, 0⟩ ⟨2024, 3, 5, 9, 0⟩)
          (List.replicate 20 (⟨2024, 3, 5, 9, 60⟩, ⟨2024, 3, 5, 9, 61⟩))).CanSendConnection
            ⟨2024, 3, 5, 9, 70⟩).1 = false :=
  have h1 : ∀ p ∈ List.replicate 20 ((⟨2024, 3, 5, 9, 60⟩ : Time), (⟨2024, 3, 5, 9, 61⟩ : Time)),
      p.1.Day = (⟨2024, 3, 5, 9, 0⟩ : Time).Day ∧ p.1.Sub ⟨2024, 3, 5, 9, 0⟩ < Hour := by
    intro p hp
    rw [List.eq_of_mem_replicate hp]
    decide
  have h2 : (⟨2024, 3, 5, 9, 70⟩ : Time).Day = (⟨2024, 3, 5, 9, 0⟩ : Time).Day ∧
      (⟨2024, 3, 5, 9, 70⟩ : Time).Sub ⟨2024, 3, 5, 9, 0⟩ < Hour := by decide
  ⟨h1, h2,
    (C6_can_iff_records_below_limit ⟨20, 20, 5, 0⟩ ⟨2024, 3, 5, 9, 0⟩
      (List.replicate 20 (⟨2024, 3, 5, 9, 60⟩, ⟨2024, 3, 5, 9, 61⟩)) ⟨2024, 3, 5, 9, 70⟩
      h1 h2).2.2.2.1 rfl (by simp)⟩

theorem daysIn_ge (y m : ℤ) : 28 ≤ daysIn y m := by
  unfold daysIn
  split_ifs <;> norm_num

/-- Consecutive calendar dates never have the same day of the month. -/
theorem nextDate_day_ne (d : ℤ × ℤ × ℤ) : (nextDate d).2.2 ≠ d.2.2 := by
  have h := daysIn_ge d.1 d.2.1
  unfold nextDate
  split_ifs <;> simp only <;> omega

theorem resetIfNeeded_config (r : RateLimiter) (now : Time) :
    (r.resetIfNeeded now).config = r.config := by
  unfold RateLimiter.resetIfNeeded RateLimiter.resetHourly RateLimiter.resetDaily
  split_ifs <;> rfl

/-- A reset check on a different day of the month zeroes both daily counters
and stores the clock reading. -/
theorem resetIfNeeded_of_day_ne (r : RateLimiter) (now : Time) (h : now.Day ≠ r.lastReset.Day) :
    (r.resetIfNeeded now).dailyConnections = 0 ∧ (r.resetIfNeeded now).dailyMessages = 0 ∧
      (r.resetIfNeeded now).lastReset = now := by
  unfold RateLimiter.resetIfNeeded RateLimiter.resetHourly RateLimiter.resetDaily
  rw [if_pos h]
  split_ifs <;> exact ⟨rfl, rfl, rfl⟩

/-- A reset check one hour or more after the last hourly reset zeroes the
hourly counter and stores the clock reading. -/
theorem resetIfNeeded_of_hour_elapsed (r : RateLimiter) (now : Time)
    (h : now.Sub r.lastHourReset ≥ Hour) :
    (r.resetIfNeeded now).hourlySearches = 0 ∧ (r.resetIfNeeded now).lastHourReset = now := by
  have hd : (r.resetDaily now).lastHourReset = r.lastHourReset := by
    unfold RateLimiter.resetDaily
    split_ifs <;> rfl
  unfold RateLimiter.resetIfNeeded RateLimiter.resetHourly
  rw [hd, if_pos h]
  exact ⟨rfl, rfl⟩

/-- Daily counters that are zero stay zero through a reset check. -/
theorem resetIfNeeded_daily_zero (r : RateLimiter) (now : Time)
    (hc : r.dailyConnections = 0) (hm : r.dailyMessages = 0) :
    (r.resetIfNeeded now).dailyConnections = 0 ∧ (r.resetIfNeeded now).dailyMessages = 0 := by
  unfold RateLimiter.resetIfNeeded RateLimiter.resetHourly RateLimiter.resetDaily
  split_ifs <;> exact ⟨by first | rfl | exact hc, by first | rfl | exact hm⟩

/-- An hourly counter that is zero stays zero through a reset check. -/
theorem resetIfNeeded_hourly_zero (r : RateLimiter) (now : Time) (hs : r.hourlySearches = 0) :
    (r.resetIfNeeded now).hourlySearches = 0 := by
  unfold RateLimiter.resetIfNeeded RateLimiter.resetHourly RateLimiter.resetDaily
  split_ifs <;> first | rfl | exact hs

theorem GetStats_lookup (r : RateLimiter) (now : Time) :
    (r.GetStats now).1.lookup "daily_connections" = some (r.resetIfNeeded now).dailyConnections ∧
      (r.GetStats now).1.lookup "daily_messages" = some (r.resetIfNeeded now).dailyMessages ∧
      (r.GetStats now).1.lookup "hourly_searches" = some (r.resetIfNeeded now).hourlySearches := by
  refine ⟨?_, ?_, ?_⟩ <;> simp [RateLimiter.GetStats, List.lookup]

/-- C7: for every `RateLimiter` with `MaxConnectionsPerDay >= 1`, whatever its
counters, once `now` is on the calendar day following `lastReset` the next
`CanSendConnection()` returns true and `GetStats()` reports
`daily_connections == 0` and `daily_messages == 0`, whether it is called in
place of that query or at any time after it. -/
theorem C7_daily_rollover (r : RateLimiter) (now : Time)
    (hmax : 1 ≤ r.config.MaxConnectionsPerDay)
    (hday : now.date = nextDate r.lastReset.date) :
    (r.CanSendConnection now).1 = true ∧
      (r.GetStats now).1.lookup "daily_connections" = some 0 ∧
      (r.GetStats now).1.lookup "daily_messages" = some 0 ∧
      ∀ later : Time,
        ((r.CanSendConnection now).2.GetStats later).1.lookup "daily_connections" = some 0 ∧
          ((r.CanSendConnection now).2.GetStats later).1.lookup "daily_messages" = some 0 := by
  have hne : now.Day ≠ r.lastReset.Day := by
    have h1 := nextDate_day_ne r.lastReset.date
    rw [← hday] at h1
    exact h1
  obtain ⟨hc, hm, -⟩ := resetIfNeeded_of_day_ne r now hne
  obtain ⟨g1, g2, -⟩ := GetStats_lookup r now
  refine ⟨?_, by rw [g1, hc], by rw [g2, hm], ?_⟩
  · simp only [RateLimiter.CanSendConnection, hc, resetIfNeeded_config, decide_eq_true_eq]
    omega
  · intro later
    obtain ⟨k1, k2, -⟩ := GetStats_lookup (r.CanSendConnection now).2 later
    obtain ⟨z1, z2⟩ := resetIfNeeded_daily_zero (r.CanSendConnection now).2 later hc hm
    exact ⟨by rw [k1, z1], by rw [k2, z2]⟩

/-- Witness of C7: a limiter with 20 of 20 connections used on 31 January,
queried on 1 February. -/
theorem C7_daily_rollover_witness :
    (1 : ℤ) ≤ 20 ∧ (⟨2024, 2, 1, 8, 500⟩ : Time).date = nextDate (⟨2024, 1, 31, 23, 0⟩ : Time).date ∧
      (RateLimiter.CanSendConnection
        ⟨⟨20, 10, 5, 0⟩, 20, 7, 3, ⟨2024, 1, 31, 23, 0⟩, ⟨2024, 1, 31, 23, 0⟩, ⟨2024, 1, 31, 23, 0⟩⟩
        ⟨2024, 2, 1, 8, 500⟩).1 = true :=
  ⟨by decide, by decide,
    (C7_daily_rollover
      ⟨⟨20, 10, 5, 0⟩, 20, 7, 3, ⟨2024, 1, 31, 23, 0⟩, ⟨2024, 1, 31, 23, 0⟩, ⟨2024, 1, 31, 23, 0⟩⟩
      ⟨2024, 2, 1, 8, 500⟩ (by decide) (by decide)).1⟩

/-- C8: for every `RateLimiter` with `MaxSearchesPerHour >= 1`, whatever its
search counter, once `now - lastHourReset >= 1 hour` (exactly one hour
included) the next `CanSearch()` returns true and sets `lastHourReset` to
`now`, and `GetStats()` reports `hourly_searches == 0`, whether it is called in
place of that query or at any time after it. -/
theorem C8_hourly_rollover (r : RateLimiter) (now : Time)
    (hmax : 1 ≤ r.config.MaxSearchesPerHour)
    (hhour : now.Sub r.lastHourReset ≥ Hour) :
    (r.CanSearch now).1 = true ∧
      (r.CanSearch now).2.lastHourReset = now ∧
      (r.GetStats now).1.lookup "hourly_searches" = some 0 ∧
      (r.GetStats now).2.lastHourReset = now ∧
      ∀ later : Time,
        ((r.CanSearch now).2.GetStats later).1.lookup "hourly_searches" = some 0 := by
  obtain ⟨hs, hl⟩ := resetIfNeeded_of_hour_elapsed r now hhour
  obtain ⟨-, -, g3⟩ := GetStats_lookup r now
  refine ⟨?_, hl, by rw [g3, hs], hl, ?_⟩
  · simp only [RateLimiter.CanSearch, hs, resetIfNeeded_config, decide_eq_true_eq]
    omega
  · intro later
    obtain ⟨-, -, k3⟩ := GetStats_lookup (r.CanSearch now).2 later
    rw [k3, resetIfNeeded_hourly_zero (r.CanSearch now).2 later hs]

/-- Witness of C8: a limiter with 5 of 5 searches used, queried exactly one
hour after the last hourly reset. -/
theorem C8_hourly_rollover_witness :
    (1 : ℤ) ≤ 5 ∧
      (⟨2024, 1, 31, 11, 3600000000000⟩ : Time).Sub ⟨2024, 1, 31, 10, 0⟩ ≥ Hour ∧
      (RateLimiter.CanSearch
        ⟨⟨20, 10, 5, 0⟩, 2, 1, 5, ⟨2024, 1, 31, 10, 0⟩, ⟨2024, 1, 31, 10, 0⟩, ⟨2024, 1, 31, 10, 0⟩⟩
        ⟨2024, 1, 31, 11, 3600000000000⟩).1 = true :=
  ⟨by decide, by decide,
    (C8_hourly_rollover
      ⟨⟨20, 10, 5, 0⟩, 2, 1, 5, ⟨2024, 1, 31, 10, 0⟩, ⟨2024, 1, 31, 10, 0⟩, ⟨2024, 1, 31, 10, 0⟩⟩
      ⟨2024, 1, 31, 11, 3600000000000⟩ (by decide) (by decide)).1⟩

/-! ## Timing controller -/

/-- C9: for every `StealthConfig` and every wall-clock hour `h`,
`IsBusinessHours()` returns true when `BusinessHoursOnly` is false, and
otherwise returns true iff `BusinessHoursStart <= h < BusinessHoursEnd`; with
the restriction enabled it is false at `h = BusinessHoursEnd` and, the window being
non-empty, true at `h = BusinessHoursStart`. -/
theorem C9_IsBusinessHours (t : TimingController) (now : Time) :
    (t.config.BusinessHoursOnly = false → t.IsBusinessHours now = true) ∧
      (t.config.BusinessHoursOnly = true →
        (t.IsBusinessHours now = true ↔
          t.config.BusinessHoursStart ≤ now.Hour ∧ now.Hour < t.config.BusinessHoursEnd)) ∧
      (t.config.BusinessHoursOnly = true → now.Hour = t.config.BusinessHoursEnd →
        t.IsBusinessHours now = false) ∧
      (t.config.BusinessHoursOnly = true →
        t.config.BusinessHoursStart < t.config.BusinessHoursEnd →
        now.Hour = t.config.BusinessHoursStart → t.IsBusinessHours now = true) := by
  refine ⟨?_, ?_, ?_, ?_⟩
  · intro h
    simp [TimingController.IsBusinessHours, h]
  · intro h
    simp [TimingController.IsBusinessHours, h]
  · intro h he
    simp [TimingController.IsBusinessHours, h, he]
  · intro h hlt hs
    simp only [TimingController.IsBusinessHours, h, hs]
    simp [hlt]

/-- Witness of C9: a 9-to-17 window at hour 9 (inside), at hour 17
(outside) and with the restriction disabled at 3 in the morning. -/
theorem C9_IsBusinessHours_witness :
    TimingController.IsBusinessHours
        ⟨⟨true, true, true, true, 2000000000, 5000000000, true, 9, 17⟩, ⟨fun _ => 0, 0⟩⟩
        ⟨2024, 3, 5, 9, 0⟩ = true ∧
      TimingController.IsBusinessHours
        ⟨⟨true, true, true, true, 2000000000, 5000000000, true, 9, 17⟩, ⟨fun _ => 0, 0⟩⟩
        ⟨2024, 3, 5, 17, 0⟩ = false ∧
      TimingController.IsBusinessHours
        ⟨⟨true, true, true, true, 2000000000, 5000000000, false, 9, 17⟩, ⟨fun _ => 0, 0⟩⟩
        ⟨2024, 3, 5, 3, 0⟩ = true :=
  ⟨(C9_IsBusinessHours
      ⟨⟨true, true, true, true, 2000000000, 5000000000, true, 9, 17⟩, ⟨fun _ => 0, 0⟩⟩
      ⟨2024, 3, 5, 9, 0⟩).2.2.2 rfl (by decide) rfl,
    (C9_IsBusinessHours
      ⟨⟨true, true, true, true, 2000000000, 5000000000, true, 9, 17⟩, ⟨fun _ => 0, 0⟩⟩
      ⟨2024, 3, 5, 17, 0⟩).2.2.1 rfl rfl,
    (C9_IsBusinessHours
      ⟨⟨true, true, true, true, 2000000000, 5000000000, false, 9, 17⟩, ⟨fun _ => 0, 0⟩⟩
      ⟨2024, 3, 5, 3, 0⟩).1 rfl⟩

theorem Milliseconds_bounds (d : ℤ) :
    d - Millisecond < Milliseconds d * Millisecond ∧
      Milliseconds d * Millisecond < d + Millisecond ∧
      (0 ≤ d → Milliseconds d * Millisecond ≤ d) ∧
      (d % 1000000 = 0 → Milliseconds d * Millisecond = d) := by
  unfold Milliseconds Millisecond
  split_ifs with h
  · refine ⟨by omega, by omega, fun _ => by omega, fun _ => by omega⟩
  · refine ⟨by omega, by omega, fun _ => by omega, fun _ => by omega⟩

theorem Milliseconds_mono {a b : ℤ} (h : a ≤ b) : Milliseconds a ≤ Milliseconds b := by
  unfold Milliseconds
  split_ifs <;> omega

/-- C10 (the code on the failing input): with `MinActionDelay = 1.5ms` and
`MaxActionDelay = 2.5ms` (and the draw 0) the delay slept by `RandomDelay` is
1ms, below the configured minimum: the delay is built from the truncated
millisecond counts. The other branch does not truncate: with
`MinActionDelay = 1.5ms` and `MaxActionDelay = 1.9ms` the millisecond counts
are equal and the delay slept is `MinActionDelay` itself, 1.5ms. -/
theorem C10_RandomDelay_below_minimum :
    (1500000 : ℤ) < 2500000 ∧
      (TimingController.RandomDelay
        ⟨⟨true, true, true, true, 1500000, 2500000, false, 9, 17⟩, ⟨fun _ => 0, 0⟩⟩).1 = 1000000 ∧
      ¬ ((1500000 : ℤ) ≤ 1000000) ∧
      (TimingController.RandomDelay
        ⟨⟨true, true, true, true, 1500000, 1900000, false, 9, 17⟩, ⟨fun _ => 0, 0⟩⟩).1 =
          1500000 := by
  refine ⟨by decide, ?_, by decide, ?_⟩
  · simp [TimingController.RandomDelay, Milliseconds, Rand.Int63n, Millisecond]
  · simp [TimingController.RandomDelay, Milliseconds]

/-- What the code guarantees: for every configuration with
`MinActionDelay < MaxActionDelay` and every random draw, the duration `d`
slept by `RandomDelay` satisfies `MinActionDelay - 1ms < d < MaxActionDelay`,
and `MinActionDelay <= d` when `MinActionDelay` is a whole number of
milliseconds; when `MaxActionDelay <= MinActionDelay` it sleeps exactly
`MinActionDelay`. -/
theorem RandomDelay_bounds (t : TimingController) :
    (t.config.MinActionDelay < t.config.MaxActionDelay →
        t.config.MinActionDelay - Millisecond < t.RandomDelay.1 ∧
          t.RandomDelay.1 < t.config.MaxActionDelay ∧
          (t.config.MinActionDelay % 1000000 = 0 → t.config.MinActionDelay ≤ t.RandomDelay.1)) ∧
      (t.config.MaxActionDelay ≤ t.config.MinActionDelay →
        t.RandomDelay.1 = t.config.MinActionDelay) := by
  obtain ⟨a1, a2, -, a4⟩ := Milliseconds_bounds t.config.MinActionDelay
  obtain ⟨b1, b2, -, -⟩ := Milliseconds_bounds t.config.MaxActionDelay
  constructor
  · intro hlt
    unfold TimingController.RandomDelay
    simp only
    split_ifs with hms
    · exact ⟨by simp [Millisecond], hlt, fun _ => le_refl _⟩
    · have hpos : 0 < Milliseconds t.config.MaxActionDelay - Milliseconds t.config.MinActionDelay := by
        omega
      have h0 := Int.emod_nonneg (t.rand.src t.rand.pos : ℤ) hpos.ne'
      have h1 := Int.emod_lt_of_pos (t.rand.src t.rand.pos : ℤ) hpos
      simp only [Rand.Int63n]
      unfold Millisecond at *
      refine ⟨by omega, by omega, fun hw => ?_⟩
      have := a4 hw
      omega
  · intro hle
    have := Milliseconds_mono hle
    unfold TimingController.RandomDelay
    simp only
    rw [if_pos this]

/-- The scenario `MinActionDelay = 2s` and `MaxActionDelay = 5s`: the delay is
in `[2s, 5s)`. -/
theorem RandomDelay_bounds_example :
    (2000000000 : ℤ) < 5000000000 ∧ (2000000000 : ℤ) % 1000000 = 0 ∧
      (2000000000 : ℤ) ≤ (TimingController.RandomDelay
        ⟨⟨true, true, true, true, 2000000000, 5000000000, false, 9, 17⟩,
          ⟨fun n => 7 * n + 2999, 0⟩⟩).1 ∧
      (TimingController.RandomDelay
        ⟨⟨true, true, true, true, 2000000000, 5000000000, false, 9, 17⟩,
          ⟨fun n => 7 * n + 2999, 0⟩⟩).1 < 5000000000 :=
  ⟨by decide, by decide,
    ((RandomDelay_bounds
      ⟨⟨true, true, true, true, 2000000000, 5000000000, false, 9, 17⟩,
        ⟨fun n => 7 * n + 2999, 0⟩⟩).1 (by decide)).2.2 (by decide),
    ((RandomDelay_bounds
      ⟨⟨true, true, true, true, 2000000000, 5000000000, false, 9, 17⟩,
        ⟨fun n => 7 * n + 2999, 0⟩⟩).1 (by decide)).2.1⟩

/-! ## float64 rounding is monotone -/

theorem roundHalfEven_floor_le (m : ℚ) : ⌊m⌋ ≤ roundHalfEven m := by
  unfold roundHalfEven
  simp only
  split_ifs <;> omega

theorem roundHalfEven_le_floor_succ (m : ℚ) : roundHalfEven m ≤ ⌊m⌋ + 1 := by
  unfold roundHalfEven
  simp only
  split_ifs <;> omega

theorem roundHalfEven_mono {x y : ℚ} (h : x ≤ y) : roundHalfEven x ≤ roundHalfEven y := by
  have hf : ⌊x⌋ ≤ ⌊y⌋ := Int.floor_mono h
  rcases hf.lt_or_eq with hlt | heq
  · calc roundHalfEven x ≤ ⌊x⌋ + 1 := roundHalfEven_le_floor_succ x
      _ ≤ ⌊y⌋ := hlt
      _ ≤ roundHalfEven y := roundHalfEven_floor_le y
  · unfold roundHalfEven
    simp only
    rw [heq]
    have hxy : x - (⌊y⌋ : ℚ) ≤ y - (⌊y⌋ : ℚ) := by linarith
    split_ifs <;> first | omega | (exfalso; linarith)

theorem roundF64_of_pos {q : ℚ} (hq : 0 < q) :
    roundF64 q = (roundHalfEven (q / 2 ^ (max (Int.log 2 q) (-1022) - 52)) : ℚ) *
      2 ^ (max (Int.log 2 q) (-1022) - 52) := by
  unfold roundF64
  rw [if_neg hq.ne']
  simp only
  rw [if_neg (not_lt.mpr hq.le), abs_of_pos hq, one_mul]

theorem roundF64_neg (q : ℚ) : roundF64 (-q) = -roundF64 q := by
  rcases lt_trichotomy q 0 with h | h | h
  · unfold roundF64
    rw [if_neg (by linarith : ¬ (-q = 0)), if_neg h.ne]
    simp only
    rw [if_neg (by linarith : ¬ (-q < 0)), if_pos h, abs_neg]
    ring
  · subst h
    simp [roundF64]
  · unfold roundF64
    rw [if_neg (by linarith : ¬ (-q = 0)), if_neg h.ne']
    simp only
    rw [if_pos (by linarith : -q < 0), if_neg (by linarith : ¬ (q < 0)), abs_neg]
    ring

theorem roundF64_nonneg {q : ℚ} (hq : 0 ≤ q) : 0 ≤ roundF64 q := by
  rcases hq.eq_or_lt with h | h
  · rw [← h, roundF64_zero]
  · rw [roundF64_of_pos h]
    have hu : (0 : ℚ) < 2 ^ (max (Int.log 2 q) (-1022) - 52) := by positivity
    have h1 : 0 ≤ ⌊q / 2 ^ (max (Int.log 2 q) (-1022) - 52)⌋ :=
      Int.floor_nonneg.mpr (div_nonneg h.le hu.le)
    have h2 := roundHalfEven_floor_le (q / 2 ^ (max (Int.log 2 q) (-1022) - 52))
    have h3 : (0 : ℚ) ≤ (roundHalfEven (q / 2 ^ (max (Int.log 2 q) (-1022) - 52)) : ℚ) := by
      exact_mod_cast h1.trans h2
    exact mul_nonneg h3 hu.le

/-- A positive number rounds to at most the next power of two. -/
theorem roundF64_le_two_zpow {a : ℚ} (ha : 0 < a) :
    roundF64 a ≤ 2 ^ (max (Int.log 2 a) (-1022) + 1) := by
  set e := max (Int.log 2 a) (-1022) with he
  have hu : (0 : ℚ) < 2 ^ (e - 52) := by positivity
  have h1 : a < 2 ^ (Int.log 2 a + 1) := by
    have := Int.lt_zpow_succ_log_self (by norm_num : 1 < 2) a
    simpa using this
  have h2 : (2 : ℚ) ^ (Int.log 2 a + 1) ≤ 2 ^ (e + 1) :=
    zpow_le_zpow_right₀ (by norm_num) (by omega)
  have h3 : (2 : ℚ) ^ (e + 1) = 2 ^ (53 : ℤ) * 2 ^ (e - 52) := by
    rw [← zpow_add₀ (by norm_num : (2 : ℚ) ≠ 0)]
    congr 1
    ring
  have h4 : a / 2 ^ (e - 52) ≤ ((2 ^ 53 : ℤ) : ℚ) := by
    rw [div_le_iff₀ hu]
    have : ((2 ^ 53 : ℤ) : ℚ) = 2 ^ (53 : ℤ) := by norm_num
    rw [this, ← h3]
    linarith
  have h5 := roundHalfEven_mono h4
  rw [roundHalfEven_intCast] at h5
  rw [roundF64_of_pos ha, h3]
  have h6 : (roundHalfEven (a / 2 ^ (e - 52)) : ℚ) ≤ 2 ^ (53 : ℤ) := by
    have : (roundHalfEven (a / 2 ^ (e - 52)) : ℚ) ≤ ((2 ^ 53 : ℤ) : ℚ) := by exact_mod_cast h5
    calc (roundHalfEven (a / 2 ^ (e - 52)) : ℚ) ≤ ((2 ^ 53 : ℤ) : ℚ) := this
      _ = 2 ^ (53 : ℤ) := by norm_num
  exact mul_le_mul_of_nonneg_right h6 hu.le

/-- A normal positive number rounds to at least the power of two below it. -/
theorem two_zpow_le_roundF64 {b : ℚ} (hb : 0 < b) (hn : -1022 ≤ Int.log 2 b) :
    2 ^ (Int.log 2 b) ≤ roundF64 b := by
  have hmax : max (Int.log 2 b) (-1022) = Int.log 2 b := max_eq_left hn
  set e := Int.log 2 b with he
  have hu : (0 : ℚ) < 2 ^ (e - 52) := by positivity
  have h1 : (2 : ℚ) ^ e ≤ b := by
    have := Int.zpow_log_le_self (by norm_num : 1 < 2) hb
    simpa using this
  have h3 : (2 : ℚ) ^ e = 2 ^ (52 : ℤ) * 2 ^ (e - 52) := by
    rw [← zpow_add₀ (by norm_num : (2 : ℚ) ≠ 0)]
    congr 1
    ring
  have h4 : ((2 ^ 52 : ℤ) : ℚ) ≤ b / 2 ^ (e - 52) := by
    rw [le_div_iff₀ hu]
    have : ((2 ^ 52 : ℤ) : ℚ) = 2 ^ (52 : ℤ) := by norm_num
    rw [this, ← h3]
    exact h1
  have h5 := roundHalfEven_mono h4
  rw [roundHalfEven_intCast] at h5
  rw [roundF64_of_pos hb, hmax, h3]
  have h6 : (2 : ℚ) ^ (52 : ℤ) ≤ (roundHalfEven (b / 2 ^ (e - 52)) : ℚ) := by
    have : ((2 ^ 52 : ℤ) : ℚ) ≤ (roundHalfEven (b / 2 ^ (e - 52)) : ℚ) := by exact_mod_cast h5
    calc (2 : ℚ) ^ (52 : ℤ) = ((2 ^ 52 : ℤ) : ℚ) := by norm_num
      _ ≤ _ := this
  exact mul_le_mul_of_nonneg_right h6 hu.le

theorem roundF64_mono_of_pos {a b : ℚ} (ha : 0 < a) (hab : a ≤ b) :
    roundF64 a ≤ roundF64 b := by
  have hb : 0 < b := lt_of_lt_of_le ha hab
  have hlog : Int.log 2 a ≤ Int.log 2 b := Int.log_mono_right ha hab
  rcases (max_le_max_right (-1022) hlog).lt_or_eq with hlt | heq
  · have hnb : -1022 ≤ Int.log 2 b := by
      by_contra hc
      have h1 : max (Int.log 2 b) (-1022) = -1022 := max_eq_right (by omega)
      have h2 : -1022 ≤ max (Int.log 2 a) (-1022) := le_max_right _ _
      omega
    have hmb : max (Int.log 2 b) (-1022) = Int.log 2 b := max_eq_left hnb
    calc roundF64 a ≤ 2 ^ (max (Int.log 2 a) (-1022) + 1) := roundF64_le_two_zpow ha
      _ ≤ 2 ^ (Int.log 2 b) := zpow_le_zpow_right₀ (by norm_num) (by omega)
      _ ≤ roundF64 b := two_zpow_le_roundF64 hb hnb
  · rw [roundF64_of_pos ha, roundF64_of_pos hb, heq]
    have hu : (0 : ℚ) < 2 ^ (max (Int.log 2 b) (-1022) - 52) := by positivity
    have h1 : a / 2 ^ (max (Int.log 2 b) (-1022) - 52) ≤ b / 2 ^ (max (Int.log 2 b) (-1022) - 52) :=
      div_le_div_of_nonneg_right hab hu.le
    have h2 := roundHalfEven_mono h1
    have h3 : (roundHalfEven (a / 2 ^ (max (Int.log 2 b) (-1022) - 52)) : ℚ) ≤
        (roundHalfEven (b / 2 ^ (max (Int.log 2 b) (-1022) - 52)) : ℚ) := by exact_mod_cast h2
    exact mul_le_mul_of_nonneg_right h3 hu.le

/-- Rounding to float64 is monotone. -/
theorem roundF64_mono {a b : ℚ} (hab : a ≤ b) : roundF64 a ≤ roundF64 b := by
  rcases lt_trichotomy a 0 with ha | ha | ha
  · rcases lt_or_le b 0 with hb | hb
    · have h := roundF64_mono_of_pos (by linarith : 0 < -b) (by linarith : -b ≤ -a)
      rw [roundF64_neg, roundF64_neg] at h
      linarith
    · have h1 := roundF64_nonneg (by linarith : (0 : ℚ) ≤ -a)
      rw [roundF64_neg] at h1
      have h2 := roundF64_nonneg hb
      linarith
  · subst ha
    rw [roundF64_zero]
    exact roundF64_nonneg hab
  · exact roundF64_mono_of_pos ha hab

theorem int_log_two_eq {q : ℚ} {e : ℤ} (h1 : 2 ^ e ≤ q) (h2 : q < 2 ^ (e + 1)) :
    Int.log 2 q = e := by
  have hq : 0 < q := lt_of_lt_of_le (by positivity) h1
  have a1 : e ≤ Int.log 2 q := by
    rw [← Int.zpow_le_iff_le_log (by norm_num : 1 < 2) hq]
    simpa using h1
  have a2 : Int.log 2 q < e + 1 := by
    rw [← Int.lt_zpow_iff_log_lt (by norm_num : 1 < 2) hq]
    simpa using h2
  omega

/-- A positive normal number with a 53-bit significand is a float64. -/
theorem roundF64_eq_self {q : ℚ} (e N : ℤ) (h1 : 2 ^ e ≤ q) (h2 : q < 2 ^ (e + 1))
    (he : -1022 ≤ e) (hN : q = (N : ℚ) * 2 ^ (e - 52)) : roundF64 q = q := by
  have hq : 0 < q := lt_of_lt_of_le (by positivity) h1
  apply roundF64_eq_self_of_int q N
  rw [abs_of_pos hq, int_log_two_eq h1 h2, max_eq_left he]
  have hu : (2 : ℚ) ^ (e - 52) ≠ 0 := by positivity
  rw [div_eq_iff hu]
  exact hN

/-! ## Reading delay -/

/-- C11: for every integer `contentLength`, however large, and every random
draw of the per-word time and of the variance, the duration slept by
`ReadingDelay` never exceeds 10000 ms. -/
theorem C11_ReadingDelay_capped (t : TimingController) (contentLength : ℤ) :
    (t.ReadingDelay contentLength).1 ≤ 10000 * Millisecond := by
  unfold TimingController.ReadingDelay
  simp only [Second, Millisecond]
  split_ifs with h
  · norm_num
  · omega

theorem wrapInt64_of_range {x : ℤ} (h1 : -(2 ^ 63) ≤ x) (h2 : x < 2 ^ 63) : wrapInt64 x = x := by
  unfold wrapInt64
  norm_num at h1 h2 ⊢
  omega

theorem Rand.Float64_range (r : Rand) : 0 ≤ r.Float64.1 ∧ r.Float64.1 < 1 := by
  unfold Rand.Float64
  simp only
  constructor
  · positivity
  · rw [div_lt_one (by positivity)]
    have : r.src r.pos % 2 ^ 63 < 2 ^ 63 := Nat.mod_lt _ (by positivity)
    exact_mod_cast this

theorem roundF64_three_quarters : roundF64 (3 / 4) = 3 / 4 :=
  roundF64_eq_self (-1) (3 * 2 ^ 51) (by norm_num) (by norm_num) (by norm_num) (by norm_num)

theorem roundF64_three_halves : roundF64 (3 / 2) = 3 / 2 :=
  roundF64_eq_self 0 (3 * 2 ^ 51) (by norm_num) (by norm_num) (by norm_num) (by norm_num)

theorem roundF64_two_pow_62 : roundF64 (2 ^ 62) = 2 ^ 62 :=
  roundF64_eq_self 62 (2 ^ 52) (by norm_num) (by norm_num) (by norm_num) (by norm_num)

theorem roundF64_three_two_pow_61 : roundF64 (3 * 2 ^ 61) = 3 * 2 ^ 61 :=
  roundF64_eq_self 62 (3 * 2 ^ 51) (by norm_num) (by norm_num) (by norm_num) (by norm_num)

theorem roundF64_c0_7 : roundF64 f64c0_7 = f64c0_7 :=
  roundF64_eq_self (-1) 6305039478318694 (by norm_num [f64c0_7]) (by norm_num [f64c0_7])
    (by norm_num) (by norm_num [f64c0_7])

/-- The variance factor `0.7 + Float64()*0.6` lies between 0 and 3/2. -/
theorem variance_range (u : ℚ) (h0 : 0 ≤ u) (h1 : u < 1) :
    0 ≤ f64add f64c0_7 (f64mul u f64c0_6) ∧ f64add f64c0_7 (f64mul u f64c0_6) ≤ 3 / 2 := by
  have hm0 : 0 ≤ f64mul u f64c0_6 :=
    roundF64_nonneg (mul_nonneg h0 (by norm_num [f64c0_6]))
  have hm1 : f64mul u f64c0_6 ≤ 3 / 4 := by
    have : u * f64c0_6 ≤ 3 / 4 := by
      have hc : f64c0_6 ≤ 3 / 4 := by norm_num [f64c0_6]
      have hc0 : 0 ≤ f64c0_6 := by norm_num [f64c0_6]
      nlinarith
    have := roundF64_mono this
    rwa [roundF64_three_quarters] at this
  have hc7 : f64c0_7 ≤ 3 / 4 := by norm_num [f64c0_7]
  have hc70 : 0 ≤ f64c0_7 := by norm_num [f64c0_7]
  constructor
  · exact roundF64_nonneg (by linarith)
  · have := roundF64_mono (by linarith : f64c0_7 + f64mul u f64c0_6 ≤ 3 / 2)
    rwa [roundF64_three_halves] at this

/-- Below `2^62` nanoseconds the scaled and converted reading time is
non-negative, inside `int64` and monotone in the reading time. -/
theorem scaled_reading_time_mono (v : ℚ) (hv0 : 0 ≤ v) (hv : v ≤ 3 / 2) (x y : ℤ)
    (hx : 0 ≤ x) (hxy : x ≤ y) (hy : y ≤ 2 ^ 62) :
    0 ≤ f64toInt64 (f64mul (f64ofInt x) v) ∧
      f64toInt64 (f64mul (f64ofInt x) v) ≤ f64toInt64 (f64mul (f64ofInt y) v) := by
  have key : ∀ z : ℤ, 0 ≤ z → z ≤ 2 ^ 62 →
      0 ≤ f64mul (f64ofInt z) v ∧ f64mul (f64ofInt z) v ≤ 3 * 2 ^ 61 ∧
        f64toInt64 (f64mul (f64ofInt z) v) = ⌊f64mul (f64ofInt z) v⌋ := by
    intro z hz0 hz
    have f0 : 0 ≤ f64ofInt z := roundF64_nonneg (by exact_mod_cast hz0)
    have f1 : f64ofInt z ≤ 2 ^ 62 := by
      have : (z : ℚ) ≤ 2 ^ 62 := by exact_mod_cast hz
      have := roundF64_mono this
      rwa [roundF64_two_pow_62] at this
    have g0 : 0 ≤ f64mul (f64ofInt z) v := roundF64_nonneg (mul_nonneg f0 hv0)
    have g1 : f64mul (f64ofInt z) v ≤ 3 * 2 ^ 61 := by
      have : f64ofInt z * v ≤ 3 * 2 ^ 61 := by nlinarith
      have := roundF64_mono this
      rwa [roundF64_three_two_pow_61] at this
    refine ⟨g0, g1, ?_⟩
    have hfl0 : 0 ≤ ⌊f64mul (f64ofInt z) v⌋ := Int.floor_nonneg.mpr g0
    have hfl1 : ⌊f64mul (f64ofInt z) v⌋ ≤ 3 * 2 ^ 61 := by
      have : ⌊f64mul (f64ofInt z) v⌋ ≤ ⌊((3 * 2 ^ 61 : ℤ) : ℚ)⌋ :=
        Int.floor_mono (by push_cast; linarith)
      rwa [Int.floor_intCast] at this
    have ht : f64toInt (f64mul (f64ofInt z) v) = ⌊f64mul (f64ofInt z) v⌋ := by
      unfold f64toInt
      rw [if_pos g0]
    unfold f64toInt64
    rw [ht, if_pos ⟨by omega, by omega⟩]
  obtain ⟨a0, -, a2⟩ := key x hx (by omega)
  obtain ⟨-, -, b2⟩ := key y (by omega) hy
  have hxq : (x : ℚ) ≤ (y : ℚ) := by exact_mod_cast hxy
  have hm : f64mul (f64ofInt x) v ≤ f64mul (f64ofInt y) v :=
    roundF64_mono (mul_le_mul_of_nonneg_right (roundF64_mono hxq) hv0)
  rw [a2, b2]
  exact ⟨Int.floor_nonneg.mpr a0, Int.floor_mono hm⟩

/-- The reading time before scaling, for a content length without overflow. -/
theorem readingTime_of_range (c base : ℤ) (hc0 : 0 ≤ c) (hc : c ≤ 70000000000)
    (hb0 : 240 ≤ base) (hb : base ≤ 299) :
    wrapInt64 (wrapInt64 (goDiv c 5 * base) * Millisecond) = c / 5 * base * 1000000 ∧
      0 ≤ c / 5 * base * 1000000 ∧ c / 5 * base * 1000000 ≤ 2 ^ 62 := by
  have hw : 0 ≤ c / 5 ∧ c / 5 ≤ 14000000000 := by omega
  have hp0 : 0 ≤ c / 5 * base := by nlinarith
  have hp1 : c / 5 * base ≤ 4186000000000 := by nlinarith
  have hg : goDiv c 5 = c / 5 := by
    unfold goDiv
    rw [if_pos hc0]
  have h1 : wrapInt64 (c / 5 * base) = c / 5 * base :=
    wrapInt64_of_range (by norm_num; omega) (by norm_num; omega)
  have h2 : wrapInt64 (c / 5 * base * 1000000) = c / 5 * base * 1000000 :=
    wrapInt64_of_range (by norm_num; omega) (by norm_num; omega)
  rw [hg, h1, Millisecond, h2]
  refine ⟨rfl, by omega, ?_⟩
  norm_num
  omega

theorem Intn_60_range (r : Rand) : 0 ≤ (r.Intn 60).1 ∧ (r.Intn 60).1 < 60 := by
  simp only [Rand.Intn]
  omega

/-- Without overflow the slept duration is non-negative and monotone in the
content length. -/
theorem ReadingDelay_mono_of_range (t : TimingController) (a b : ℤ) (ha : 0 ≤ a) (hab : a ≤ b)
    (hb : b ≤ 70000000000) :
    0 ≤ (t.ReadingDelay a).1 ∧ (t.ReadingDelay a).1 ≤ (t.ReadingDelay b).1 := by
  obtain ⟨i0, i1⟩ := Intn_60_range t.rand
  obtain ⟨u0, u1⟩ := Rand.Float64_range (t.rand.Intn 60).2
  obtain ⟨v0, v1⟩ := variance_range _ u0 u1
  obtain ⟨ea, a0, a1⟩ := readingTime_of_range a (240 + (t.rand.Intn 60).1) ha (by omega)
    (by omega) (by omega)
  obtain ⟨eb, -, b1⟩ := readingTime_of_range b (240 + (t.rand.Intn 60).1) (by omega) hb
    (by omega) (by omega)
  have hle : a / 5 * (240 + (t.rand.Intn 60).1) * 1000000 ≤
      b / 5 * (240 + (t.rand.Intn 60).1) * 1000000 := by
    have : a / 5 ≤ b / 5 := Int.ediv_le_ediv (by norm_num) hab
    have hbase : 0 ≤ 240 + (t.rand.Intn 60).1 := by omega
    nlinarith
  obtain ⟨s0, s1⟩ := scaled_reading_time_mono _ v0 v1 _ _ a0 hle b1
  unfold TimingController.ReadingDelay
  simp only [ea, eb, Second]
  constructor
  · split_ifs <;> omega
  · split_ifs <;> omega

/-- A reading time that has wrapped to a negative number stays negative
through the scaling by the variance and the conversion back. -/
theorem scaled_reading_time_neg (v : ℚ) (hv : 1 / 2 ≤ v) (x : ℤ) (hx : x ≤ -2) :
    f64toInt64 (f64mul (f64ofInt x) v) ≤ -1 := by
  have f1 : f64ofInt x ≤ -2 := by
    have : (x : ℚ) ≤ ((-2 : ℤ) : ℚ) := by exact_mod_cast hx
    have := roundF64_mono this
    rw [roundF64_intCast (-2) (by norm_num)] at this
    simpa [f64ofInt] using this
  have g1 : f64mul (f64ofInt x) v ≤ -1 := by
    have : f64ofInt x * v ≤ ((-1 : ℤ) : ℚ) := by
      push_cast
      nlinarith
    have := roundF64_mono this
    rw [roundF64_intCast (-1) (by norm_num)] at this
    simpa [f64mul] using this
  have ht : f64toInt (f64mul (f64ofInt x) v) ≤ -1 := by
    unfold f64toInt
    rw [if_neg (by linarith)]
    rw [Int.ceil_le]
    simpa using g1
  unfold f64toInt64
  split_ifs
  · exact ht
  · norm_num

theorem roundF64_two_c0_7 : roundF64 (2 * f64c0_7) = 2 * f64c0_7 :=
  roundF64_eq_self 0 6305039478318694 (by norm_num [f64c0_7]) (by norm_num [f64c0_7])
    (by norm_num) (by norm_num [f64c0_7])

/-- C12 (as stated) fails: with the per-word time 240 ms and the variance 0.7
drawn in both calls, `ReadingDelay` passes a negative duration to `time.Sleep`
for 200000000000 characters, where the reading time overflows `int64`, and a
positive one for 100 characters. -/
theorem C12_ReadingDelay_mono_counterexample :
    (0 : ℤ) ≤ 100 ∧ (100 : ℤ) ≤ 200000000000 ∧
      (TimingController.ReadingDelay
        ⟨⟨true, true, true, true, 0, 0, false, 9, 17⟩, ⟨fun _ => 0, 0⟩⟩ 200000000000).1 < 0 ∧
      0 < (TimingController.ReadingDelay
        ⟨⟨true, true, true, true, 0, 0, false, 9, 17⟩, ⟨fun _ => 0, 0⟩⟩ 100).1 ∧
      (TimingController.ReadingDelay
        ⟨⟨true, true, true, true, 0, 0, false, 9, 17⟩, ⟨fun _ => 0, 0⟩⟩ 200000000000).1 <
      (TimingController.ReadingDelay
        ⟨⟨true, true, true, true, 0, 0, false, 9, 17⟩, ⟨fun _ => 0, 0⟩⟩ 100).1 := by
  have hv : f64add f64c0_7 (f64mul ((Rand.Intn ⟨fun _ => 0, 0⟩ 60).2.Float64).1 f64c0_6) =
      f64c0_7 := by
    simp [Rand.Float64, Rand.Intn, Rand.next, f64mul, f64add, roundF64_zero, roundF64_c0_7]
  have hb : (TimingController.ReadingDelay
      ⟨⟨true, true, true, true, 0, 0, false, 9, 17⟩, ⟨fun _ => 0, 0⟩⟩ 200000000000).1 < 0 := by
    have hrt : wrapInt64 (wrapInt64 (goDiv 200000000000 5 *
        (240 + (Rand.Intn ⟨fun _ => 0, 0⟩ 60).1)) * Millisecond) = -8846744073709551616 := by
      norm_num [wrapInt64, goDiv, Rand.Intn, Millisecond]
    have hneg := scaled_reading_time_neg f64c0_7 (by norm_num [f64c0_7])
      (-8846744073709551616) (by norm_num)
    unfold TimingController.ReadingDelay
    simp only [hrt, hv, Second]
    split_ifs <;> omega
  have ha : 0 < (TimingController.ReadingDelay
      ⟨⟨true, true, true, true, 0, 0, false, 9, 17⟩, ⟨fun _ => 0, 0⟩⟩ 100).1 := by
    have hrt : wrapInt64 (wrapInt64 (goDiv 100 5 *
        (240 + (Rand.Intn ⟨fun _ => 0, 0⟩ 60).1)) * Millisecond) = 4800000000 := by
      norm_num [wrapInt64, goDiv, Rand.Intn, Millisecond]
    have hm := (scaled_reading_time_mono f64c0_7 (by norm_num [f64c0_7])
      (by norm_num [f64c0_7]) 2 4800000000 (by norm_num) (by norm_num) (by norm_num)).2
    have h2 : f64toInt64 (f64mul (f64ofInt 2) f64c0_7) = 1 := by
      have e1 : f64ofInt 2 = 2 := by
        have := roundF64_intCast 2 (by norm_num)
        simpa [f64ofInt] using this
      have e2 : ⌊2 * f64c0_7⌋ = 1 := by
        rw [Int.floor_eq_iff]
        constructor <;> norm_num [f64c0_7]
      have e3 : f64toInt (2 * f64c0_7) = 1 := by
        unfold f64toInt
        rw [if_pos (by norm_num [f64c0_7]), e2]
      unfold f64toInt64
      rw [e1, f64mul, roundF64_two_c0_7, e3]
      norm_num
    rw [h2] at hm
    unfold TimingController.ReadingDelay
    simp only [hrt, hv, Second]
    split_ifs <;> omega
  exact ⟨by norm_num, by norm_num, hb, ha, lt_trans hb ha⟩

/-- C12 (amended): `ReadingDelay` is monotonically non-decreasing in
`contentLength` as long as nothing overflows: for any fixed draws of the
per-word time and of the variance and any content lengths
`0 <= a <= b <= 70000000000`, the duration slept for `a` is at most the
duration slept for `b`. -/
theorem C12_ReadingDelay_mono (t : TimingController) (a b : ℤ) (ha : 0 ≤ a) (hab : a ≤ b)
    (hb : b ≤ 70000000000) :
    (t.ReadingDelay a).1 ≤ (t.ReadingDelay b).1 :=
  (ReadingDelay_mono_of_range t a b ha hab hb).2

/-- Witness of C12 (amended): 100 and 250 characters with the same draws. -/
theorem C12_ReadingDelay_mono_witness :
    (0 : ℤ) ≤ 100 ∧ (100 : ℤ) ≤ 250 ∧ (250 : ℤ) ≤ 70000000000 ∧
      (TimingController.ReadingDelay
        ⟨⟨true, true, true, true, 0, 0, false, 9, 17⟩, ⟨fun n => 37 * n + 11, 0⟩⟩ 100).1 ≤
      (TimingController.ReadingDelay
        ⟨⟨true, true, true, true, 0, 0, false, 9, 17⟩, ⟨fun n => 37 * n + 11, 0⟩⟩ 250).1 :=
  ⟨by norm_num, by norm_num, by norm_num,
    C12_ReadingDelay_mono _ 100 250 (by norm_num) (by norm_num) (by norm_num)⟩

/-! ## Rate governor: reset check, records and cooldown -/

/-- C13 fails on the code: `lastReset` on 15 January and `now` on 15 February
fall on different calendar days, but the reset check compares the day of the
month only, so it leaves both daily counters and `lastReset` as they were. -/
theorem C13_resetIfNeeded_same_day_of_month :
    (⟨2024, 2, 15, 9, 2678400000000000⟩ : Time).date ≠ (⟨2024, 1, 15, 9, 0⟩ : Time).date ∧
      (RateLimiter.resetIfNeeded
        ⟨⟨20, 15, 5, 0⟩, 20, 7, 3, ⟨2024, 1, 15, 9, 0⟩, ⟨2024, 1, 15, 9, 0⟩, ⟨2024, 1, 15, 9, 0⟩⟩
        ⟨2024, 2, 15, 9, 2678400000000000⟩).dailyConnections = 20 ∧
      (RateLimiter.resetIfNeeded
        ⟨⟨20, 15, 5, 0⟩, 20, 7, 3, ⟨2024, 1, 15, 9, 0⟩, ⟨2024, 1, 15, 9, 0⟩, ⟨2024, 1, 15, 9, 0⟩⟩
        ⟨2024, 2, 15, 9, 2678400000000000⟩).dailyMessages = 7 ∧
      (RateLimiter.resetIfNeeded
        ⟨⟨20, 15, 5, 0⟩, 20, 7, 3, ⟨2024, 1, 15, 9, 0⟩, ⟨2024, 1, 15, 9, 0⟩, ⟨2024, 1, 15, 9, 0⟩⟩
        ⟨2024, 2, 15, 9, 2678400000000000⟩).lastReset = ⟨2024, 1, 15, 9, 0⟩ ∧
      (RateLimiter.CanSendConnection
        ⟨⟨20, 15, 5, 0⟩, 20, 7, 3, ⟨2024, 1, 15, 9, 0⟩, ⟨2024, 1, 15, 9, 0⟩, ⟨2024, 1, 15, 9, 0⟩⟩
        ⟨2024, 2, 15, 9, 2678400000000000⟩).1 = false := by
  refine ⟨by decide, ?_, ?_, ?_, ?_⟩ <;>
    simp [RateLimiter.CanSendConnection, RateLimiter.resetIfNeeded, RateLimiter.resetDaily,
      RateLimiter.resetHourly, Time.Sub, Hour]

/-- C14: each of `RecordConnection`, `RecordMessage` and `RecordSearch`, when
its reset check crosses no reset boundary, increases its own counter by
exactly 1, sets `lastAction` to the clock it reads, and leaves everything
else (the other two counters, both reset timestamps, the configuration)
unchanged. -/
theorem C14_record_frame (r : RateLimiter) (now now2 : Time)
    (hd : now.Day = r.lastReset.Day) (hh : now.Sub r.lastHourReset < Hour) :
    r.RecordConnection now now2 =
        { r with dailyConnections := r.dailyConnections + 1, lastAction := now2 } ∧
      r.RecordMessage now now2 =
        { r with dailyMessages := r.dailyMessages + 1, lastAction := now2 } ∧
      r.RecordSearch now now2 =
        { r with hourlySearches := r.hourlySearches + 1, lastAction := now2 } := by
  have h := resetIfNeeded_of_no_rollover r now hd hh
  refine ⟨?_, ?_, ?_⟩
  · unfold RateLimiter.RecordConnection
    rw [h]
  · unfold RateLimiter.RecordMessage
    rw [h]
  · unfold RateLimiter.RecordSearch
    rw [h]

/-- Witness of C14: a search recorded ten minutes after the last resets. -/
theorem C14_record_frame_witness :
    (⟨2024, 3, 5, 9, 600000000000⟩ : Time).Day = (⟨2024, 3, 5, 9, 0⟩ : Time).Day ∧
      (⟨2024, 3, 5, 9, 600000000000⟩ : Time).Sub ⟨2024, 3, 5, 9, 0⟩ < Hour ∧
      RateLimiter.RecordSearch
          ⟨⟨20, 15, 5, 0⟩, 4, 2, 1, ⟨2024, 3, 5, 9, 0⟩, ⟨2024, 3, 5, 9, 0⟩, ⟨2024, 3, 5, 9, 0⟩⟩
          ⟨2024, 3, 5, 9, 600000000000⟩ ⟨2024, 3, 5, 9, 600000000001⟩ =
        ⟨⟨20, 15, 5, 0⟩, 4, 2, 2, ⟨2024, 3, 5, 9, 0⟩, ⟨2024, 3, 5, 9, 0⟩,
          ⟨2024, 3, 5, 9, 600000000001⟩⟩ :=
  ⟨by decide, by decide,
    (C14_record_frame
      ⟨⟨20, 15, 5, 0⟩, 4, 2, 1, ⟨2024, 3, 5, 9, 0⟩, ⟨2024, 3, 5, 9, 0⟩, ⟨2024, 3, 5, 9, 0⟩⟩
      ⟨2024, 3, 5, 9, 600000000000⟩ ⟨2024, 3, 5, 9, 600000000001⟩ (by decide) (by decide)).2.2⟩

/-- C15: for every `RateLimiter` state and every `now` (in particular every
`now >= lastAction`), `WaitForCooldown` sleeps exactly
`CooldownPeriod - (now - lastAction)` when that difference is positive and
does not sleep at all otherwise, and it leaves the limiter, with every counter
and timestamp, unchanged. -/
theorem C15_WaitForCooldown (r : RateLimiter) (now : Time) :
    (0 < r.config.CooldownPeriod - now.Sub r.lastAction →
        (r.WaitForCooldown now).1 =
          [Action.sleep (r.config.CooldownPeriod - now.Sub r.lastAction)]) ∧
      (¬ 0 < r.config.CooldownPeriod - now.Sub r.lastAction → (r.WaitForCooldown now).1 = []) ∧
      (r.WaitForCooldown now).2 = r := by
  unfold RateLimiter.WaitForCooldown
  simp only
  refine ⟨?_, ?_, ?_⟩
  · intro h
    rw [if_pos (by omega)]
  · intro h
    rw [if_neg (by omega)]
  · split_ifs <;> rfl

/-- Witness of C15: a 30 minute cooldown, queried 10 minutes after the last
action (sleeps the remaining 20 minutes) and 40 minutes after it (no sleep). -/
theorem C15_WaitForCooldown_witness :
    (RateLimiter.WaitForCooldown
        ⟨⟨20, 15, 5, 1800000000000⟩, 4, 2, 1, ⟨2024, 3, 5, 9, 0⟩, ⟨2024, 3, 5, 9, 0⟩,
          ⟨2024, 3, 5, 9, 0⟩⟩ ⟨2024, 3, 5, 9, 600000000000⟩).1 =
        [Action.sleep (1800000000000 - (⟨2024, 3, 5, 9, 600000000000⟩ : Time).Sub
          ⟨2024, 3, 5, 9, 0⟩)] ∧
      (RateLimiter.WaitForCooldown
        ⟨⟨20, 15, 5, 1800000000000⟩, 4, 2, 1, ⟨2024, 3, 5, 9, 0⟩, ⟨2024, 3, 5, 9, 0⟩,
          ⟨2024, 3, 5, 9, 0⟩⟩ ⟨2024, 3, 5, 9, 2400000000000⟩).1 = [] :=
  ⟨(C15_WaitForCooldown
      ⟨⟨20, 15, 5, 1800000000000⟩, 4, 2, 1, ⟨2024, 3, 5, 9, 0⟩, ⟨2024, 3, 5, 9, 0⟩,
        ⟨2024, 3, 5, 9, 0⟩⟩ ⟨2024, 3, 5, 9, 600000000000⟩).1 (by decide),
    (C15_WaitForCooldown
      ⟨⟨20, 15, 5, 1800000000000⟩, 4, 2, 1, ⟨2024, 3, 5, 9, 0⟩, ⟨2024, 3, 5, 9, 0⟩,
        ⟨2024, 3, 5, 9, 0⟩⟩ ⟨2024, 3, 5, 9, 2400000000000⟩).2.1 (by decide)⟩

/-! ## Waiting for business hours -/

/-- Every sleep of the waiting loop lasts `hoursToWait` hours, computed from
an hour read from the clock. -/
theorem waitLoop_sleeps (t : TimingController) (clock : ℕ → Time) (fuel k : ℕ)
    (trace : List Action) (h : waitLoop t clock fuel k = some trace) :
    ∀ a ∈ trace, ∃ j, a = Action.sleep (hoursToWait t.config (clock j).Hour * Hour) := by
  induction fuel generalizing k trace with
  | zero => simp [waitLoop] at h
  | succ fuel ih =>
    rw [waitLoop] at h
    split_ifs at h with hb
    · cases h
      simp
    · cases hrest : waitLoop t clock fuel (k + 2) with
      | none => simp [hrest] at h
      | some rest =>
        simp only [hrest, Option.map_some', Option.some.injEq] at h
        subst h
        intro a ha
        rcases List.mem_cons.mp ha with h1 | h1
        · exact ⟨k + 1, h1⟩
        · exact ih (k + 2) rest hrest a h1

theorem waitLoop_first_sleep (t : TimingController) (clock : ℕ → Time) (fuel k : ℕ)
    (hout : t.IsBusinessHours (clock k) = false) :
    waitLoop t clock (fuel + 1) k =
      (waitLoop t clock fuel (k + 2)).map fun rest =>
        Action.sleep (hoursToWait t.config (clock (k + 1)).Hour * Hour) :: rest := by
  rw [waitLoop, hout]
  rfl

theorem waitLoop_done (t : TimingController) (clock : ℕ → Time) (fuel k : ℕ)
    (hin : t.IsBusinessHours (clock k) = true) : waitLoop t clock (fuel + 1) k = some [] := by
  rw [waitLoop, hin]
  rfl

theorem IsBusinessHours_eq (t : TimingController) (now : Time)
    (hon : t.config.BusinessHoursOnly = true) :
    t.IsBusinessHours now = true ↔
      t.config.BusinessHoursStart ≤ now.Hour ∧ now.Hour < t.config.BusinessHoursEnd := by
  simp [TimingController.IsBusinessHours, hon]

/-- The check and the body of the loop read the clock separately: with a
9-to-17 window, the check reading hour 8 and the body hour 9, the sleep lasts
24 hours. -/
theorem WaitForBusinessHours_hour_change :
    TimingController.WaitForBusinessHours
      ⟨⟨true, true, true, true, 0, 0, true, 9, 17⟩, ⟨fun _ => 0, 0⟩⟩
      (fun k => if k = 0 then ⟨2024, 3, 5, 8, 0⟩ else ⟨2024, 3, 5, 9, 0⟩) 2 =
        some [Action.sleep (24 * Hour)] := by
  decide

/-- C16: with the business-hours restriction enabled, a window
`0 <= BusinessHoursStart < BusinessHoursEnd <= 23`, the check of the loop
reading an hour outside `[start, end)` and the loop body reading the hour `h`
(0..23), also outside it: the wait `w` the body computes (`start - h` if
`h < start`, else `24 - h + start`) satisfies `1 <= w <= 23` and
`(h + w) mod 24 = start`; `WaitForBusinessHours` sleeps exactly `w` hours first
(every trace it returns starts with that sleep), and when the clock read after
the sleep shows the hour `(h + w) mod 24` it returns after this one sleep, for
every number of iterations allowed beyond the second check. With the
restriction disabled it returns without sleeping. -/
theorem C16_WaitForBusinessHours (t : TimingController) (clock : ℕ → Time) (fuel : ℕ) :
    (t.config.BusinessHoursOnly = true →
      0 ≤ t.config.BusinessHoursStart →
      t.config.BusinessHoursStart < t.config.BusinessHoursEnd →
      t.config.BusinessHoursEnd ≤ 23 →
      ¬ (t.config.BusinessHoursStart ≤ (clock 0).Hour ∧
        (clock 0).Hour < t.config.BusinessHoursEnd) →
      0 ≤ (clock 1).Hour → (clock 1).Hour ≤ 23 →
      ¬ (t.config.BusinessHoursStart ≤ (clock 1).Hour ∧
        (clock 1).Hour < t.config.BusinessHoursEnd) →
      ∀ w : ℤ,
        w = (if (clock 1).Hour < t.config.BusinessHoursStart then
            t.config.BusinessHoursStart - (clock 1).Hour
          else 24 - (clock 1).Hour + t.config.BusinessHoursStart) →
        1 ≤ w ∧ w ≤ 23 ∧ ((clock 1).Hour + w) % 24 = t.config.BusinessHoursStart ∧
          (∀ trace, t.WaitForBusinessHours clock fuel = some trace →
            trace.head? = some (Action.sleep (w * Hour))) ∧
          ((clock 2).Hour = ((clock 1).Hour + w) % 24 →
            t.WaitForBusinessHours clock (fuel + 2) = some [Action.sleep (w * Hour)])) ∧
      (t.config.BusinessHoursOnly = false → t.WaitForBusinessHours clock fuel = some []) := by
  refine ⟨?_, ?_⟩
  · intro hon h0 hse he hc0 hh0 hh1 hc1 w hw
    have hwait : hoursToWait t.config (clock 1).Hour = w := by
      rw [hw]
      rfl
    have hout : t.IsBusinessHours (clock 0) = false := by
      rw [Bool.eq_false_iff, Ne, IsBusinessHours_eq t _ hon]
      exact hc0
    have hmod : ((clock 1).Hour + w) % 24 = t.config.BusinessHoursStart := by
      rw [hw]
      split_ifs <;> omega
    refine ⟨by rw [hw]; split_ifs <;> omega, by rw [hw]; split_ifs <;> omega, hmod, ?_, ?_⟩
    · intro trace htr
      unfold TimingController.WaitForBusinessHours at htr
      simp only [hon, Bool.not_true, Bool.false_eq_true, if_false] at htr
      cases fuel with
      | zero => simp [waitLoop] at htr
      | succ fuel =>
        rw [waitLoop_first_sleep t clock fuel 0 hout, hwait] at htr
        cases hrest : waitLoop t clock fuel (0 + 2) with
        | none => simp [hrest] at htr
        | some rest =>
          simp only [hrest, Option.map_some', Option.some.injEq] at htr
          rw [← htr]
          rfl
    · intro h2
      have hin : t.IsBusinessHours (clock (0 + 2)) = true := by
        rw [IsBusinessHours_eq t _ hon]
        have : (clock (0 + 2)).Hour = t.config.BusinessHoursStart := by
          rw [← hmod]
          exact h2
        rw [this]
        exact ⟨le_refl _, hse⟩
      unfold TimingController.WaitForBusinessHours
      simp only [hon, Bool.not_true, Bool.false_eq_true, if_false]
      rw [waitLoop_first_sleep t clock (fuel + 1) 0 hout, waitLoop_done t clock fuel (0 + 2) hin,
        hwait]
      rfl
  · intro hoff
    simp [TimingController.WaitForBusinessHours, hoff]

/-- Witness of C16: a 9-to-17 window, the check and the body reading hour 20
(13 hours to wait) and the clock showing hour 9 after the sleep; and the
restriction disabled. -/
theorem C16_WaitForBusinessHours_witness :
    ((1 : ℤ) ≤ 13 ∧ (13 : ℤ) ≤ 23 ∧ ((20 : ℤ) + 13) % 24 = 9 ∧
        TimingController.WaitForBusinessHours
          ⟨⟨true, true, true, true, 0, 0, true, 9, 17⟩, ⟨fun _ => 0, 0⟩⟩
          (fun k => if k < 2 then ⟨2024, 3, 5, 20, 0⟩ else ⟨2024, 3, 6, 9, 0⟩) (0 + 2) =
            some [Action.sleep (13 * Hour)]) ∧
      TimingController.WaitForBusinessHours
        ⟨⟨true, true, true, true, 0, 0, false, 9, 17⟩, ⟨fun _ => 0, 0⟩⟩
        (fun _ => ⟨2024, 3, 5, 20, 0⟩) 0 = some [] :=
  have h := (C16_WaitForBusinessHours
    ⟨⟨true, true, true, true, 0, 0, true, 9, 17⟩, ⟨fun _ => 0, 0⟩⟩
    (fun k => if k < 2 then ⟨2024, 3, 5, 20, 0⟩ else ⟨2024, 3, 6, 9, 0⟩) 0).1 rfl (by decide)
    (by decide) (by decide) (by decide) (by decide) (by decide) (by decide) 13 (by decide)
  ⟨⟨h.1, h.2.1, by decide, h.2.2.2.2 (by decide)⟩,
    (C16_WaitForBusinessHours
      ⟨⟨true, true, true, true, 0, 0, false, 9, 17⟩, ⟨fun _ => 0, 0⟩⟩
      (fun _ => ⟨2024, 3, 5, 20, 0⟩) 0).2 rfl⟩

/-! ## Pointer controller: errors of the move primitive -/

/-- A failing path step ends the walk: its error is returned and the failing
move is the last primitive issued. -/
theorem movePath_stops_at_failure (moveErr : ℕ → Option String) (ps : List Point) (k : ℕ)
    (m : Rand) (j : ℕ) (err : String) (hj : j < ps.length)
    (hok : ∀ i < j, moveErr (k + i) = none) (hfail : moveErr (k + j) = some err) :
    (movePath moveErr ps k m).1 = some err ∧
      (movePath moveErr ps k m).2.1.length = 2 * j + 1 ∧
      (movePath moveErr ps k m).2.1.getLast? =
        (ps.get? j).map fun p => MouseEvent.move p.X p.Y := by
  induction ps generalizing k m j with
  | nil => simp at hj
  | cons p ps ih =>
    cases j with
    | zero =>
      have h0 : moveErr k = some err := by simpa using hfail
      simp [movePath, h0]
    | succ j =>
      have h0 : moveErr k = none := by simpa using hok 0 (by omega)
      have hj2 : j < ps.length := by simpa using hj
      obtain ⟨a, b, c⟩ := ih (k + 1) (m.Intn 10).2 j hj2
        (fun i hi => by
          have := hok (i + 1) (by omega)
          rwa [show k + (i + 1) = k + 1 + i by ring] at this)
        (by rwa [show k + (j + 1) = k + 1 + j by ring] at hfail)
      simp only [movePath, h0]
      refine ⟨a, ?_, ?_⟩
      · simp only [List.length_cons, b]
        ring
      · have hget : ps.get? j = some (ps.get ⟨j, hj2⟩) := List.get?_eq_get hj2
        rw [List.getLast?_cons, List.getLast?_cons, c, hget]
        simp [List.getElem?_eq_getElem hj2]

/-- When every path step succeeds and the overshoot is drawn, `MoveTo`
returns no error and issues the overshoot move, the pause and the correcting
move, whatever the results of these two moves are. -/
theorem MoveTo_ignores_overshoot_errors (m : Rand) (moveErr : ℕ → Option String)
    (targetX targetY : ℚ)
    (hwalk : (movePath moveErr
      (generateBezierPath ((m.Intn 100).2.Intn 100).2 ((m.Intn 100).1 : ℚ)
        (((m.Intn 100).2.Intn 100).1 : ℚ) targetX targetY).1 0
      (generateBezierPath ((m.Intn 100).2.Intn 100).2 ((m.Intn 100).1 : ℚ)
        (((m.Intn 100).2.Intn 100).1 : ℚ) targetX targetY).2).1 = none)
    (hdraw : ((movePath moveErr
      (generateBezierPath ((m.Intn 100).2.Intn 100).2 ((m.Intn 100).1 : ℚ)
        (((m.Intn 100).2.Intn 100).1 : ℚ) targetX targetY).1 0
      (generateBezierPath ((m.Intn 100).2.Intn 100).2 ((m.Intn 100).1 : ℚ)
        (((m.Intn 100).2.Intn 100).1 : ℚ) targetX targetY).2).2.2.Float64).1 < overshootChance) :
    (MoveTo m moveErr targetX targetY).1 = none ∧
      ∃ walk ox oy d, (MoveTo m moveErr targetX targetY).2.1 =
        walk ++ [MouseEvent.move ox oy, MouseEvent.sleep d, MouseEvent.move targetX targetY] := by
  unfold MoveTo
  simp only [hwalk, if_pos hdraw]
  exact ⟨trivial, _, _, _, _, rfl⟩

theorem Rand.Intn_fst_of_zero (r : Rand) (h : r.src = fun _ => 0) (n : ℤ) : (r.Intn n).1 = 0 := by
  simp [Rand.Intn, h]

theorem Rand.Float64_fst_of_zero (r : Rand) (h : r.src = fun _ => 0) : r.Float64.1 = 0 := by
  simp [Rand.Float64, h]

theorem Rand.Intn_snd_src (r : Rand) (n : ℤ) : (r.Intn n).2.src = r.src := rfl

theorem Rand.Float64_snd_src (r : Rand) : r.Float64.2.src = r.src := rfl

theorem generateBezierPath_src (m : Rand) (x1 y1 x4 y4 : ℚ) :
    (generateBezierPath m x1 y1 x4 y4).2.src = m.src := rfl

theorem movePath_src (moveErr : ℕ → Option String) (ps : List Point) (k : ℕ) (m : Rand) :
    (movePath moveErr ps k m).2.2.src = m.src := by
  induction ps generalizing k m with
  | nil => rfl
  | cons p ps ih =>
    rw [movePath]
    split
    · rfl
    · simp only
      rw [ih]
      rfl

/-- When no path step fails the walk returns no error, after a move and a
pause for every point. -/
theorem movePath_ok (moveErr : ℕ → Option String) (ps : List Point) (k : ℕ) (m : Rand)
    (hok : ∀ i < ps.length, moveErr (k + i) = none) :
    (movePath moveErr ps k m).1 = none ∧ (movePath moveErr ps k m).2.1.length = 2 * ps.length := by
  induction ps generalizing k m with
  | nil => simp [movePath]
  | cons p ps ih =>
    have h0 : moveErr k = none := by simpa using hok 0 (by simp)
    obtain ⟨a, b⟩ := ih (k + 1) (m.Intn 10).2 (fun i hi => by
      have := hok (i + 1) (by simpa using hi)
      rwa [show k + (i + 1) = k + 1 + i by ring] at this)
    simp only [movePath, h0]
    refine ⟨a, ?_⟩
    simp only [List.length_cons, b]
    ring

/-- The path of the failing input of C17 has ten points, so that the moves
numbered 0 to 9 are its path steps. -/
theorem path_length_fifty (m : Rand) : (generateBezierPath m 0 0 50 0).1.length = 10 := by
  rw [generateBezierPath_length]
  have : bezierSteps 0 0 50 0 = 10 := by
    have h : truncSqrtDiv10 ((50 - 0) ^ 2 + (0 - 0) ^ 2) = 5 := by
      have e : ⌊((50 - 0) ^ 2 + (0 - 0) ^ 2 : ℚ) / 100⌋ = 25 := by
        rw [Int.floor_eq_iff]
        constructor <;> norm_num
      unfold truncSqrtDiv10
      rw [e]
      have h5 : Nat.sqrt 25 = 5 := Nat.sqrt_eq 5
      simp [h5]
    unfold bezierSteps
    simp only [h]
    norm_num
  rw [this]
  rfl

/-- C17 fails on the code: with every draw zero and target (50, 0) the path
has ten points, the moves numbered 0 to 9 succeed and the move numbered 10,
the overshoot move, fails; `MoveTo` does not return its error but goes on to
pause and to issue the correcting move, and returns `nil`. -/
theorem C17_MoveTo_overshoot_error_dropped :
    (generateBezierPath ((Rand.Intn ⟨fun _ => 0, 0⟩ 100).2.Intn 100).2 0 0 50 0).1.length = 10 ∧
      (fun k : ℕ => if k = 10 then some "move failed" else none) 10 = some "move failed" ∧
      (MoveTo ⟨fun _ => 0, 0⟩ (fun k => if k = 10 then some "move failed" else none) 50 0).1 =
        none ∧
      ∃ walk : List MouseEvent, walk.length = 20 ∧
        (MoveTo ⟨fun _ => 0, 0⟩ (fun k => if k = 10 then some "move failed" else none)
          50 0).2.1 =
          walk ++ [MouseEvent.move 40 (-10), MouseEvent.sleep 50000000, MouseEvent.move 50 0] := by
  have hlen := path_length_fifty ((Rand.Intn ⟨fun _ => 0, 0⟩ 100).2.Intn 100).2
  have hx : (((Rand.Intn ⟨fun _ => 0, 0⟩ 100).1 : ℤ) : ℚ) = 0 := by
    simp [Rand.Intn_fst_of_zero]
  have hy : ((((Rand.Intn ⟨fun _ => 0, 0⟩ 100).2.Intn 100).1 : ℤ) : ℚ) = 0 := by
    rw [Rand.Intn_fst_of_zero _ rfl]
    simp
  obtain ⟨hok, hwl⟩ := movePath_ok (fun k => if k = 10 then some "move failed" else none)
    (generateBezierPath ((Rand.Intn ⟨fun _ => 0, 0⟩ 100).2.Intn 100).2 0 0 50 0).1 0
    (generateBezierPath ((Rand.Intn ⟨fun _ => 0, 0⟩ 100).2.Intn 100).2 0 0 50 0).2
    (by
      intro i hi
      rw [hlen] at hi
      have : ¬ (i = 10) := by omega
      simp [this])
  have hsrc : (movePath (fun k => if k = 10 then some "move failed" else none)
      (generateBezierPath ((Rand.Intn ⟨fun _ => 0, 0⟩ 100).2.Intn 100).2 0 0 50 0).1 0
      (generateBezierPath ((Rand.Intn ⟨fun _ => 0, 0⟩ 100).2.Intn 100).2 0 0 50 0).2).2.2.src =
      fun _ => 0 := by
    rw [movePath_src]
    rfl
  refine ⟨hlen, by simp, ?_, ?_⟩
  · unfold MoveTo
    simp only [hx, hy, hok]
    split_ifs <;> rfl
  · refine ⟨_, hwl.trans (by rw [hlen]), ?_⟩
    unfold MoveTo
    simp only [hx, hy, hok]
    rw [if_pos (by rw [Rand.Float64_fst_of_zero _ hsrc]; norm_num [overshootChance])]
    simp only
    rw [Rand.Intn_fst_of_zero _ (by rw [Rand.Float64_snd_src]; exact hsrc),
      Rand.Intn_fst_of_zero _ (by rw [Rand.Intn_snd_src, Rand.Float64_snd_src]; exact hsrc),
      Rand.Intn_fst_of_zero _ (by
        rw [Rand.Intn_snd_src, Rand.Intn_snd_src, Rand.Float64_snd_src]; exact hsrc)]
    norm_num [Millisecond]

/-! ## Configuration validation -/

/-- What `validate` does reject among the settings of the two controllers: a
non-positive `MaxConnectionsPerDay` and `MinActionDelay > MaxActionDelay`. -/
theorem validate_rejects (cfg : Config)
    (h : cfg.RateLimits.MaxConnectionsPerDay ≤ 0 ∨
      cfg.Stealth.MinActionDelay > cfg.Stealth.MaxActionDelay) :
    validate cfg ≠ none := by
  unfold validate
  split_ifs with h1 h2 h3 h4
  · simp
  · simp
  · simp
  · simp
  · exfalso
    rcases h with h | h
    · exact h3 h
    · exact h4 h

/-- C18 fails on the code: a configuration with `MaxMessagesPerDay = 0` and
`MaxSearchesPerHour = -1` passes `validate` (it returns `nil`), and
`NewRateLimiter` builds a limiter from its rate limits. -/
theorem C18_validate_accepts_non_positive_limits :
    validate
        ⟨⟨"user@example.com", "secret", "./sessions", "https://www.linkedin.com"⟩,
          ⟨true, true, true, true, 2000000000, 5000000000, true, 9, 17⟩,
          ⟨20, 0, -1, 1800000000000⟩, ⟨"./data/automation.db", "./data/backups"⟩,
          ⟨"info", "json", "./logs/automation.log"⟩⟩ = none ∧
      (NewRateLimiter ⟨20, 0, -1, 1800000000000⟩ ⟨2024, 3, 5, 9, 0⟩).config.MaxMessagesPerDay
        = 0 ∧
      (NewRateLimiter ⟨20, 0, -1, 1800000000000⟩ ⟨2024, 3, 5, 9, 0⟩).config.MaxSearchesPerHour
        = -1 := by
  refine ⟨?_, rfl, rfl⟩
  simp [validate]

/-! ## The hourly ceiling under guarded use -/

/-- The hourly part of a reset check: either an hour has elapsed, the counter
is zeroed and the reset time becomes `now`, or both are left as they were. -/
theorem resetIfNeeded_hourly (r : RateLimiter) (now : Time) :
    (r.resetIfNeeded now).config = r.config ∧
      ((Hour ≤ now.mono - r.lastHourReset.mono ∧ (r.resetIfNeeded now).hourlySearches = 0 ∧
          (r.resetIfNeeded now).lastHourReset = now) ∨
        (now.mono - r.lastHourReset.mono < Hour ∧
          (r.resetIfNeeded now).hourlySearches = r.hourlySearches ∧
          (r.resetIfNeeded now).lastHourReset = r.lastHourReset)) := by
  refine ⟨resetIfNeeded_config r now, ?_⟩
  have hd1 : (r.resetDaily now).lastHourReset = r.lastHourReset := by
    unfold RateLimiter.resetDaily
    split_ifs <;> rfl
  have hd2 : (r.resetDaily now).hourlySearches = r.hourlySearches := by
    unfold RateLimiter.resetDaily
    split_ifs <;> rfl
  unfold RateLimiter.resetIfNeeded RateLimiter.resetHourly
  rw [hd1]
  by_cases h : now.Sub r.lastHourReset ≥ Hour
  · rw [if_pos h]
    left
    exact ⟨h, rfl, rfl⟩
  · rw [if_neg h]
    right
    exact ⟨by unfold Time.Sub at h; omega, hd2, hd1⟩

theorem countP_le_add {l : List ℤ} {p q1 q2 : ℤ → Bool}
    (h : ∀ x ∈ l, p x = true → q1 x = true ∨ q2 x = true) :
    l.countP p ≤ l.countP q1 + l.countP q2 := by
  induction l with
  | nil => simp
  | cons a l ih =>
    have ih' := ih (fun x hx => h x (List.mem_cons_of_mem a hx))
    have ha := h a (List.mem_cons_self a l)
    rw [List.countP_cons, List.countP_cons, List.countP_cons]
    cases hp : p a <;> cases h1 : q1 a <;> cases h2 : q2 a <;>
      simp only [hp, h1, h2, Bool.false_eq_true, if_false, if_true, or_self, or_false, or_true,
        false_or, true_or, forall_const, imp_false, not_true_eq_false, false_implies] at ha ⊢ <;>
      omega

/-- The invariant passes through a reset check, after which less than an hour
has elapsed since the last hourly reset. -/
theorem SearchInv_reset (M : ℤ) (r : RateLimiter) (hist : List ℤ) (tl : ℤ) (now : Time)
    (hinv : SearchInv M r hist tl) (hnow : tl ≤ now.mono) :
    SearchInv M (r.resetIfNeeded now) hist now.mono ∧
      now.mono - (r.resetIfNeeded now).lastHourReset.mono < Hour ∧
      (r.resetIfNeeded now).hourlySearches ≤ r.hourlySearches := by
  obtain ⟨hM, hc0, hcM, hcnt, hlt, hw, hQ, hP⟩ := hinv
  obtain ⟨hcfg, hcase⟩ := resetIfNeeded_hourly r now
  have hH : (0 : ℤ) < Hour := by norm_num [Hour]
  rcases hcase with ⟨hel, hs, hl⟩ | ⟨hel, hs, hl⟩
  · refine ⟨⟨by rw [hcfg, hM], by rw [hs], by rw [hs]; omega, ?_, ?_, ?_, ?_, hP⟩, ?_, ?_⟩
    · rw [hs, hl]
      have : (hist.countP fun x => decide (now.mono ≤ x)) = 0 := by
        rw [List.countP_eq_zero]
        intro x hx
        have := hlt x hx
        simp only [decide_eq_true_eq]
        omega
      rw [this]
      simp
    · intro x hx
      rw [hl]
      have := hlt x hx
      omega
    · rw [hl]
    · intro s hsw
      rw [hl] at hsw ⊢
      have h1 : (hist.countP fun x => decide (s ≤ x ∧ x < now.mono)) ≤
          hist.countP fun x => decide (r.lastHourReset.mono ≤ x) := by
        apply List.countP_mono_left
        intro x _ hx
        simp only [decide_eq_true_eq] at hx ⊢
        omega
      have h2 : ((hist.countP fun x => decide (s ≤ x ∧ x < now.mono) : ℕ) : ℤ) ≤
          ((hist.countP fun x => decide (r.lastHourReset.mono ≤ x) : ℕ) : ℤ) := by
        exact_mod_cast h1
      omega
    · rw [hl]
      omega
    · rw [hs]
      exact hc0
  · refine ⟨⟨by rw [hcfg, hM], by rw [hs]; exact hc0, by rw [hs]; exact hcM, ?_, ?_, ?_, ?_, hP⟩,
      ?_, ?_⟩
    · rw [hs, hl]
      exact hcnt
    · rw [hl]
      exact hlt
    · rw [hl]
      omega
    · rw [hl]
      exact hQ
    · rw [hl]
      exact hel
    · rw [hs]

/-- The invariant passes through the recording of a search made while the
counter is below the limit and less than an hour after the last reset. -/
theorem SearchInv_record (M : ℤ) (r : RateLimiter) (hist : List ℤ) (t : ℤ) (act : Time)
    (hinv : SearchInv M r hist t) (hbelow : r.hourlySearches < M)
    (hfresh : t - r.lastHourReset.mono < Hour) (hact : t ≤ act.mono) :
    SearchInv M { r with hourlySearches := r.hourlySearches + 1, lastAction := act }
      (hist ++ [t]) act.mono := by
  obtain ⟨hM, hc0, hcM, hcnt, hlt, hw, hQ, hP⟩ := hinv
  refine ⟨hM, ?_, ?_, ?_, ?_, ?_, ?_, ?_⟩
  · show 0 ≤ r.hourlySearches + 1
    omega
  · show r.hourlySearches + 1 ≤ M
    omega
  · show ((List.countP (fun x => decide (r.lastHourReset.mono ≤ x)) (hist ++ [t]) : ℕ) : ℤ) ≤
      r.hourlySearches + 1
    rw [List.countP_append, List.countP_singleton]
    push_cast
    split_ifs <;> omega
  · intro x hx
    show x < r.lastHourReset.mono + Hour
    rcases List.mem_append.mp hx with h | h
    · exact hlt x h
    · have : x = t := by simpa using h
      omega
  · show r.lastHourReset.mono ≤ act.mono
    omega
  · intro s hs
    show ((List.countP (fun x => decide (s ≤ x ∧ x < r.lastHourReset.mono)) (hist ++ [t]) : ℕ) : ℤ)
      ≤ M
    have hs' : r.lastHourReset.mono - Hour < s := hs
    rw [List.countP_append, List.countP_singleton]
    have hno : ¬ (s ≤ t ∧ t < r.lastHourReset.mono) := by omega
    simp only [decide_eq_true_eq, hno, if_false, Nat.add_zero]
    exact hQ s hs'
  · intro s
    unfold countInHour
    rw [List.countP_append, List.countP_singleton]
    by_cases hin : s ≤ t ∧ t < s + Hour
    · simp only [decide_eq_true_eq, hin, and_self, if_true]
      have h1 : (hist.countP fun x => decide (s ≤ x ∧ x < s + Hour)) ≤
          (hist.countP fun x => decide (s ≤ x ∧ x < r.lastHourReset.mono)) +
            (hist.countP fun x => decide (r.lastHourReset.mono ≤ x)) := by
        apply countP_le_add
        intro x _ hx
        simp only [decide_eq_true_eq] at hx ⊢
        omega
      have h2 := hQ s (by omega)
      push_cast
      have h1' : ((hist.countP fun x => decide (s ≤ x ∧ x < s + Hour) : ℕ) : ℤ) ≤
          ((hist.countP fun x => decide (s ≤ x ∧ x < r.lastHourReset.mono) : ℕ) : ℤ) +
            ((hist.countP fun x => decide (r.lastHourReset.mono ≤ x) : ℕ) : ℤ) := by
        exact_mod_cast h1
      omega
    · simp only [decide_eq_true_eq, hin, if_false, Nat.add_zero]
      exact hP s

theorem SearchInv_later (M : ℤ) (r : RateLimiter) (hist : List ℤ) (tl tl2 : ℤ)
    (hinv : SearchInv M r hist tl) (h : tl ≤ tl2) : SearchInv M r hist tl2 := by
  obtain ⟨hM, hc0, hcM, hcnt, hlt, hw, hQ, hP⟩ := hinv
  exact ⟨hM, hc0, hcM, hcnt, hlt, by omega, hQ, hP⟩

/-- The invariant passes through one guarded attempt. -/
theorem SearchInv_guardedSearch (M : ℤ) (r : RateLimiter) (hist : List ℤ) (tl : ℤ)
    (a : Time × Time × Time) (hinv : SearchInv M r hist tl)
    (h1 : tl ≤ a.1.mono) (h2 : a.1.mono ≤ a.2.1.mono) (h3 : a.2.1.mono ≤ a.2.2.mono) :
    SearchInv M (guardedSearch r a).1 (hist ++ (guardedSearch r a).2) a.2.2.mono := by
  obtain ⟨i1, -, -⟩ := SearchInv_reset M r hist tl a.1 hinv h1
  unfold guardedSearch
  by_cases hcan : (r.CanSearch a.1).1 = true
  · rw [if_pos hcan]
    simp only
    have hlt : (r.resetIfNeeded a.1).hourlySearches < M := by
      have := hcan
      simp only [RateLimiter.CanSearch, decide_eq_true_eq] at this
      rw [i1.1] at this
      exact this
    obtain ⟨i2, f2, le2⟩ := SearchInv_reset M (r.resetIfNeeded a.1) hist a.1.mono a.2.1 i1 h2
    exact SearchInv_record M ((r.resetIfNeeded a.1).resetIfNeeded a.2.1) hist a.2.1.mono a.2.2 i2
      (by omega) f2 h3
  · rw [if_neg hcan]
    simp only [List.append_nil]
    exact SearchInv_later M _ hist a.1.mono a.2.2.mono i1 (by omega)

theorem guardedSearches_cons (r : RateLimiter) (a : Time × Time × Time)
    (as : List (Time × Time × Time)) :
    (guardedSearches r (a :: as)).2 =
      (guardedSearch r a).2 ++ (guardedSearches (guardedSearch r a).1 as).2 := rfl

/-- The invariant passes through a sequence of guarded attempts. -/
theorem SearchInv_guardedSearches (M : ℤ) (as : List (Time × Time × Time)) (r : RateLimiter)
    (hist : List ℤ) (tl : ℤ) (hinv : SearchInv M r hist tl) (hclock : clockMonotone tl as) :
    ∃ tl2, SearchInv M (guardedSearches r as).1 (hist ++ (guardedSearches r as).2) tl2 := by
  induction as generalizing r hist tl with
  | nil => exact ⟨tl, by simpa [guardedSearches] using hinv⟩
  | cons a as ih =>
    obtain ⟨c1, c2, c3, c4⟩ := hclock
    have h := SearchInv_guardedSearch M r hist tl a hinv c1 c2 c3
    obtain ⟨tl2, h2⟩ := ih (guardedSearch r a).1 (hist ++ (guardedSearch r a).2) a.2.2.mono h c4
    refine ⟨tl2, ?_⟩
    rw [guardedSearches_cons, ← List.append_assoc]
    exact h2

theorem SearchInv_new (config : RateLimitsConfig) (t0 : Time)
    (hM : 0 ≤ config.MaxSearchesPerHour) :
    SearchInv config.MaxSearchesPerHour (NewRateLimiter config t0) [] t0.mono := by
  refine ⟨rfl, le_refl _, hM, ?_, ?_, le_refl _, ?_, ?_⟩
  · simp [NewRateLimiter]
  · simp
  · intro s _
    simpa using hM
  · intro s
    simp only [countInHour, List.countP_nil]
    push_cast
    omega

/-- C19 (as stated) fails: with `MaxSearchesPerHour = 1`, a search recorded
59 minutes after creation and another one 60 minutes after creation, when the
hourly counter has just been reset, are two searches within the hour that
starts at minute 59. -/
theorem C19_hourly_ceiling_counterexample :
    clockMonotone (⟨2024, 3, 5, 9, 0⟩ : Time).mono
        [(⟨2024, 3, 5, 9, 3540000000000⟩, ⟨2024, 3, 5, 9, 3540000000000⟩,
            ⟨2024, 3, 5, 9, 3540000000000⟩),
          (⟨2024, 3, 5, 10, 3600000000000⟩, ⟨2024, 3, 5, 10, 3600000000000⟩,
            ⟨2024, 3, 5, 10, 3600000000000⟩)] ∧
      (guardedSearches (NewRateLimiter ⟨20, 15, 1, 0⟩ ⟨2024, 3, 5, 9, 0⟩)
        [(⟨2024, 3, 5, 9, 3540000000000⟩, ⟨2024, 3, 5, 9, 3540000000000⟩,
            ⟨2024, 3, 5, 9, 3540000000000⟩),
          (⟨2024, 3, 5, 10, 3600000000000⟩, ⟨2024, 3, 5, 10, 3600000000000⟩,
            ⟨2024, 3, 5, 10, 3600000000000⟩)]).2 = [3540000000000, 3600000000000] ∧
      countInHour 3540000000000 [3540000000000, 3600000000000] = 2 ∧
      ¬ ((2 : ℤ) ≤ (⟨20, 15, 1, 0⟩ : RateLimitsConfig).MaxSearchesPerHour) := by
  refine ⟨?_, ?_, ?_, ?_⟩
  · simp [clockMonotone]
  · simp [guardedSearches, guardedSearch, RateLimiter.CanSearch, RateLimiter.RecordSearch,
      RateLimiter.resetIfNeeded, RateLimiter.resetDaily, RateLimiter.resetHourly,
      NewRateLimiter, Time.Sub, Hour]
  · simp [countInHour, Hour, List.countP_cons]
  · norm_num

/-- C19 (amended): if the caller calls `RecordSearch` only immediately after
`CanSearch()` returned true, on a fresh limiter with a non-negative
`MaxSearchesPerHour` and a clock that never goes back, then in every time
interval of length one hour at most `2 * MaxSearchesPerHour` searches are
recorded, and at most `MaxSearchesPerHour` since the last hourly reset. -/
theorem C19_hourly_ceiling (config : RateLimitsConfig) (t0 : Time)
    (attempts : List (Time × Time × Time))
    (hM : 0 ≤ config.MaxSearchesPerHour) (hclock : clockMonotone t0.mono attempts) :
    (∀ s : ℤ, ((countInHour s (guardedSearches (NewRateLimiter config t0) attempts).2 : ℕ) : ℤ) ≤
        2 * config.MaxSearchesPerHour) ∧
      (((guardedSearches (NewRateLimiter config t0) attempts).2.countP fun x =>
          decide ((guardedSearches (NewRateLimiter config t0) attempts).1.lastHourReset.mono ≤ x)
          : ℕ) : ℤ) ≤ config.MaxSearchesPerHour := by
  obtain ⟨tl2, hinv⟩ := SearchInv_guardedSearches config.MaxSearchesPerHour attempts
    (NewRateLimiter config t0) [] t0.mono (SearchInv_new config t0 hM) hclock
  rw [List.nil_append] at hinv
  obtain ⟨-, -, hcM, hcnt, -, -, -, hP⟩ := hinv
  exact ⟨hP, by omega⟩

/-- Witness of C19 (amended): the two attempts of the counterexample. -/
theorem C19_hourly_ceiling_witness :
    (0 : ℤ) ≤ (⟨20, 15, 1, 0⟩ : RateLimitsConfig).MaxSearchesPerHour ∧
      clockMonotone (⟨2024, 3, 5, 9, 0⟩ : Time).mono
        [(⟨2024, 3, 5, 9, 3540000000000⟩, ⟨2024, 3, 5, 9, 3540000000000⟩,
            ⟨2024, 3, 5, 9, 3540000000000⟩),
          (⟨2024, 3, 5, 10, 3600000000000⟩, ⟨2024, 3, 5, 10, 3600000000000⟩,
            ⟨2024, 3, 5, 10, 3600000000000⟩)] ∧
      ((countInHour 3540000000000
        (guardedSearches (NewRateLimiter ⟨20, 15, 1, 0⟩ ⟨2024, 3, 5, 9, 0⟩)
          [(⟨2024, 3, 5, 9, 3540000000000⟩, ⟨2024, 3, 5, 9, 3540000000000⟩,
              ⟨2024, 3, 5, 9, 3540000000000⟩),
            (⟨2024, 3, 5, 10, 3600000000000⟩, ⟨2024, 3, 5, 10, 3600000000000⟩,
              ⟨2024, 3, 5, 10, 3600000000000⟩)]).2 : ℕ) : ℤ) ≤
        2 * (⟨20, 15, 1, 0⟩ : RateLimitsConfig).MaxSearchesPerHour :=
  have h0 : (0 : ℤ) ≤ (⟨20, 15, 1, 0⟩ : RateLimitsConfig).MaxSearchesPerHour := by decide
  have hc : clockMonotone (⟨2024, 3, 5, 9, 0⟩ : Time).mono
      [(⟨2024, 3, 5, 9, 3540000000000⟩, ⟨2024, 3, 5, 9, 3540000000000⟩,
          ⟨2024, 3, 5, 9, 3540000000000⟩),
        (⟨2024, 3, 5, 10, 3600000000000⟩, ⟨2024, 3, 5, 10, 3600000000000⟩,
          ⟨2024, 3, 5, 10, 3600000000000⟩)] := by
    simp [clockMonotone]
  ⟨h0, hc, (C19_hourly_ceiling ⟨20, 15, 1, 0⟩ ⟨2024, 3, 5, 9, 0⟩ _ h0 hc).1 3540000000000⟩

/-! ## Path generator: the step count -/

/-- C20 (as stated) fails: for the move from (0, 0) to (156, 0), of distance
156, `generateBezierPath` returns 15 points, while
`clamp(round(156 / 10), 10, 100)` is 16. -/
theorem C20_path_length_counterexample :
    (generateBezierPath ⟨fun _ => 0, 0⟩ 0 0 156 0).1.length = 15 ∧
      min 100 (max 10 (round (Real.sqrt ((((156 - 0) ^ 2 + (0 - 0) ^ 2 : ℚ)) : ℝ) / 10))) =
        (16 : ℤ) := by
  constructor
  · rw [generateBezierPath_length]
    have h : truncSqrtDiv10 ((156 - 0) ^ 2 + (0 - 0) ^ 2) = 15 := by
      have e : ⌊((156 - 0) ^ 2 + (0 - 0) ^ 2 : ℚ) / 100⌋ = 243 := by
        rw [Int.floor_eq_iff]
        constructor <;> norm_num
      unfold truncSqrtDiv10
      rw [e]
      have h15 : Nat.sqrt 243 = 15 := (Nat.eq_sqrt.mpr ⟨by norm_num, by norm_num⟩).symm
      simp [h15]
    have hs : bezierSteps 0 0 156 0 = 15 := by
      unfold bezierSteps
      simp only [h]
      norm_num
    rw [hs]
    rfl
  · have hd : Real.sqrt ((((156 - 0) ^ 2 + (0 - 0) ^ 2 : ℚ)) : ℝ) = 156 := by
      have : ((((156 - 0) ^ 2 + (0 - 0) ^ 2 : ℚ)) : ℝ) = (156 : ℝ) ^ 2 := by norm_num
      rw [this]
      exact Real.sqrt_sq (by norm_num)
    have hr : round ((156 : ℝ) / 10) = 16 := by
      rw [round_eq, Int.floor_eq_iff]
      constructor <;> norm_num
    rw [hd, hr]
    rfl

/-- C20 (amended): for every start and end point, the number of points
`generateBezierPath` returns equals `clamp(floor(d / 10), 10, 100)`, where `d`
is the Euclidean distance between start and end: the quotient is truncated,
not rounded to the nearest integer. -/
theorem C20_path_length (m : Rand) (x1 y1 x4 y4 : ℚ) :
    ((generateBezierPath m x1 y1 x4 y4).1.length : ℤ) =
      min 100 (max 10 ⌊Real.sqrt ((((x4 - x1) ^ 2 + (y4 - y1) ^ 2 : ℚ)) : ℝ) / 10⌋) := by
  have hnn : (0 : ℚ) ≤ (x4 - x1) ^ 2 + (y4 - y1) ^ 2 := by positivity
  rw [← truncSqrtDiv10_eq_floor _ hnn, generateBezierPath_length]
  have h := bezierSteps_ge x1 y1 x4 y4
  have hs : bezierSteps x1 y1 x4 y4 =
      min 100 (max 10 (truncSqrtDiv10 ((x4 - x1) ^ 2 + (y4 - y1) ^ 2))) := by
    unfold bezierSteps
    simp only
    split_ifs <;> omega
  rw [← hs]
  omega

/-! ## Offsets of a smooth scroll -/

theorem smoothScrollLoop_offsets (current target steps : ℤ) (n : ℕ) (i : ℤ) (s : Rand) :
    scrollOffsets (smoothScrollLoop current target steps n i s).1 =
      (List.range n).map fun (j : ℕ) => scrollPos current target steps (i + j) := by
  induction n generalizing i s with
  | zero => simp [smoothScrollLoop, scrollOffsets]
  | succ n ih =>
    rw [smoothScrollLoop_succ, scrollOffsets_scrollTo, scrollOffsets_sleep,
      ih (i + 1) (s.Intn 20).2, List.range_succ_eq_map, List.map_cons, List.map_map]
    congr 1
    · simp
    · apply List.map_congr_left
      intro j _
      simp only [Function.comp, Nat.succ_eq_add_one]
      congr 1
      push_cast
      ring

theorem smoothScrollTo_offsets (s : Rand) (current target : ℤ) :
    scrollOffsets (smoothScrollTo s current target).1 =
      (List.range (20 + (s.Intn 10).1 + 1).toNat).map fun (j : ℕ) =>
        scrollPos current target (20 + (s.Intn 10).1) j := by
  unfold smoothScrollTo
  simp only [smoothScrollLoop_offsets, zero_add]

theorem f64toInt_truncates (f : ℚ) :
    |(f64toInt f : ℚ)| ≤ |f| ∧ |f - (f64toInt f : ℚ)| < 1 := by
  unfold f64toInt
  split_ifs with h
  · have h1 := Int.floor_le f
    have h2 := Int.lt_floor_add_one f
    have h3 : (0 : ℚ) ≤ (⌊f⌋ : ℤ) := by exact_mod_cast Int.floor_nonneg.mpr h
    rw [abs_of_nonneg h3, abs_of_nonneg h, abs_of_nonneg (by linarith)]
    constructor <;> linarith
  · have h' : f < 0 := lt_of_not_le h
    have h1 := Int.le_ceil f
    have h2 := Int.ceil_lt_add_one f
    have h3 : ((⌈f⌉ : ℤ) : ℚ) ≤ 0 := by exact_mod_cast Int.ceil_le.mpr (by simpa using h'.le)
    rw [abs_of_nonpos h3, abs_of_neg h', abs_of_nonpos (by linarith)]
    constructor <;> linarith

theorem roundF64_quarter : roundF64 (1 / 4) = 1 / 4 :=
  roundF64_eq_self (-2) (2 ^ 52) (by norm_num) (by norm_num) (by norm_num) (by norm_num)

theorem roundF64_nine_sixteenths : roundF64 (9 / 16) = 9 / 16 :=
  roundF64_eq_self (-1) (9 * 2 ^ 49) (by norm_num) (by norm_num) (by norm_num) (by norm_num)

theorem roundF64_seven_sixteenths : roundF64 (7 / 16) = 7 / 16 :=
  roundF64_eq_self (-2) (7 * 2 ^ 50) (by norm_num) (by norm_num) (by norm_num) (by norm_num)

theorem roundF64_seven_eighths : roundF64 (7 / 8) = 7 / 8 :=
  roundF64_eq_self (-1) (7 * 2 ^ 50) (by norm_num) (by norm_num) (by norm_num) (by norm_num)

theorem scrollPos_0_2_20_5 : scrollPos 0 2 20 5 = 0 := by
  have h5 : roundF64 ((5 : ℤ) : ℚ) = 5 := by
    have := roundF64_intCast 5 (by norm_num)
    simpa using this
  have h20 : roundF64 ((20 : ℤ) : ℚ) = 20 := by
    have := roundF64_intCast 20 (by norm_num)
    simpa using this
  have h2 : roundF64 (((2 : ℤ) - 0 : ℤ) : ℚ) = 2 := by
    have := roundF64_intCast 2 (by norm_num)
    simpa using this
  have e1 : ((5 : ℚ) / 20) = 1 / 4 := by norm_num
  have e2 : ((1 : ℚ) - 1 / 4) = 3 / 4 := by norm_num
  have e3 : ((3 : ℚ) / 4 * (3 / 4)) = 9 / 16 := by norm_num
  have e4 : ((1 : ℚ) - 9 / 16) = 7 / 16 := by norm_num
  have e5 : ((2 : ℚ) * (7 / 16)) = 7 / 8 := by norm_num
  simp only [scrollPos, f64div, f64ofInt, f64sub, f64mul, h5, h20, h2, e1, roundF64_quarter, e2,
    roundF64_three_quarters, e3, roundF64_nine_sixteenths, e4, roundF64_seven_sixteenths, e5,
    roundF64_seven_eighths, f64toInt]
  norm_num

/-- C21 (as amended): for every current offset, target and random draws, with
`s = 20 + Intn(10)` the step count, the offset set in iteration `i` (for every
`i` from 0 to `s`) is `current + int(float64(target - current) * e_i)`, where
`e_i = 1 - (1 - i/s) * (1 - i/s)` is evaluated in float64 and `int` discards
the fraction of the float64 product (truncation towards zero, so the integer is
never larger in magnitude than the product and differs from it by less than
one); no rounding to the nearest integer takes place. -/
theorem C21_smoothScrollTo_offsets (s : Rand) (current target : ℤ) (i : ℕ)
    (hi : (i : ℤ) ≤ 20 + (s.Intn 10).1) :
    (scrollOffsets (smoothScrollTo s current target).1)[i]? =
      some (current + f64toInt (f64mul (f64ofInt (target - current))
        (f64sub 1 (f64mul
          (f64sub 1 (f64div (f64ofInt i) (f64ofInt (20 + (s.Intn 10).1))))
          (f64sub 1 (f64div (f64ofInt i) (f64ofInt (20 + (s.Intn 10).1)))))))) ∧
    ∀ f : ℚ, |(f64toInt f : ℚ)| ≤ |f| ∧ |f - (f64toInt f : ℚ)| < 1 := by
  refine ⟨?_, f64toInt_truncates⟩
  rw [smoothScrollTo_offsets]
  have hlt : i < (20 + (s.Intn 10).1 + 1).toNat := by omega
  rw [List.getElem?_map, List.getElem?_range hlt]
  rfl

/-- C21 (witness): the zero source gives 20 steps; iteration 5 is inside the
loop. -/
theorem C21_smoothScrollTo_offsets_witness :
    (scrollOffsets (smoothScrollTo ⟨fun _ => 0, 0⟩ 0 2).1)[5]? =
      some (0 + f64toInt (f64mul (f64ofInt (2 - 0))
        (f64sub 1 (f64mul
          (f64sub 1 (f64div (f64ofInt (5 : ℕ))
            (f64ofInt (20 + ((⟨fun _ => 0, 0⟩ : Rand).Intn 10).1))))
          (f64sub 1 (f64div (f64ofInt (5 : ℕ))
            (f64ofInt (20 + ((⟨fun _ => 0, 0⟩ : Rand).Intn 10).1)))))))) :=
  (C21_smoothScrollTo_offsets ⟨fun _ => 0, 0⟩ 0 2 5 (by simp [Rand.Intn])).1

/-- C21 (counterexample): scrolling from offset 0 to target 2 in 20 steps, the
eased distance of iteration 5 is `2 * (1 - (3/4)^2) = 0.875`, every float64
operation being exact; the code sets offset 0, while rounding to the nearest
integer would give 1. -/
theorem C21_smoothScrollTo_offsets_counterexample :
    (scrollOffsets (smoothScrollTo ⟨fun _ => 0, 0⟩ 0 2).1)[5]? = some 0 ∧
    (0 : ℤ) + round ((((2 : ℤ) - 0 : ℤ) : ℚ) * (1 - (1 - 5 / 20) ^ 2)) = 1 := by
  constructor
  · rw [smoothScrollTo_offsets]
    have h0 : ((⟨fun _ => 0, 0⟩ : Rand).Intn 10).1 = 0 := by simp [Rand.Intn]
    rw [h0]
    have hlt : 5 < ((20 : ℤ) + 0 + 1).toNat := by decide
    rw [List.getElem?_map, List.getElem?_range hlt]
    simp only [Option.map_some', add_zero, Nat.cast_ofNat]
    rw [scrollPos_0_2_20_5]
  · rw [round_eq]
    norm_num

/-! ## Typos and the final character -/

theorem typoActions_last_byte (t : Rand) (textLength : ℤ) :
    typoActions t (textLength - 1) textLength = ([], t.Float64.2) := by
  simp [typoActions]

/-- C22 (the code on the failing input): `TypeText` of the one-character text
"é" (two bytes in UTF-8) with a source whose draws are all 0. The character is
the final one, at byte offset 0, and `len(text) - 1` is 1, so the restriction
`i < len(text)-1` holds and the wrong character "a" is typed and erased in
front of it. -/
theorem C22_TypeText_typo_before_final_character :
    (TypeText ⟨fun _ => 0, 0⟩ none "é").2.1 =
      [Action.focus, Action.sleep (300 * Millisecond),
        Action.input "a", Action.sleep (200 * Millisecond),
        Action.press Key.Backspace, Action.sleep (100 * Millisecond),
        Action.input "é", Action.sleep (280 * Millisecond)] := by
  have hd : "é".data = ['é'] := rfl
  have hl : "é".utf8ByteSize = 2 := by decide
  have hc : "abcdefghijklmnopqrstuvwxyz".data.getD 0 'a' = 'a' := rfl
  have hs : Char.utf8Size 'é' = 2 := by decide
  simp [TypeText, typeLoop, typoActions, getKeystrokeDelay, getRandomChar, Rand.Intn,
    Rand.Float64, Rand.next, typoChance, pauseChance, hd, hl, hc, hs, String.singleton]
  exact ⟨rfl, rfl⟩

/-! ## Bounding box of the path -/

theorem bezier_coord_bounds {lo hi a b c d t : ℚ} (ht0 : 0 ≤ t) (ht1 : t ≤ 1)
    (ha : lo ≤ a ∧ a ≤ hi) (hb : lo ≤ b ∧ b ≤ hi) (hc : lo ≤ c ∧ c ≤ hi)
    (hd : lo ≤ d ∧ d ≤ hi) :
    lo ≤ (1 - t) ^ 3 * a + 3 * (1 - t) ^ 2 * t * b + 3 * (1 - t) * t ^ 2 * c + t ^ 3 * d ∧
      (1 - t) ^ 3 * a + 3 * (1 - t) ^ 2 * t * b + 3 * (1 - t) * t ^ 2 * c + t ^ 3 * d ≤ hi := by
  have hs : 0 ≤ 1 - t := by linarith
  have w0 : 0 ≤ (1 - t) ^ 3 := by positivity
  have w1 : 0 ≤ 3 * (1 - t) ^ 2 * t := by positivity
  have w2 : 0 ≤ 3 * (1 - t) * t ^ 2 := by positivity
  have w3 : 0 ≤ t ^ 3 := by positivity
  have hsum : (1 - t) ^ 3 + 3 * (1 - t) ^ 2 * t + 3 * (1 - t) * t ^ 2 + t ^ 3 = 1 := by ring
  constructor
  · have e : (1 - t) ^ 3 * a + 3 * (1 - t) ^ 2 * t * b + 3 * (1 - t) * t ^ 2 * c + t ^ 3 * d
        - lo = (1 - t) ^ 3 * (a - lo) + 3 * (1 - t) ^ 2 * t * (b - lo)
          + 3 * (1 - t) * t ^ 2 * (c - lo) + t ^ 3 * (d - lo) := by
      linear_combination (-lo) * hsum
    have p0 := mul_nonneg w0 (sub_nonneg.mpr ha.1)
    have p1 := mul_nonneg w1 (sub_nonneg.mpr hb.1)
    have p2 := mul_nonneg w2 (sub_nonneg.mpr hc.1)
    have p3 := mul_nonneg w3 (sub_nonneg.mpr hd.1)
    linarith
  · have e : hi - ((1 - t) ^ 3 * a + 3 * (1 - t) ^ 2 * t * b + 3 * (1 - t) * t ^ 2 * c
        + t ^ 3 * d) = (1 - t) ^ 3 * (hi - a) + 3 * (1 - t) ^ 2 * t * (hi - b)
          + 3 * (1 - t) * t ^ 2 * (hi - c) + t ^ 3 * (hi - d) := by
      linear_combination hi * hsum
    have p0 := mul_nonneg w0 (sub_nonneg.mpr ha.2)
    have p1 := mul_nonneg w1 (sub_nonneg.mpr hb.2)
    have p2 := mul_nonneg w2 (sub_nonneg.mpr hc.2)
    have p3 := mul_nonneg w3 (sub_nonneg.mpr hd.2)
    linarith

theorem control_point_bounds (a b u : ℚ) (h0 : 0 ≤ u) (h1 : u ≤ 1) :
    min a b ≤ a + (b - a) * u ∧ a + (b - a) * u ≤ max a b := by
  rcases le_total a b with h | h
  · rw [min_eq_left h, max_eq_right h]
    constructor <;> nlinarith
  · rw [min_eq_right h, max_eq_left h]
    constructor <;> nlinarith

theorem endpoint_bounds (a b : ℚ) :
    (min a b ≤ a ∧ a ≤ max a b) ∧ (min a b ≤ b ∧ b ≤ max a b) :=
  ⟨⟨min_le_left a b, le_max_left a b⟩, ⟨min_le_right a b, le_max_right a b⟩⟩

/-- C27: over exact arithmetic, for every start, end and every outcome of the
control-point draws (each in `[0,1)`), every point of the path returned by
`generateBezierPath` lies inside the axis-aligned bounding box spanned by start
and end. -/
theorem C27_generateBezierPath_in_bounding_box (m : Rand) (x1 y1 x4 y4 : ℚ) :
    ∀ p ∈ (generateBezierPath m x1 y1 x4 y4).1,
      (min x1 x4 ≤ p.X ∧ p.X ≤ max x1 x4) ∧ (min y1 y4 ≤ p.Y ∧ p.Y ≤ max y1 y4) := by
  intro p hp
  simp only [generateBezierPath, List.mem_map, List.mem_range] at hp
  obtain ⟨i, hi, rfl⟩ := hp
  have hge := bezierSteps_ge x1 y1 x4 y4
  have hpos : (0 : ℚ) < ((bezierSteps x1 y1 x4 y4 - 1 : ℤ) : ℚ) := by
    have : (0 : ℤ) < bezierSteps x1 y1 x4 y4 - 1 := by omega
    exact_mod_cast this
  have ht0 : (0 : ℚ) ≤ (i : ℚ) / ((bezierSteps x1 y1 x4 y4 - 1 : ℤ) : ℚ) := by positivity
  have ht1 : (i : ℚ) / ((bezierSteps x1 y1 x4 y4 - 1 : ℤ) : ℚ) ≤ 1 := by
    rw [div_le_one hpos]
    have : (i : ℤ) ≤ bezierSteps x1 y1 x4 y4 - 1 := by omega
    exact_mod_cast this
  have u1 := Rand.Float64_range m
  have u2 := Rand.Float64_range m.Float64.2
  have u3 := Rand.Float64_range m.Float64.2.Float64.2
  have u4 := Rand.Float64_range m.Float64.2.Float64.2.Float64.2
  have ex := endpoint_bounds x1 x4
  have ey := endpoint_bounds y1 y4
  exact ⟨bezier_coord_bounds ht0 ht1 ex.1 (control_point_bounds x1 x4 _ u1.1 u1.2.le)
      (control_point_bounds x1 x4 _ u3.1 u3.2.le) ex.2,
    bezier_coord_bounds ht0 ht1 ey.1 (control_point_bounds y1 y4 _ u2.1 u2.2.le)
      (control_point_bounds y1 y4 _ u4.1 u4.2.le) ey.2⟩

/-! ## Start of a mouse path -/

theorem bezierPoint_zero (x1 y1 x2 y2 x3 y3 x4 y4 : ℚ) :
    bezierPoint x1 y1 x2 y2 x3 y3 x4 y4 0 = { X := x1, Y := y1 } := by
  simp [bezierPoint]

theorem generateBezierPath_head (m : Rand) (x1 y1 x4 y4 : ℚ) :
    ∃ ps, (generateBezierPath m x1 y1 x4 y4).1 = { X := x1, Y := y1 } :: ps := by
  have hge := bezierSteps_ge x1 y1 x4 y4
  obtain ⟨k, hk⟩ : ∃ k, (bezierSteps x1 y1 x4 y4).toNat = k + 1 :=
    ⟨(bezierSteps x1 y1 x4 y4).toNat - 1, by omega⟩
  simp only [generateBezierPath, hk, List.range_succ_eq_map, List.map_cons, Nat.cast_zero,
    zero_div, bezierPoint_zero]
  exact ⟨_, rfl⟩

theorem movePath_head (moveErr : ℕ → Option String) (p : Point) (ps : List Point) (k : ℕ)
    (m : Rand) : ∃ es, (movePath moveErr (p :: ps) k m).2.1 = MouseEvent.move p.X p.Y :: es := by
  rw [movePath]
  split
  · exact ⟨_, rfl⟩
  · exact ⟨_, rfl⟩

theorem MoveTo_head (m : Rand) (moveErr : ℕ → Option String) (targetX targetY : ℚ) :
    (MoveTo m moveErr targetX targetY).2.1.head? =
      some (MouseEvent.move ((m.Intn 100).1 : ℚ) (((m.Intn 100).2.Intn 100).1 : ℚ)) := by
  obtain ⟨ps, hps⟩ := generateBezierPath_head ((m.Intn 100).2.Intn 100).2
    ((m.Intn 100).1 : ℚ) (((m.Intn 100).2.Intn 100).1 : ℚ) targetX targetY
  obtain ⟨es, hes⟩ := movePath_head moveErr ⟨((m.Intn 100).1 : ℚ),
    (((m.Intn 100).2.Intn 100).1 : ℚ)⟩ ps 0
    (generateBezierPath ((m.Intn 100).2.Intn 100).2
      ((m.Intn 100).1 : ℚ) (((m.Intn 100).2.Intn 100).1 : ℚ) targetX targetY).2
  unfold MoveTo
  simp only [hps]
  split
  · simp only [hes, List.head?_cons]
  · split_ifs
    · simp only [hes, List.cons_append, List.head?_cons]
    · simp only [hes, List.head?_cons]

theorem Rand.Intn_100_range (r : Rand) : 0 ≤ (r.Intn 100).1 ∧ (r.Intn 100).1 < 100 := by
  simp only [Rand.Intn]
  omega

/-- C24 (the code on the failing input): after `MoveTo(500, 400)`, whatever
its outcome and the draws, the call `MoveTo(900, 100)` on the same mover issues
its first move at a freshly drawn position `(x, y)` with integer coordinates in
`[0,100)`, not at the position (500, 400) reached by the first call: the mover
records no position and the start is randomized on every call. -/
theorem C24_MoveTo_start_always_random (m : Rand) (e1 e2 : ℕ → Option String) :
    ∃ x y : ℤ, (0 ≤ x ∧ x < 100) ∧ (0 ≤ y ∧ y < 100) ∧
      (MoveTo (MoveTo m e1 500 400).2.2 e2 900 100).2.1.head? =
        some (MouseEvent.move (x : ℚ) (y : ℚ)) ∧
      (MoveTo (MoveTo m e1 500 400).2.2 e2 900 100).2.1.head? ≠
        some (MouseEvent.move 500 400) := by
  refine ⟨_, _, Rand.Intn_100_range _, Rand.Intn_100_range _, MoveTo_head _ _ _ _, ?_⟩
  rw [MoveTo_head]
  intro h
  have hx := (Rand.Intn_100_range (MoveTo m e1 500 400).2.2).2
  simp only [Option.some.injEq, MouseEvent.move.injEq] at h
  have h1 : (((MoveTo m e1 500 400).2.2.Intn 100).1 : ℚ) < 100 := by exact_mod_cast hx
  rw [h.1] at h1
  norm_num at h1

/-! ## Counters stay within their limits -/

theorem resetIfNeeded_in_range (r : RateLimiter) (now : Time)
    (hc : 0 ≤ r.config.MaxConnectionsPerDay) (hm : 0 ≤ r.config.MaxMessagesPerDay)
    (hs : 0 ≤ r.config.MaxSearchesPerHour) (h : CountersInRange r) :
    CountersInRange (r.resetIfNeeded now) := by
  unfold CountersInRange at *
  unfold RateLimiter.resetIfNeeded RateLimiter.resetHourly RateLimiter.resetDaily
  split_ifs <;> (try simp only) <;> omega

theorem LimiterOp.apply_config (r : RateLimiter) (op : LimiterOp) :
    (LimiterOp.apply r op).config = r.config := by
  cases op <;>
    simp only [LimiterOp.apply, RateLimiter.CanSendConnection, RateLimiter.CanSendMessage,
      RateLimiter.CanSearch, RateLimiter.GetStats, guardedSearch, RateLimiter.RecordConnection,
      RateLimiter.RecordMessage, RateLimiter.RecordSearch] <;>
    (try split_ifs) <;> simp only [resetIfNeeded_config]

theorem LimiterOp.apply_in_range (r : RateLimiter) (op : LimiterOp)
    (hc : 0 ≤ r.config.MaxConnectionsPerDay) (hm : 0 ≤ r.config.MaxMessagesPerDay)
    (hs : 0 ≤ r.config.MaxSearchesPerHour) (h : CountersInRange r) :
    CountersInRange (LimiterOp.apply r op) := by
  have key : ∀ (q : RateLimiter) (t : Time), 0 ≤ q.config.MaxConnectionsPerDay →
      0 ≤ q.config.MaxMessagesPerDay → 0 ≤ q.config.MaxSearchesPerHour →
      CountersInRange q → CountersInRange (q.resetIfNeeded t) :=
    fun q t a b c d => resetIfNeeded_in_range q t a b c d
  have h1 : ∀ t, CountersInRange (r.resetIfNeeded t) := fun t => key r t hc hm hs h
  have hcfg : ∀ t, (r.resetIfNeeded t).config = r.config := fun t => resetIfNeeded_config r t
  cases op with
  | canConnection now => exact h1 now
  | canMessage now => exact h1 now
  | canSearch now => exact h1 now
  | stats now => exact h1 now
  | connection now now1 now2 =>
    simp only [LimiterOp.apply, RateLimiter.CanSendConnection, decide_eq_true_eq]
    split_ifs with hlt
    · have h2 := key (r.resetIfNeeded now) now1 (by rw [hcfg]; exact hc) (by rw [hcfg]; exact hm)
        (by rw [hcfg]; exact hs) (h1 now)
      have hle : ((r.resetIfNeeded now).resetIfNeeded now1).dailyConnections ≤
          (r.resetIfNeeded now).dailyConnections := by
        unfold RateLimiter.resetIfNeeded RateLimiter.resetHourly RateLimiter.resetDaily
        have := (h1 now).1.1
        unfold RateLimiter.resetIfNeeded RateLimiter.resetHourly RateLimiter.resetDaily at this
        split_ifs at this ⊢ <;> (try simp only at this ⊢) <;> omega
      have hc2 : ((r.resetIfNeeded now).resetIfNeeded now1).config = (r.resetIfNeeded now).config :=
        resetIfNeeded_config _ _
      unfold CountersInRange at h2 ⊢
      simp only [RateLimiter.RecordConnection]
      rw [hc2] at h2 ⊢
      omega
    · exact h1 now
  | message now now1 now2 =>
    simp only [LimiterOp.apply, RateLimiter.CanSendMessage, decide_eq_true_eq]
    split_ifs with hlt
    · have h2 := key (r.resetIfNeeded now) now1 (by rw [hcfg]; exact hc) (by rw [hcfg]; exact hm)
        (by rw [hcfg]; exact hs) (h1 now)
      have hle : ((r.resetIfNeeded now).resetIfNeeded now1).dailyMessages ≤
          (r.resetIfNeeded now).dailyMessages := by
        unfold RateLimiter.resetIfNeeded RateLimiter.resetHourly RateLimiter.resetDaily
        have := (h1 now).2.1.1
        unfold RateLimiter.resetIfNeeded RateLimiter.resetHourly RateLimiter.resetDaily at this
        split_ifs at this ⊢ <;> (try simp only at this ⊢) <;> omega
      have hc2 : ((r.resetIfNeeded now).resetIfNeeded now1).config = (r.resetIfNeeded now).config :=
        resetIfNeeded_config _ _
      unfold CountersInRange at h2 ⊢
      simp only [RateLimiter.RecordMessage]
      rw [hc2] at h2 ⊢
      omega
    · exact h1 now
  | search now now1 now2 =>
    simp only [LimiterOp.apply, guardedSearch, RateLimiter.CanSearch, decide_eq_true_eq]
    split_ifs with hlt
    · have h2 := key (r.resetIfNeeded now) now1 (by rw [hcfg]; exact hc) (by rw [hcfg]; exact hm)
        (by rw [hcfg]; exact hs) (h1 now)
      have hle : ((r.resetIfNeeded now).resetIfNeeded now1).hourlySearches ≤
          (r.resetIfNeeded now).hourlySearches := by
        unfold RateLimiter.resetIfNeeded RateLimiter.resetHourly RateLimiter.resetDaily
        have := (h1 now).2.2.1
        unfold RateLimiter.resetIfNeeded RateLimiter.resetHourly RateLimiter.resetDaily at this
        split_ifs at this ⊢ <;> (try simp only at this ⊢) <;> omega
      have hc2 : ((r.resetIfNeeded now).resetIfNeeded now1).config = (r.resetIfNeeded now).config :=
        resetIfNeeded_config _ _
      unfold CountersInRange at h2 ⊢
      simp only [RateLimiter.RecordSearch]
      rw [hc2] at h2 ⊢
      omega
    · exact h1 now

theorem guardedRun_in_range (r : RateLimiter) (ops : List LimiterOp)
    (hc : 0 ≤ r.config.MaxConnectionsPerDay) (hm : 0 ≤ r.config.MaxMessagesPerDay)
    (hs : 0 ≤ r.config.MaxSearchesPerHour) (h : CountersInRange r) :
    CountersInRange (guardedRun r ops) := by
  induction ops generalizing r with
  | nil => exact h
  | cons op ops ih =>
    have hcfg := LimiterOp.apply_config r op
    exact ih (LimiterOp.apply r op) (by rw [hcfg]; exact hc) (by rw [hcfg]; exact hm)
      (by rw [hcfg]; exact hs) (LimiterOp.apply_in_range r op hc hm hs h)

theorem guardedRun_config (r : RateLimiter) (ops : List LimiterOp) :
    (guardedRun r ops).config = r.config := by
  induction ops generalizing r with
  | nil => rfl
  | cons op ops ih => rw [guardedRun, ih, LimiterOp.apply_config]

/-- C28 (as stated) fails: with `MaxSearchesPerHour = -1` (and
`MaxMessagesPerDay = 0`), a fresh limiter after the query `CanSearch()` has
`hourlySearches = 0`, which is above the limit. -/
theorem C28_counters_within_limits_counterexample :
    (guardedRun (NewRateLimiter ⟨20, 0, -1, 0⟩ ⟨2024, 3, 5, 9, 0⟩)
        [LimiterOp.canSearch ⟨2024, 3, 5, 9, 1⟩]).hourlySearches = 0 ∧
      ¬ ((guardedRun (NewRateLimiter ⟨20, 0, -1, 0⟩ ⟨2024, 3, 5, 9, 0⟩)
          [LimiterOp.canSearch ⟨2024, 3, 5, 9, 1⟩]).hourlySearches ≤
        (⟨20, 0, -1, 0⟩ : RateLimitsConfig).MaxSearchesPerHour) := by
  decide

/-- C28 (as amended): for limits that are not negative, start from a fresh
limiter and let the caller make any sequence of queries,
statistics calls and guarded actions, a record call being made only immediately
after the corresponding query returned true. After every step each counter is
between 0 and its limit: `0 <= dailyConnections <= MaxConnectionsPerDay`,
`0 <= dailyMessages <= MaxMessagesPerDay` and
`0 <= hourlySearches <= MaxSearchesPerHour`. The sequence is arbitrary, so the
bounds hold after each of its steps; they hold for every clock, non-decreasing
or not. -/
theorem C28_counters_within_limits (config : RateLimitsConfig) (t0 : Time)
    (ops : List LimiterOp) (hc : 0 ≤ config.MaxConnectionsPerDay)
    (hm : 0 ≤ config.MaxMessagesPerDay) (hs : 0 ≤ config.MaxSearchesPerHour) :
    (0 ≤ (guardedRun (NewRateLimiter config t0) ops).dailyConnections ∧
      (guardedRun (NewRateLimiter config t0) ops).dailyConnections ≤
        config.MaxConnectionsPerDay) ∧
    (0 ≤ (guardedRun (NewRateLimiter config t0) ops).dailyMessages ∧
      (guardedRun (NewRateLimiter config t0) ops).dailyMessages ≤ config.MaxMessagesPerDay) ∧
    (0 ≤ (guardedRun (NewRateLimiter config t0) ops).hourlySearches ∧
      (guardedRun (NewRateLimiter config t0) ops).hourlySearches ≤
        config.MaxSearchesPerHour) := by
  have h0 : CountersInRange (NewRateLimiter config t0) := by
    unfold CountersInRange NewRateLimiter
    exact ⟨⟨le_refl 0, hc⟩, ⟨le_refl 0, hm⟩, ⟨le_refl 0, hs⟩⟩
  have h := guardedRun_in_range (NewRateLimiter config t0) ops hc hm hs h0
  unfold CountersInRange at h
  rw [guardedRun_config] at h
  exact h

/-- Witness of C28 (amended): limits 1, 1 and 1; two guarded connection attempts, a
guarded message, a guarded search and a query. -/
theorem C28_counters_within_limits_witness :
    (0 : ℤ) ≤ (⟨1, 1, 1, 0⟩ : RateLimitsConfig).MaxConnectionsPerDay ∧
      (guardedRun (NewRateLimiter ⟨1, 1, 1, 0⟩ ⟨2024, 3, 5, 9, 0⟩)
        [LimiterOp.connection ⟨2024, 3, 5, 9, 1⟩ ⟨2024, 3, 5, 9, 2⟩ ⟨2024, 3, 5, 9, 3⟩,
          LimiterOp.connection ⟨2024, 3, 5, 9, 4⟩ ⟨2024, 3, 5, 9, 5⟩ ⟨2024, 3, 5, 9, 6⟩,
          LimiterOp.message ⟨2024, 3, 5, 9, 7⟩ ⟨2024, 3, 5, 9, 8⟩ ⟨2024, 3, 5, 9, 9⟩,
          LimiterOp.search ⟨2024, 3, 5, 9, 10⟩ ⟨2024, 3, 5, 9, 11⟩ ⟨2024, 3, 5, 9, 12⟩,
          LimiterOp.canSearch ⟨2024, 3, 5, 9, 13⟩]).dailyConnections ≤
        (⟨1, 1, 1, 0⟩ : RateLimitsConfig).MaxConnectionsPerDay :=
  ⟨by decide,
    (C28_counters_within_limits ⟨1, 1, 1, 0⟩ ⟨2024, 3, 5, 9, 0⟩
      [LimiterOp.connection ⟨2024, 3, 5, 9, 1⟩ ⟨2024, 3, 5, 9, 2⟩ ⟨2024, 3, 5, 9, 3⟩,
        LimiterOp.connection ⟨2024, 3, 5, 9, 4⟩ ⟨2024, 3, 5, 9, 5⟩ ⟨2024, 3, 5, 9, 6⟩,
        LimiterOp.message ⟨2024, 3, 5, 9, 7⟩ ⟨2024, 3, 5, 9, 8⟩ ⟨2024, 3, 5, 9, 9⟩,
        LimiterOp.search ⟨2024, 3, 5, 9, 10⟩ ⟨2024, 3, 5, 9, 11⟩ ⟨2024, 3, 5, 9, 12⟩,
        LimiterOp.canSearch ⟨2024, 3, 5, 9, 13⟩] (by decide) (by decide) (by decide)).1.2⟩

/-! ## Random scrolling -/

theorem scrollStep_currentScroll (s : Rand) (pageHeight viewportHeight : ℤ)
    (pageYOffset : ℕ → ℤ) (k : ℕ) :
    (scrollStep s pageHeight viewportHeight pageYOffset k).1.currentScroll = pageYOffset k := by
  unfold scrollStep
  simp only
  split_ifs <;> rfl

theorem scrollStep_targetScroll (s : Rand) (pageHeight viewportHeight : ℤ)
    (pageYOffset : ℕ → ℤ) (k : ℕ) :
    (scrollStep s pageHeight viewportHeight pageYOffset k).1.targetScroll =
      forwardTarget pageHeight viewportHeight (pageYOffset k)
        (goDiv viewportHeight 2 + (s.Intn (goDiv viewportHeight 2)).1) := by
  unfold scrollStep
  simp only
  split_ifs <;> rfl

theorem scrollStep_backScroll_cases (s : Rand) (pageHeight viewportHeight : ℤ)
    (pageYOffset : ℕ → ℤ) (k : ℕ) :
    (scrollStep s pageHeight viewportHeight pageYOffset k).1.backScroll = none ∨
      ∃ r : Rand, (scrollStep s pageHeight viewportHeight pageYOffset k).1.backScroll =
        some (backTarget (pageYOffset k) (r.Intn 200).1) := by
  unfold scrollStep
  simp only
  split_ifs <;> first | exact Or.inl rfl | exact Or.inr ⟨_, rfl⟩

theorem Rand.Intn_200_range (r : Rand) : 0 ≤ (r.Intn 200).1 ∧ (r.Intn 200).1 < 200 := by
  simp only [Rand.Intn]
  omega

theorem scrollStep_backScroll (s : Rand) (pageHeight viewportHeight : ℤ)
    (pageYOffset : ℕ → ℤ) (k : ℕ) (b : ℤ)
    (h : (scrollStep s pageHeight viewportHeight pageYOffset k).1.backScroll = some b) :
    ∃ r : ℤ, 0 ≤ r ∧ r < 200 ∧ b = max 0 (pageYOffset k - r) := by
  rcases scrollStep_backScroll_cases s pageHeight viewportHeight pageYOffset k with h0 | ⟨r, hr⟩
  · rw [h0] at h
    simp at h
  · rw [hr] at h
    simp only [Option.some.injEq] at h
    refine ⟨(r.Intn 200).1, (Rand.Intn_200_range r).1, (Rand.Intn_200_range r).2, ?_⟩
    rw [← h]
    unfold backTarget
    split_ifs with h2
    · exact (max_eq_left h2.le).symm
    · exact (max_eq_right (not_lt.mp h2)).symm

theorem scrollLoop_forall (P : ScrollStep → Prop) (pageHeight viewportHeight : ℤ)
    (pageYOffset : ℕ → ℤ)
    (hP : ∀ s k, P (scrollStep s pageHeight viewportHeight pageYOffset k).1) (n : ℕ) (s : Rand)
    (k : ℕ) : ∀ a ∈ (scrollLoop pageHeight viewportHeight pageYOffset n s k).1, P a := by
  induction n generalizing s k with
  | zero => simp [scrollLoop]
  | succ n ih =>
    intro a ha
    simp only [scrollLoop, List.mem_cons] at ha
    rcases ha with rfl | ha
    · exact hP s k
    · exact ih _ _ a ha

theorem goDiv_two_of_two_le (v : ℤ) (h : 2 ≤ v) : goDiv v 2 = v / 2 ∧ 1 ≤ v / 2 := by
  unfold goDiv
  rw [if_pos (by omega)]
  exact ⟨rfl, by omega⟩

theorem scrollLoop_length (pageHeight viewportHeight : ℤ) (pageYOffset : ℕ → ℤ) (n : ℕ)
    (s : Rand) (k : ℕ) : (scrollLoop pageHeight viewportHeight pageYOffset n s k).1.length = n := by
  induction n generalizing s k with
  | zero => rfl
  | succ n ih => simp only [scrollLoop, List.length_cons, ih]

theorem ScrollRandomly_returns (s : Rand) (pageHeight viewportHeight : ℤ) (pageYOffset : ℕ → ℤ)
    (hv : 2 ≤ viewportHeight) :
    ScrollRandomly s pageHeight viewportHeight pageYOffset =
      some (scrollLoop pageHeight viewportHeight pageYOffset (3 + (s.Intn 7).1).toNat
        (s.Intn 7).2 0) := by
  unfold ScrollRandomly
  have h := goDiv_two_of_two_le viewportHeight hv
  simp only
  rw [if_neg (by omega)]

theorem scrollCount_ge (s : Rand) : 3 ≤ (3 + (s.Intn 7).1).toNat := by
  have : 0 ≤ (s.Intn 7).1 := by
    simp only [Rand.Intn]
    omega
  omega

theorem forwardTarget_le (pageHeight viewportHeight currentScroll scrollDistance : ℤ) :
    forwardTarget pageHeight viewportHeight currentScroll scrollDistance ≤
      pageHeight - viewportHeight := by
  unfold forwardTarget
  split_ifs <;> omega

theorem forwardTarget_nonneg (pageHeight viewportHeight currentScroll scrollDistance : ℤ)
    (hp : viewportHeight ≤ pageHeight) (hc : 0 ≤ currentScroll) (hd : 0 ≤ scrollDistance) :
    0 ≤ forwardTarget pageHeight viewportHeight currentScroll scrollDistance := by
  unfold forwardTarget
  split_ifs <;> omega

theorem scrollDistance_pos (s : Rand) (viewportHeight : ℤ) (hv : 2 ≤ viewportHeight) :
    1 ≤ goDiv viewportHeight 2 + (s.Intn (goDiv viewportHeight 2)).1 := by
  have h := goDiv_two_of_two_le viewportHeight hv
  have : 0 ≤ (s.Intn (goDiv viewportHeight 2)).1 := by
    simp only [Rand.Intn]
    exact Int.emod_nonneg _ (by omega)
  omega

/-- C23 (as amended): for every document height that is at least the viewport
height, every viewport height of at least 2, every (non-negative) offset read
from the page and every outcome of the draws, `ScrollRandomly` returns after at
least 3 iterations, and each forward-scroll target it passes to
`smoothScrollTo` lies in `[0, documentHeight - viewportHeight]`. -/
theorem C23_forward_target_range (s : Rand) (pageHeight viewportHeight : ℤ)
    (pageYOffset : ℕ → ℤ) (hv : 2 ≤ viewportHeight) (hp : viewportHeight ≤ pageHeight)
    (hr : ∀ k, 0 ≤ pageYOffset k) :
    ∃ run, ScrollRandomly s pageHeight viewportHeight pageYOffset = some run ∧
      3 ≤ run.1.length ∧
      ∀ a ∈ run.1, 0 ≤ a.targetScroll ∧ a.targetScroll ≤ pageHeight - viewportHeight := by
  refine ⟨_, ScrollRandomly_returns s pageHeight viewportHeight pageYOffset hv, ?_, ?_⟩
  · rw [scrollLoop_length]
    exact scrollCount_ge s
  · apply scrollLoop_forall
    intro s1 k
    rw [scrollStep_targetScroll]
    exact ⟨forwardTarget_nonneg _ _ _ _ hp (hr k) (by
      have := scrollDistance_pos s1 viewportHeight hv
      omega), forwardTarget_le _ _ _ _⟩

/-- Witness of C23 (amended): a document of height 5000 in a viewport of
height 800, the page reporting offset 0 at every read. -/
theorem C23_forward_target_range_witness :
    (2 : ℤ) ≤ 800 ∧ (800 : ℤ) ≤ 5000 ∧
      ∃ run, ScrollRandomly ⟨fun _ => 0, 0⟩ 5000 800 (fun _ => 0) = some run ∧
        3 ≤ run.1.length ∧ ∀ a ∈ run.1, 0 ≤ a.targetScroll ∧ a.targetScroll ≤ 5000 - 800 :=
  ⟨by decide, by decide,
    C23_forward_target_range ⟨fun _ => 0, 0⟩ 5000 800 (fun _ => 0) (by decide) (by decide)
      (fun _ => le_refl 0)⟩

/-- C23 (as stated) fails: for a document of height 500 in a viewport of height
800 (viewport height at least 2), from the non-negative offset 0, the three
forward-scroll targets passed to `smoothScrollTo` are all -300: the target is
only lowered to `documentHeight - viewportHeight`, never raised to 0. -/
theorem C23_forward_target_range_counterexample :
    (ScrollRandomly ⟨fun _ => 0, 0⟩ 500 800 (fun _ => 0)).map
        (fun run => run.1.map ScrollStep.targetScroll) = some [-300, -300, -300] := by
  rw [ScrollRandomly_returns _ _ _ _ (by decide)]
  have hc : (3 + ((⟨fun _ => 0, 0⟩ : Rand).Intn 7).1).toNat = 3 := by
    simp [Rand.Intn]
  rw [hc]
  have hall : ∀ a ∈ (scrollLoop 500 800 (fun _ => 0) 3
      ((⟨fun _ => 0, 0⟩ : Rand).Intn 7).2 0).1, a.targetScroll = -300 := by
    apply scrollLoop_forall
    intro s1 k
    rw [scrollStep_targetScroll]
    have := scrollDistance_pos s1 800 (by decide)
    unfold forwardTarget
    rw [if_pos (by omega)]
    norm_num
  have hlen := scrollLoop_length 500 800 (fun _ => 0) 3 ((⟨fun _ => 0, 0⟩ : Rand).Intn 7).2 0
  simp only [Option.map_some', Option.some.injEq]
  have e : [(-300 : ℤ), -300, -300] = List.replicate 3 (-300) := rfl
  rw [e, List.eq_replicate_iff]
  refine ⟨by rw [List.length_map, hlen], ?_⟩
  intro b hb
  rw [List.mem_map] at hb
  obtain ⟨a, ha, rfl⟩ := hb
  exact hall a ha

/-! ## The scroll back up -/

theorem smoothScrollLoop_src (current target steps : ℤ) (n : ℕ) (i : ℤ) (s : Rand) :
    (smoothScrollLoop current target steps n i s).2.src = s.src := by
  induction n generalizing i s with
  | zero => rfl
  | succ n ih =>
    rw [smoothScrollLoop]
    simp only
    rw [ih]
    rfl

theorem smoothScrollTo_src (s : Rand) (current target : ℤ) :
    (smoothScrollTo s current target).2.src = s.src := by
  unfold smoothScrollTo
  simp only
  rw [smoothScrollLoop_src]
  rfl

theorem scrollLoop_head (pageHeight viewportHeight : ℤ) (pageYOffset : ℕ → ℤ) (n : ℕ)
    (s : Rand) (k : ℕ) :
    (scrollLoop pageHeight viewportHeight pageYOffset (n + 1) s k).1.head? =
      some (scrollStep s pageHeight viewportHeight pageYOffset k).1 := rfl

theorem smoothScrollTo_last_400 (s : Rand) :
    (scrollOffsets (smoothScrollTo s 0 400).1).getLast? = some 400 := by
  rw [smoothScrollTo_last]
  have h : roundF64 (((400 - 0 : ℤ) : ℤ) : ℚ) = ((400 : ℤ) : ℚ) := by
    have := roundF64_intCast 400 (by norm_num)
    simpa using this
  rw [h, roundF64_intCast 400 (by norm_num), f64toInt_intCast]
  rfl

/-- C26 (as amended): for every viewport height of at least 2, every document
height, every offset read from the page and every outcome of the draws,
`ScrollRandomly` returns, its first iteration reads `currentScroll` before any
scrolling, and whenever the scroll back up of an iteration takes place its
target is `max(0, c - r)` with `0 <= r < 200`, where `c` is `currentScroll`, the
offset read at the start of that iteration, before its forward scroll. -/
theorem C26_back_scroll_target (s : Rand) (pageHeight viewportHeight : ℤ)
    (pageYOffset : ℕ → ℤ) (hv : 2 ≤ viewportHeight) :
    ∃ run, ScrollRandomly s pageHeight viewportHeight pageYOffset = some run ∧
      run.1.head?.map ScrollStep.currentScroll = some (pageYOffset 0) ∧
      ∀ a ∈ run.1, ∀ b, a.backScroll = some b →
        ∃ r : ℤ, 0 ≤ r ∧ r < 200 ∧ b = max 0 (a.currentScroll - r) := by
  refine ⟨_, ScrollRandomly_returns s pageHeight viewportHeight pageYOffset hv, ?_, ?_⟩
  · obtain ⟨n, hn⟩ : ∃ n, (3 + (s.Intn 7).1).toNat = n + 1 :=
      ⟨(3 + (s.Intn 7).1).toNat - 1, by have := scrollCount_ge s; omega⟩
    rw [hn, scrollLoop_head, Option.map_some', scrollStep_currentScroll]
  · apply scrollLoop_forall
    intro s1 k b hb
    rw [scrollStep_currentScroll]
    exact scrollStep_backScroll s1 pageHeight viewportHeight pageYOffset k b hb

/-- Witness of C26 (amended): a document of height 5000 in a viewport of
height 800. -/
theorem C26_back_scroll_target_witness :
    (2 : ℤ) ≤ 800 ∧
      ∃ run, ScrollRandomly ⟨fun _ => 0, 0⟩ 5000 800 (fun k => if k < 2 then 0 else 400) =
          some run ∧
        run.1.head?.map ScrollStep.currentScroll = some ((fun k => if k < 2 then 0 else 400) 0) ∧
        ∀ a ∈ run.1, ∀ b, a.backScroll = some b →
          ∃ r : ℤ, 0 ≤ r ∧ r < 200 ∧ b = max 0 (a.currentScroll - r) :=
  ⟨by decide,
    C26_back_scroll_target ⟨fun _ => 0, 0⟩ 5000 800 (fun k => if k < 2 then 0 else 400)
      (by decide)⟩

theorem scrollStep_forward (s : Rand) (pageHeight viewportHeight : ℤ)
    (pageYOffset : ℕ → ℤ) (k : ℕ) :
    (scrollStep s pageHeight viewportHeight pageYOffset k).1.forward =
      (smoothScrollTo (s.Intn (goDiv viewportHeight 2)).2 (pageYOffset (k + 1))
        (forwardTarget pageHeight viewportHeight (pageYOffset k)
          (goDiv viewportHeight 2 + (s.Intn (goDiv viewportHeight 2)).1))).1 := by
  unfold scrollStep
  simp only
  split_ifs <;> rfl

theorem scrollStep_backScroll_of_zero (s : Rand) (hs : s.src = fun _ => 0)
    (pageHeight viewportHeight : ℤ) (pageYOffset : ℕ → ℤ) (k : ℕ) :
    (scrollStep s pageHeight viewportHeight pageYOffset k).1.backScroll =
      some (backTarget (pageYOffset k) 0) := by
  unfold scrollStep
  simp only
  have hsrc : ((smoothScrollTo (s.Intn (goDiv viewportHeight 2)).2 (pageYOffset (k + 1))
      (forwardTarget pageHeight viewportHeight (pageYOffset k)
        (goDiv viewportHeight 2 + (s.Intn (goDiv viewportHeight 2)).1))).2.Intn 3000).2.src =
      fun _ => 0 := by
    rw [Rand.Intn_snd_src, smoothScrollTo_src, Rand.Intn_snd_src, hs]
  have hf := Rand.Float64_fst_of_zero _ hsrc
  have hr := Rand.Intn_fst_of_zero
    ((smoothScrollTo (s.Intn (goDiv viewportHeight 2)).2 (pageYOffset (k + 1))
      (forwardTarget pageHeight viewportHeight (pageYOffset k)
        (goDiv viewportHeight 2 + (s.Intn (goDiv viewportHeight 2)).1))).2.Intn 3000).2.Float64.2
    (by rw [Rand.Float64_snd_src, hsrc]) 200
  rw [if_pos (by rw [hf]; norm_num [backScrollChance])]
  simp only [hr]

/-- C26 (as stated) fails: a document of height 5000 in a viewport of height
800, the page at offset 0 and, after the forward scroll, at offset 400; all
draws 0. The first iteration reads the offset 0, scrolls forward to the target
400 (the last offset it sets) and then scrolls back up to the target 0: the page
moves backward by 400 pixels, and 0 is not `max(0, 400 - r)` for any `r` with
`0 <= r < 200`. -/
theorem C26_back_scroll_target_counterexample :
    (ScrollRandomly ⟨fun _ => 0, 0⟩ 5000 800 (fun k => if k < 2 then 0 else 400)).map
        (fun run => run.1.head?.map fun a =>
          (a.currentScroll, a.targetScroll, (scrollOffsets a.forward).getLast?, a.backScroll)) =
      some (some (0, 400, some 400, some 0)) ∧
    ¬ ∃ r : ℤ, 0 ≤ r ∧ r < 200 ∧ (0 : ℤ) = max 0 (400 - r) := by
  constructor
  · rw [ScrollRandomly_returns _ _ _ _ (by decide)]
    have hc : (3 + ((⟨fun _ => 0, 0⟩ : Rand).Intn 7).1).toNat = 2 + 1 := by
      simp [Rand.Intn]
    have hs : ((⟨fun _ => 0, 0⟩ : Rand).Intn 7).2.src = fun _ => 0 := rfl
    have hd : (((⟨fun _ => 0, 0⟩ : Rand).Intn 7).2.Intn (goDiv 800 2)).1 = 0 :=
      Rand.Intn_fst_of_zero _ hs _
    have hg : goDiv 800 2 = 400 := by decide
    have ht : forwardTarget 5000 800 0 (400 + 0) = 400 := by decide
    rw [hc]
    simp only [Option.map_some', scrollLoop_head, scrollStep_currentScroll,
      scrollStep_targetScroll, scrollStep_forward, scrollStep_backScroll_of_zero _ hs, hd]
    simp only [hg, Nat.lt_irrefl, zero_add, Nat.one_lt_ofNat, if_true, Nat.ofNat_pos, ht,
      smoothScrollTo_last_400]
    rfl
  · rintro ⟨r, h0, h1, h2⟩
    have : 400 - r ≤ max 0 (400 - r) := le_max_right _ _
    omega

/-! ## Erase bursts -/

theorem typoActions_src (t : Rand) (i textLength : ℤ) :
    (typoActions t i textLength).2.src = t.src := by
  unfold typoActions
  simp only
  split_ifs <;> rfl

theorem getKeystrokeDelay_src (t : Rand) (char : Char) (position textLength : ℤ) :
    (getKeystrokeDelay t char position textLength).2.src = t.src := by
  unfold getKeystrokeDelay
  simp only
  split_ifs <;> rfl

theorem typeLoop_src (textLength : ℤ) (cs : List Char) (i : ℤ) (t : Rand) :
    (typeLoop textLength cs i t).2.src = t.src := by
  induction cs generalizing i t with
  | nil => rfl
  | cons c cs ih =>
    rw [typeLoop]
    simp only
    rw [ih, getKeystrokeDelay_src, typoActions_src]

theorem TypeText_src (t : Rand) (focusErr : Option String) (text : String) :
    (TypeText t focusErr text).2.2.src = t.src := by
  unfold TypeText
  cases focusErr with
  | some err => rfl
  | none =>
    simp only
    rw [typeLoop_src]
    rfl

theorem TypeText_ok (t : Rand) (text : String) : (TypeText t none text).1 = none := rfl

theorem TypeText_typedBuffer (t : Rand) (text : String) (buf : List Char) :
    typedBuffer buf (TypeText t none text).2.1 = buf ++ text.data := by
  unfold TypeText
  simp only [typedBuffer]
  exact typeLoop_typedBuffer _ _ _ _ _

theorem typeLoopRunes_typedBuffer (textLength : ℤ) (rs : List (Char × ℕ)) (i : ℤ) (t : Rand)
    (buf : List Char) :
    typedBuffer buf (typeLoopRunes textLength rs i t).1 = buf ++ rs.map Prod.fst := by
  induction rs generalizing i t buf with
  | nil => simp [typeLoopRunes, typedBuffer]
  | cons c rs ih =>
    rw [typeLoopRunes]
    simp only
    rw [typedBuffer_append, typoActions_typedBuffer]
    simp only [typedBuffer]
    rw [ih]
    simp [String.singleton, String.push]

theorem TypeTextRunes_typedBuffer (t : Rand) (rs : List (Char × ℕ)) (buf : List Char) :
    typedBuffer buf (TypeTextRunes t none rs).2.1 = buf ++ rs.map Prod.fst := by
  unfold TypeTextRunes
  simp only [typedBuffer]
  exact typeLoopRunes_typedBuffer _ _ _ _ _

theorem eraseLoop_typedBuffer (n : ℕ) (t : Rand) (buf : List Char) :
    typedBuffer buf (eraseLoop n t).1 = buf.take (buf.length - n) := by
  induction n generalizing t buf with
  | zero => simp [eraseLoop, typedBuffer]
  | succ n ih =>
    rw [eraseLoop]
    simp only [typedBuffer]
    rw [ih, List.dropLast_eq_take, List.take_take, List.length_take]
    congr 1
    omega

theorem eraseBurst_fires (t : Rand) (focusErr : Option String) (word : String)
    (hf : t.Float64.1 < eraseChance) (hl : (word.utf8ByteSize : ℤ) > 3) :
    (eraseBurst t focusErr word).1 =
      (eraseLoop (1 + (t.Float64.2.Intn 3).1).toNat (t.Float64.2.Intn 3).2).1 ++
        (TypeTextRunes (eraseLoop (1 + (t.Float64.2.Intn 3).1).toNat (t.Float64.2.Intn 3).2).2
          focusErr (byteSuffix word (1 + (t.Float64.2.Intn 3).1).toNat)).2.1 := by
  unfold eraseBurst
  simp only
  rw [if_pos ⟨hf, hl⟩]

theorem typeWords_single (focus : ℕ → Option String) (word : String) (t : Rand) (n : ℕ)
    (h : focus n = none) :
    typeWords focus [word] t n =
      (none, (TypeText t none word).2.1 ++
        (eraseBurst (TypeText t none word).2.2 (focus (n + 1)) word).1,
        (eraseBurst (TypeText t none word).2.2 (focus (n + 1)) word).2.1) := by
  simp [typeWords, h, TypeText_ok, spaceAfter]

/-- C25 (the code on the failing input): `TypeWithBackspace` of the word
"abcé" (five bytes, the last character taking two) with every raw draw equal
to 1, so that the erase burst takes place with two Backspaces. The Backspaces
remove the characters "c" and "é"; the slice `word[len(word)-2:]` is the two
bytes of "é", so the burst is two Backspaces followed by `TypeText` of "é"
alone, and the field ends as "abé". -/
theorem C25_TypeWithBackspace_retypes_bytes :
    (TypeWithBackspace ⟨fun _ => 1, 0⟩ (fun _ => none) "abcé").1 = none ∧
    (eraseBurst (TypeText ⟨fun _ => 1, 0⟩ none "abcé").2.2 none "abcé").1 =
      (eraseLoop 2 ((TypeText ⟨fun _ => 1, 0⟩ none "abcé").2.2.Float64.2.Intn 3).2).1 ++
        (TypeTextRunes
          (eraseLoop 2 ((TypeText ⟨fun _ => 1, 0⟩ none "abcé").2.2.Float64.2.Intn 3).2).2
          none [('é', 2)]).2.1 ∧
    typedBuffer [] (TypeWithBackspace ⟨fun _ => 1, 0⟩ (fun _ => none) "abcé").2.1 =
      ['a', 'b', 'é'] := by
  have hF : Fields "abcé" = ["abcé"] := by decide
  have hsrc : (TypeText ⟨fun _ => 1, 0⟩ none "abcé").2.2.src = fun _ => 1 := TypeText_src _ _ _
  have hf : (TypeText ⟨fun _ => 1, 0⟩ none "abcé").2.2.Float64.1 < eraseChance := by
    simp only [Rand.Float64, hsrc]
    norm_num [eraseChance]
  have hk : (1 + ((TypeText ⟨fun _ => 1, 0⟩ none "abcé").2.2.Float64.2.Intn 3).1).toNat = 2 := by
    have : ((TypeText ⟨fun _ => 1, 0⟩ none "abcé").2.2.Float64.2.Intn 3).1 = 1 := by
      simp only [Rand.Intn, Rand.Float64_snd_src, hsrc]
      norm_num
    rw [this]
    rfl
  have hl : (("abcé".utf8ByteSize : ℕ) : ℤ) > 3 := by decide
  have hb : byteSuffix "abcé" 2 = [('é', 2)] := by decide
  have hburst := eraseBurst_fires (TypeText ⟨fun _ => 1, 0⟩ none "abcé").2.2 none "abcé" hf hl
  rw [hk, hb] at hburst
  refine ⟨?_, ?_, ?_⟩
  · unfold TypeWithBackspace
    rw [hF, typeWords_single _ _ _ _ rfl]
  · exact hburst
  · unfold TypeWithBackspace
    rw [hF, typeWords_single _ _ _ _ rfl]
    simp only
    rw [hburst, typedBuffer_append, typedBuffer_append, TypeText_typedBuffer,
      eraseLoop_typedBuffer, TypeTextRunes_typedBuffer]
    rfl

/-! ## Content typed by `TypeWithBackspace` -/

theorem utf8Size_of_ascii (c : Char) (h : c.toNat < 128) : c.utf8Size = 1 := by
  unfold Char.utf8Size
  simp only
  rw [if_pos]
  rw [UInt32.le_def, BitVec.le_def]
  have h1 : c.val.toBitVec.toNat < 128 := h
  show c.val.toBitVec.toNat ≤ 127
  omega

theorem utf8Len_of_ascii (cs : List Char) (h : ∀ c ∈ cs, c.toNat < 128) :
    String.utf8Len cs = cs.length := by
  induction cs with
  | nil => rfl
  | cons c cs ih =>
    rw [String.utf8Len_cons, ih (fun d hd => h d (List.mem_cons_of_mem c hd)),
      utf8Size_of_ascii c (h c (List.mem_cons_self c cs)), List.length_cons]

theorem utf8ByteSize_of_ascii (w : String) (h : ∀ c ∈ w.data, c.toNat < 128) :
    w.utf8ByteSize = w.data.length := by
  cases w with
  | mk cs => exact utf8Len_of_ascii cs h

theorem byteSuffixRev_of_ascii (rev : List Char) (k : ℕ) (h : ∀ c ∈ rev, c.toNat < 128) :
    (byteSuffixRev rev k).map Prod.fst = (rev.take k).reverse := by
  induction rev generalizing k with
  | nil => simp [byteSuffixRev]
  | cons c rest ih =>
    have hc := utf8Size_of_ascii c (h c (List.mem_cons_self c rest))
    rw [byteSuffixRev]
    by_cases hk : k = 0
    · simp [hk]
    · rw [if_neg hk, hc, if_pos (by omega), List.map_append,
        ih (k - 1) (fun d hd => h d (List.mem_cons_of_mem c hd))]
      obtain ⟨j, rfl⟩ : ∃ j, k = j + 1 := ⟨k - 1, by omega⟩
      simp

theorem byteSuffix_of_ascii (w : String) (k : ℕ) (h : ∀ c ∈ w.data, c.toNat < 128) :
    (byteSuffix w k).map Prod.fst = w.data.drop (w.data.length - k) := by
  unfold byteSuffix
  rw [byteSuffixRev_of_ascii _ _ (fun c hc => h c (List.mem_reverse.mp hc))]
  rw [List.take_reverse, List.reverse_reverse]

theorem eraseBurst_typedBuffer (t : Rand) (w : String) (buf : List Char)
    (h : ∀ c ∈ w.data, c.toNat < 128) :
    typedBuffer (buf ++ w.data) (eraseBurst t none w).1 = buf ++ w.data := by
  unfold eraseBurst
  simp only
  split_ifs with hc
  · have hlen : (w.data.length : ℤ) > 3 := by
      have := hc.2
      rw [utf8ByteSize_of_ascii w h] at this
      exact this
    have hr : 0 ≤ (t.Float64.2.Intn 3).1 ∧ (t.Float64.2.Intn 3).1 < 3 := by
      simp only [Rand.Intn]
      omega
    obtain ⟨k, hk⟩ : ∃ k : ℕ, (1 + (t.Float64.2.Intn 3).1).toNat = k :=  ⟨_, rfl⟩
    have hk3 : k ≤ 3 := by omega
    rw [hk, typedBuffer_append, eraseLoop_typedBuffer, TypeTextRunes_typedBuffer,
      byteSuffix_of_ascii w k h, List.length_append]
    have e : buf.length + w.data.length - k = buf.length + (w.data.length - k) := by omega
    rw [e, List.take_append, List.append_assoc, List.take_append_drop]
  · rfl

theorem intercalate_go_data (acc : String) (ws : List String) :
    (String.intercalate.go acc " " ws).data =
      acc.data ++ (ws.map fun w => ' ' :: w.data).flatten := by
  induction ws generalizing acc with
  | nil => simp [String.intercalate.go]
  | cons w ws ih =>
    rw [String.intercalate.go, ih]
    simp [String.data_append]

theorem intercalate_cons_data (w : String) (rest : List String) :
    (" ".intercalate (w :: rest)).data =
      w.data ++ (if rest.isEmpty then [] else ' ' :: (" ".intercalate rest).data) := by
  cases rest with
  | nil => simp [String.intercalate, String.intercalate.go]
  | cons r rs =>
    simp only [String.intercalate, intercalate_go_data, List.map_cons, List.flatten_cons,
      List.isEmpty_cons, Bool.false_eq_true, if_false, List.cons_append]

theorem spaceAfter_typedBuffer (t : Rand) (last : Bool) (buf : List Char) :
    typedBuffer buf (spaceAfter t last).1 = buf ++ (if last then [] else [' ']) := by
  unfold spaceAfter
  cases last with
  | true => simp [typedBuffer]
  | false =>
    simp only [Bool.false_eq_true, if_false, typedBuffer]

theorem typeWords_cons (focus : ℕ → Option String) (w : String) (rest : List String) (t : Rand)
    (n : ℕ) (h : focus n = none) :
    typeWords focus (w :: rest) t n =
      ((typeWords focus rest
          (spaceAfter (eraseBurst (TypeText t none w).2.2 (focus (n + 1)) w).2.1 rest.isEmpty).2
          (n + 1 + (eraseBurst (TypeText t none w).2.2 (focus (n + 1)) w).2.2)).1,
        (TypeText t none w).2.1 ++ (eraseBurst (TypeText t none w).2.2 (focus (n + 1)) w).1 ++
          (spaceAfter (eraseBurst (TypeText t none w).2.2 (focus (n + 1)) w).2.1
            rest.isEmpty).1 ++
          (typeWords focus rest
            (spaceAfter (eraseBurst (TypeText t none w).2.2 (focus (n + 1)) w).2.1
              rest.isEmpty).2
            (n + 1 + (eraseBurst (TypeText t none w).2.2 (focus (n + 1)) w).2.2)).2.1,
        (typeWords focus rest
          (spaceAfter (eraseBurst (TypeText t none w).2.2 (focus (n + 1)) w).2.1 rest.isEmpty).2
          (n + 1 + (eraseBurst (TypeText t none w).2.2 (focus (n + 1)) w).2.2)).2.2) := by
  rw [typeWords, h]
  rfl

theorem typeWords_typedBuffer (ws : List String) (t : Rand) (n : ℕ) (buf : List Char)
    (h : ∀ w ∈ ws, ∀ c ∈ w.data, c.toNat < 128) :
    (typeWords (fun _ => none) ws t n).1 = none ∧
      typedBuffer buf (typeWords (fun _ => none) ws t n).2.1 =
        buf ++ (" ".intercalate ws).data := by
  induction ws generalizing t n buf with
  | nil => simp [typeWords, typedBuffer, String.intercalate]
  | cons w rest ih =>
    have hw := h w (List.mem_cons_self w rest)
    have hrest : ∀ v ∈ rest, ∀ c ∈ v.data, c.toNat < 128 :=
      fun v hv => h v (List.mem_cons_of_mem w hv)
    rw [typeWords_cons _ _ _ _ _ rfl]
    refine ⟨(ih _ _ buf hrest).1, ?_⟩
    simp only
    rw [typedBuffer_append, typedBuffer_append, typedBuffer_append, TypeText_typedBuffer,
      eraseBurst_typedBuffer _ _ _ hw, spaceAfter_typedBuffer, (ih _ _ _ hrest).2,
      intercalate_cons_data]
    cases rest with
    | nil => simp [String.intercalate]
    | cons r rs => simp

theorem fieldsAux_mem (cs cur : List Char) :
    ∀ w ∈ fieldsAux cs cur, ∀ c ∈ w, c ∈ cur ∨ c ∈ cs := by
  induction cs generalizing cur with
  | nil =>
    intro w hw c hc
    rw [fieldsAux] at hw
    split_ifs at hw with h
    · simp at hw
    · simp only [List.mem_singleton] at hw
      subst hw
      exact Or.inl hc
  | cons d cs ih =>
    intro w hw c hc
    rw [fieldsAux] at hw
    split_ifs at hw with h1 h2
    · rcases ih [] w hw c hc with h | h
      · simp at h
      · exact Or.inr (List.mem_cons_of_mem d h)
    · rcases List.mem_cons.mp hw with rfl | hw
      · exact Or.inl hc
      · rcases ih [] w hw c hc with h | h
        · simp at h
        · exact Or.inr (List.mem_cons_of_mem d h)
    · rcases ih (cur ++ [d]) w hw c hc with h | h
      · rcases List.mem_append.mp h with h | h
        · exact Or.inl h
        · simp only [List.mem_singleton] at h
          subst h
          exact Or.inr (List.mem_cons_self c cs)
      · exact Or.inr (List.mem_cons_of_mem d h)

theorem Fields_mem (text : String) : ∀ w ∈ Fields text, ∀ c ∈ w.data, c ∈ text.data := by
  intro w hw c hc
  unfold Fields at hw
  rw [List.mem_map] at hw
  obtain ⟨v, hv, rfl⟩ := hw
  rcases fieldsAux_mem text.data [] v hv c hc with h | h
  · simp at h
  · exact h

/-- When every `Focus` succeeds: for every ASCII text and every outcome of the
random draws `TypeWithBackspace` returns no error and, under the buffer
model where an input appends its characters and a Backspace deletes the last
one, the content it leaves in an empty field is the words of the text
(`strings.Fields`) joined by single spaces; white space at the start, at the
end and repeated between words, newlines included, is not reproduced. -/
theorem TypeWithBackspace_content (t : Rand) (text : String)
    (hascii : ∀ c ∈ text.data, c.toNat < 128) :
    (TypeWithBackspace t (fun _ => none) text).1 = none ∧
      typedBuffer [] (TypeWithBackspace t (fun _ => none) text).2.1 =
        (" ".intercalate (Fields text)).data := by
  have h := typeWords_typedBuffer (Fields text) t 0 []
    (fun w hw c hc => hascii c (Fields_mem text w hw c hc))
  rw [List.nil_append] at h
  exact h

/-- An example: the text "  hello   big\n world\t", whose words are
"hello", "big" and "world", with all draws 0 (every erase burst taking
place). -/
theorem TypeWithBackspace_content_example :
    (∀ c ∈ "  hello   big\n world\t".data, c.toNat < 128) ∧
      Fields "  hello   big\n world\t" = ["hello", "big", "world"] ∧
      typedBuffer [] (TypeWithBackspace ⟨fun _ => 0, 0⟩ (fun _ => none)
        "  hello   big\n world\t").2.1 =
        (" ".intercalate (Fields "  hello   big\n world\t")).data :=
  ⟨by decide, by decide,
    (TypeWithBackspace_content ⟨fun _ => 0, 0⟩ "  hello   big\n world\t" (by decide)).2⟩

/-- Witness of C27: the first point of the path from (0, 0) to (50, 0), all
draws 0. -/
theorem C27_generateBezierPath_in_bounding_box_witness :
    ({ X := 0, Y := 0 } : Point) ∈ (generateBezierPath ⟨fun _ => 0, 0⟩ 0 0 50 0).1 ∧
      ((min (0 : ℚ) 50 ≤ ({ X := 0, Y := 0 } : Point).X ∧
          ({ X := 0, Y := 0 } : Point).X ≤ max (0 : ℚ) 50) ∧
        (min (0 : ℚ) 0 ≤ ({ X := 0, Y := 0 } : Point).Y ∧
          ({ X := 0, Y := 0 } : Point).Y ≤ max (0 : ℚ) 0)) :=
  have hmem : ({ X := 0, Y := 0 } : Point) ∈ (generateBezierPath ⟨fun _ => 0, 0⟩ 0 0 50 0).1 := by
    obtain ⟨ps, h⟩ := generateBezierPath_head ⟨fun _ => 0, 0⟩ 0 0 50 0
    rw [h]
    exact List.mem_cons_self _ _
  ⟨hmem, C27_generateBezierPath_in_bounding_box ⟨fun _ => 0, 0⟩ 0 0 50 0 _ hmem⟩

/-! ## `TypeText` on a valid string and on a slice of bytes -/

theorem typeLoop_eq_typeLoopRunes (textLength : ℤ) (cs : List Char) (i : ℤ) (t : Rand) :
    typeLoop textLength cs i t =
      typeLoopRunes textLength (cs.map fun c => (c, c.utf8Size)) i t := by
  induction cs generalizing i t with
  | nil => rfl
  | cons c cs ih =>
    rw [typeLoop, List.map_cons, typeLoopRunes]
    simp only
    rw [ih]

theorem runesOf_width_sum (cs : List Char) :
    ((cs.map fun c => (c, c.utf8Size)).map Prod.snd).sum = String.utf8Len cs := by
  induction cs with
  | nil => rfl
  | cons c cs ih =>
    simp only [List.map_cons, List.sum_cons, String.utf8Len_cons, ih]
    omega

/-- On a valid string `TypeTextRunes` is `TypeText`. -/
theorem TypeText_eq_TypeTextRunes (t : Rand) (focusErr : Option String) (text : String) :
    TypeText t focusErr text = TypeTextRunes t focusErr (runesOf text) := by
  cases text with
  | mk cs =>
    unfold TypeText TypeTextRunes runesOf
    cases focusErr with
    | some err => rfl
    | none =>
      simp only [typeLoop_eq_typeLoopRunes, runesOf_width_sum, String.utf8ByteSize_mk]

/-! ## The error of the retyping call -/

/-- C29 (the code on the failing input): `TypeWithBackspace` of the ASCII text
"hello" with all draws 0, so that the erase burst takes place with one
Backspace, where the first `Focus` succeeds and the second one, made by the
retyping `TypeText`, fails. That `TypeText` returns the error before typing;
`TypeWithBackspace` does not look at it and returns nil, and the field is left
as "hell", not the word "hello" of the text. -/
theorem C29_TypeWithBackspace_retype_error_dropped :
    (TypeWithBackspace ⟨fun _ => 0, 0⟩ (fun n => if n = 1 then some "focus failed" else none)
        "hello").1 = none ∧
      (∀ t : Rand, (TypeTextRunes t (some "focus failed") (byteSuffix "hello" 1)).1 =
        some "focus failed") ∧
      typedBuffer [] (TypeWithBackspace ⟨fun _ => 0, 0⟩
        (fun n => if n = 1 then some "focus failed" else none) "hello").2.1 =
          ['h', 'e', 'l', 'l'] ∧
      (" ".intercalate (Fields "hello")).data = ['h', 'e', 'l', 'l', 'o'] := by
  have hF : Fields "hello" = ["hello"] := by decide
  have hsrc : (TypeText ⟨fun _ => 0, 0⟩ none "hello").2.2.src = fun _ => 0 := TypeText_src _ _ _
  have hf : (TypeText ⟨fun _ => 0, 0⟩ none "hello").2.2.Float64.1 < eraseChance := by
    rw [Rand.Float64_fst_of_zero _ hsrc]
    norm_num [eraseChance]
  have hk : (1 + ((TypeText ⟨fun _ => 0, 0⟩ none "hello").2.2.Float64.2.Intn 3).1).toNat = 1 := by
    rw [Rand.Intn_fst_of_zero _ (by rw [Rand.Float64_snd_src, hsrc])]
    rfl
  have hl : (("hello".utf8ByteSize : ℕ) : ℤ) > 3 := by decide
  have hburst := eraseBurst_fires (TypeText ⟨fun _ => 0, 0⟩ none "hello").2.2
    (some "focus failed") "hello" hf hl
  rw [hk] at hburst
  refine ⟨?_, fun t => rfl, ?_, by decide⟩
  · unfold TypeWithBackspace
    rw [hF, typeWords_single _ _ _ _ rfl]
  · unfold TypeWithBackspace
    rw [hF, typeWords_single _ _ _ _ rfl]
    simp only [if_true]
    rw [hburst, typedBuffer_append, typedBuffer_append, TypeText_typedBuffer,
      eraseLoop_typedBuffer]
    rfl

end Stealth
